import Mathlib

/-!
stock-ping: rule evaluation and notification dedup.

A shallow embedding of the edge-triggered rule evaluator (`rule/evaluator.go`),
the notifier guard (`notify/bark.go`), the plain-text watch pass
(`cmd/watch.go`, `checkRules`, the tick of `RunWatch`), the dashboard model
(`tui/model.go`: `NewModel`, `updateStock`, `refreshAllStocks`, `reloadRules`,
`SortByChange`), the rule list (`config/config.go`, `AddRule`) and the trading
calendar (`stock/market.go`), followed by theorems about them.

Conventions of the embedding:

* Go's `float64` is the type `float64` below: NaN, the two infinities, negative
  zero, and the finite values carried as exact rationals.  Comparisons follow
  IEEE-754 as Go implements them (every comparison with NaN is false).
* `fmt.Sprintf("%.2f", x)` is `fmtF2 x`: correct rounding of the exact value to
  two decimals, ties to even, as `strconv` does.
* A Go `map[string]bool` in which only `true` is ever stored is a
  `Finset String`; `map[string]map[string]bool` is a function from the symbol
  to `Option (Finset String)`, `none` standing for a missing (nil) entry.
* Effects (the fetch-error report, the call of the transport) are returned as
  an explicit log of events.
* The reading of `time.Now()` and the two zones loaded by `init` are arguments of
  the calendar functions; an instant is a count of nanoseconds since the epoch.
* `sort.Slice` is the insertion sort of the `sort` package on a slice of at most
  12 elements; on a longer slice the run of the package is an argument, a
  sequence of `Less(i, j)` and `Swap(i, j)` on positions of the slice.
-/

set_option autoImplicit false

/-! ## float64 and `%.2f` -/

/-- The values of a Go `float64`; a finite value is carried exactly. -/
inductive float64 where
  | NaN : float64
  | Inf (neg : Bool) : float64
  | negZero : float64
  | fin (q : ℚ) : float64
  deriving DecidableEq

namespace float64

/-- Position of a non-NaN value on the extended line: `-Inf` is `(-1, 0)`, a
finite `q` is `(0, q)`, `+Inf` is `(1, 0)`; `none` for NaN. -/
def rank : float64 → Option (Int × ℚ)
  | NaN => none
  | Inf true => some (-1, 0)
  | Inf false => some (1, 0)
  | negZero => some (0, 0)
  | fin q => some (0, q)

/-- Go's `a < b` on float64. -/
def lt (a b : float64) : Bool :=
  match a.rank, b.rank with
  | some (i, x), some (j, y) => decide (i < j) || (decide (i = j) && decide (x < y))
  | _, _ => false

/-- Go's `a > b` on float64. -/
def gt (a b : float64) : Bool := lt b a

/-- Go's `a >= b` on float64. -/
def ge (a b : float64) : Bool :=
  match a.rank, b.rank with
  | some (i, x), some (j, y) => decide (j < i) || (decide (i = j) && decide (y ≤ x))
  | _, _ => false

end float64

/-- Two decimal digits, zero padded. -/
def pad2 (n : ℕ) : String :=
  if n < 10 then "0" ++ toString n else toString n

/-- The hundredths nearest to `|q|`, ties to even. -/
def roundHundredths (q : ℚ) : ℕ :=
  let n := q.num.natAbs * 100
  let d := q.den
  let quo := n / d
  let rem := n % d
  if 2 * rem < d then quo
  else if d < 2 * rem then quo + 1
  else if quo % 2 = 0 then quo else quo + 1

/-- The verb `%.2f` of `fmt.Sprintf` applied to a float64. -/
def fmtF2 : float64 → String
  | float64.NaN => "NaN"
  | float64.Inf true => "-Inf"
  | float64.Inf false => "+Inf"
  | float64.negZero => "-0.00"
  | float64.fin q =>
    let r := roundHundredths q
    (if q < 0 then "-" else "") ++ toString (r / 100) ++ "." ++ pad2 (r % 100)

/-! ## config.Rule, stock.Quote -/

namespace config

/-- A monitoring rule (`config.Rule`); a nil threshold pointer is `none`. -/
structure Rule where
  Symbol : String
  Market : String
  Name : String
  PriceAbove : Option float64
  PriceBelow : Option float64
  ChangeAbove : Option float64
  ChangeBelow : Option float64
  deriving DecidableEq

/-- A position of the user (`config.Holding`). -/
structure Holding where
  Symbol : String
  Quantity : float64
  CostPrice : float64
  deriving DecidableEq

/-- The application configuration (`config.Config`); the Finnhub and Bark
sections are flattened into their fields. -/
structure Config where
  FinnhubAPIKey : String
  BarkServerURL : String
  BarkKey : String
  Interval : Int
  Rules : List Rule
  Holdings : List Holding
  deriving DecidableEq

/-- The method `Config.GetRule`: the first rule with that symbol, or nil. -/
def Config.GetRule (c : Config) (symbol : String) : Option Rule :=
  c.Rules.find? (fun r => r.Symbol == symbol)

end config

namespace stock

/-- A point-in-time quote (`stock.Quote`). -/
structure Quote where
  Symbol : String
  CurrentPrice : float64
  Change : float64
  PercentChange : float64
  High : float64
  Low : float64
  Open : float64
  PrevClose : float64
  Timestamp : Int
  deriving DecidableEq

end stock

/-! ## rule/evaluator.go -/

namespace rule

/-- The result of a rule evaluation (`rule.TriggerResult`). -/
structure TriggerResult where
  Rule : config.Rule
  Quote : stock.Quote
  Reasons : List String
  deriving DecidableEq

/-- The method `Triggered`: `len(t.Reasons) > 0`. -/
def TriggerResult.Triggered (t : TriggerResult) : Bool :=
  decide (t.Reasons.length > 0)

/-- The method `FormatNotification`: title and body of the push message. -/
def TriggerResult.FormatNotification (t : TriggerResult) : String × String :=
  let displayName :=
    if t.Rule.Name ≠ "" then t.Rule.Symbol ++ " (" ++ t.Rule.Name ++ ")" else t.Rule.Symbol
  let title := "📊 " ++ displayName ++ " 触发提醒"
  let changeSign := if float64.ge t.Quote.PercentChange (float64.fin 0) then "+" else ""
  let body := "价格: $" ++ fmtF2 t.Quote.CurrentPrice ++ " (" ++ changeSign
    ++ fmtF2 t.Quote.PercentChange ++ "%)\n"
  (title, t.Reasons.foldl (fun b reason => b ++ ("⚠️ " ++ reason ++ "\n")) body)

/-- The reason appended by the price-above check. -/
def reasonPriceAbove (price thr : float64) : String :=
  "价格 $" ++ fmtF2 price ++ " 超过 $" ++ fmtF2 thr

/-- The reason appended by the price-below check. -/
def reasonPriceBelow (price thr : float64) : String :=
  "价格 $" ++ fmtF2 price ++ " 低于 $" ++ fmtF2 thr

/-- The reason appended by the change-above check. -/
def reasonChangeAbove (pc thr : float64) : String :=
  "涨幅 " ++ fmtF2 pc ++ "% 超过 " ++ fmtF2 thr ++ "%"

/-- The reason appended by the change-below check. -/
def reasonChangeBelow (pc thr : float64) : String :=
  "跌幅 " ++ fmtF2 pc ++ "% 超过 " ++ fmtF2 thr ++ "%"

/-- One guarded `append` of `Evaluate`: the threshold is set and the comparison holds. -/
def appendIf (reasons : List String) (thr : Option float64) (holds : float64 → Bool)
    (reason : float64 → String) : List String :=
  match thr with
  | some t => if holds t then reasons ++ [reason t] else reasons
  | none => reasons

/-- The method `Evaluator.Evaluate`: the four checks, in source order. -/
def Evaluate (rule : config.Rule) (quote : stock.Quote) : TriggerResult :=
  let r0 : List String := []
  let r1 := appendIf r0 rule.PriceAbove (fun t => float64.gt quote.CurrentPrice t)
    (reasonPriceAbove quote.CurrentPrice)
  let r2 := appendIf r1 rule.PriceBelow (fun t => float64.lt quote.CurrentPrice t)
    (reasonPriceBelow quote.CurrentPrice)
  let r3 := appendIf r2 rule.ChangeAbove (fun t => float64.gt quote.PercentChange t)
    (reasonChangeAbove quote.PercentChange)
  let r4 := appendIf r3 rule.ChangeBelow (fun t => float64.lt quote.PercentChange t)
    (reasonChangeBelow quote.PercentChange)
  { Rule := rule, Quote := quote, Reasons := r4 }

end rule

/-! ## notify/bark.go -/

namespace notify

/-- The Bark notifier.  `transport title body group` is the outcome of the HTTP
request that `SendWithGroup` issues: `none` for status 200, `some err` otherwise. -/
structure Notifier where
  serverURL : String
  key : String
  transport : String → String → String → Option String

/-- The method `IsConfigured`: `n.key != ""`. -/
def Notifier.IsConfigured (n : Notifier) : Bool :=
  decide (n.key ≠ "")

/-- The method `SendWithGroup`; the result is the returned error, if any. -/
def Notifier.SendWithGroup (n : Notifier) (title body group : String) : Option String :=
  if n.key = "" then some "bark key is not configured"
  else n.transport title body group

end notify

/-! ## The trigger memory shared by both drivers -/

/-- The Go type `map[string]map[string]bool` of `triggeredState`. -/
abbrev TriggeredState := String → Option (Finset String)

/-- The state at process start: `make(map[string]map[string]bool)`. -/
def TriggeredState.empty : TriggeredState := fun _ => none

/-- Reading `triggeredState[symbol][reason]`: false on a missing entry. -/
def TriggeredState.has (st : TriggeredState) (symbol reason : String) : Bool :=
  match st symbol with
  | some s => decide (reason ∈ s)
  | none => false

/-- The loop `for _, reason := range result.Reasons { currentConditions[reason] = true }`. -/
def currentConditions (reasons : List String) : Finset String :=
  reasons.foldl (fun m reason => insert reason m) ∅

/-- An effect of a driver step that is visible outside it. -/
inductive Event where
  | fetchError (symbol err : String) : Event
  | send (title body group : String) (result : Option String) : Event
  deriving DecidableEq

/-- The event is a call of the transport. -/
def Event.isSend : Event → Bool
  | Event.send _ _ _ _ => true
  | Event.fetchError _ _ => false

/-! ## cmd/watch.go: `checkRules` -/

namespace cmd

/-- What the body of the loop of `checkRules` computes for one rule. -/
structure StepResult where
  state : TriggeredState
  newlyTriggered : Finset String
  events : List Event

/-- The body of the loop of `checkRules` for the rule `r`, given the outcome of
`stockClient.GetQuote(r.Symbol, r.Market)`.  The status lines printed to the
console are not part of the result. -/
def checkRule (notifier : notify.Notifier) (r : config.Rule)
    (fetched : Except String stock.Quote) (triggeredState : TriggeredState) : StepResult :=
  match fetched with
  | Except.error err =>
    { state := triggeredState, newlyTriggered := ∅, events := [Event.fetchError r.Symbol err] }
  | Except.ok quote =>
    let result := rule.Evaluate r quote
    let cur := currentConditions result.Reasons
    -- initialise the entry of this symbol if it does not exist
    let st1 : TriggeredState :=
      if triggeredState r.Symbol = none then Function.update triggeredState r.Symbol (some ∅)
      else triggeredState
    -- edge detection
    let newlyTriggered := cur.filter (fun reason => ¬ TriggeredState.has st1 r.Symbol reason)
    -- set current conditions and clear conditions no longer met
    let st2 : TriggeredState := Function.update st1 r.Symbol (some cur)
    let events :=
      if 0 < newlyTriggered.card ∧ notifier.IsConfigured then
        let tb := result.FormatNotification
        [Event.send tb.1 tb.2 "stock-ping" (notifier.SendWithGroup tb.1 tb.2 "stock-ping")]
      else []
    { state := st2, newlyTriggered := newlyTriggered, events := events }

/-- The function `checkRules`: one pass over `cfg.Rules`, each rule paired with
the outcome of its quote fetch.  The result is the final trigger memory and,
per rule, the events of its step. -/
def checkRules (notifier : notify.Notifier) :
    List (config.Rule × Except String stock.Quote) → TriggeredState →
      TriggeredState × List (String × List Event)
  | [], st => (st, [])
  | (r, fetched) :: rest, st =>
    let s := checkRule notifier r fetched st
    let out := checkRules notifier rest s.state
    (out.1, (r.Symbol, s.events) :: out.2)

/-- Successive passes of `checkRules` (the first at startup, then one per tick). -/
def runPasses (notifier : notify.Notifier) :
    List (List (config.Rule × Except String stock.Quote)) → TriggeredState →
      TriggeredState × List (List (String × List Event))
  | [], st => (st, [])
  | pass :: rest, st =>
    let p := checkRules notifier pass st
    let out := runPasses notifier rest p.1
    (out.1, p.2 :: out.2)

end cmd

/-! ## tui/model.go: `Model.updateStock` -/

namespace tui

/-- The current state of a stock on the dashboard (`tui.StockData`); `LastUpdate`
is a clock reading. -/
structure StockData where
  Symbol : String
  Name : String
  Price : float64
  Change : float64
  PrevClose : float64
  Open : float64
  High : float64
  Low : float64
  LastUpdate : Int
  Triggered : Bool
  TriggerReason : String
  Error : String
  Market : String
  Quantity : float64
  CostPrice : float64
  deriving DecidableEq

/-- The data and service fields of `tui.Model`; the view state and the table
widgets are left out. -/
structure Model where
  stocks : String → Option StockData
  stockOrder : List String
  cfg : config.Config
  notifier : notify.Notifier
  triggeredState : TriggeredState
  sortAscending : Bool
  holdingsCount : Int

/-- The message `stockUpdateMsg`: the symbol and the outcome of its quote fetch
(`err != nil` is `Except.error`). -/
structure stockUpdateMsg where
  symbol : String
  fetched : Except String stock.Quote

/-- What `updateStock` leaves behind: the model, the newly-triggered reasons it
computed (empty on the early returns) and the events. -/
structure UpdateResult where
  model : Model
  newlyTriggered : Finset String
  events : List Event

/-- The method `Model.updateStock`; `now` is the reading of `time.Now()`. -/
def Model.updateStock (m : Model) (msg : stockUpdateMsg) (now : Int) : UpdateResult :=
  match m.stocks msg.symbol with
  | none => { model := m, newlyTriggered := ∅, events := [] }
  | some data =>
    match msg.fetched with
    | Except.error err =>
      { model := { m with stocks := Function.update m.stocks msg.symbol (some { data with Error := err }) },
        newlyTriggered := ∅, events := [] }
    | Except.ok quote =>
      let data1 : StockData :=
        { data with Price := quote.CurrentPrice, Change := quote.PercentChange,
                    PrevClose := quote.PrevClose, Open := quote.Open, High := quote.High,
                    Low := quote.Low, LastUpdate := now, Error := "" }
      match m.cfg.GetRule msg.symbol with
      | none =>
        { model := { m with stocks := Function.update m.stocks msg.symbol (some data1) },
          newlyTriggered := ∅, events := [] }
      | some r =>
        let result := rule.Evaluate r quote
        let cur := currentConditions result.Reasons
        let st1 : TriggeredState :=
          if m.triggeredState msg.symbol = none then
            Function.update m.triggeredState msg.symbol (some ∅)
          else m.triggeredState
        let newlyTriggered :=
          cur.filter (fun reason => ¬ TriggeredState.has st1 msg.symbol reason)
        let st2 : TriggeredState := Function.update st1 msg.symbol (some cur)
        let data2 : StockData :=
          { data1 with Triggered := result.Triggered,
                       TriggerReason := if result.Reasons.length > 0 then result.Reasons.headD "" else "" }
        let events :=
          if 0 < newlyTriggered.card ∧ m.notifier.IsConfigured then
            let tb := result.FormatNotification
            [Event.send tb.1 tb.2 "stock-ping" (m.notifier.SendWithGroup tb.1 tb.2 "stock-ping")]
          else []
        { model := { m with stocks := Function.update m.stocks msg.symbol (some data2),
                            triggeredState := st2 },
          newlyTriggered := newlyTriggered, events := events }

end tui

/-! ## The four threshold conditions, named -/

/-- The four threshold conditions of a rule, in the order `Evaluate` checks them. -/
inductive Condition where
  | priceAbove : Condition
  | priceBelow : Condition
  | changeAbove : Condition
  | changeBelow : Condition
  deriving DecidableEq

namespace Condition

/-- The fixed order of the checks. -/
def all : List Condition := [priceAbove, priceBelow, changeAbove, changeBelow]

/-- The threshold of the rule that the condition reads. -/
def threshold (c : Condition) (r : config.Rule) : Option float64 :=
  match c with
  | priceAbove => r.PriceAbove
  | priceBelow => r.PriceBelow
  | changeAbove => r.ChangeAbove
  | changeBelow => r.ChangeBelow

/-- The strict comparison of the condition against a threshold `t`. -/
def compare (c : Condition) (q : stock.Quote) (t : float64) : Bool :=
  match c with
  | priceAbove => float64.gt q.CurrentPrice t
  | priceBelow => float64.lt q.CurrentPrice t
  | changeAbove => float64.gt q.PercentChange t
  | changeBelow => float64.lt q.PercentChange t

/-- The condition holds: its threshold is set and the comparison is true. -/
def holds (c : Condition) (r : config.Rule) (q : stock.Quote) : Bool :=
  match c.threshold r with
  | some t => c.compare q t
  | none => false

/-- The reason text of the condition against a threshold `t`. -/
def text (c : Condition) (q : stock.Quote) (t : float64) : String :=
  match c with
  | priceAbove => rule.reasonPriceAbove q.CurrentPrice t
  | priceBelow => rule.reasonPriceBelow q.CurrentPrice t
  | changeAbove => rule.reasonChangeAbove q.PercentChange t
  | changeBelow => rule.reasonChangeBelow q.PercentChange t

/-- The reason entry of the condition when it holds, `none` when it does not. -/
def reason (c : Condition) (r : config.Rule) (q : stock.Quote) : Option String :=
  match c.threshold r with
  | some t => if c.compare q t then some (c.text q t) else none
  | none => none

end Condition

/-! ## Scenario data -/

/-- A quote for `symbol` with the given price and percent change, other fields zero. -/
def quoteOf (symbol : String) (price pc : ℚ) : stock.Quote :=
  { Symbol := symbol, CurrentPrice := float64.fin price, Change := float64.fin 0,
    PercentChange := float64.fin pc, High := float64.fin 0, Low := float64.fin 0,
    Open := float64.fin 0, PrevClose := float64.fin 0, Timestamp := 0 }

/-- A notifier with a key whose transport always succeeds. -/
def okNotifier : notify.Notifier :=
  { serverURL := "https://api.day.app", key := "k", transport := fun _ _ _ => none }

/-- The rule `TSLA`, change-below = -5. -/
def ruleTSLA : config.Rule :=
  { Symbol := "TSLA", Market := "US", Name := "", PriceAbove := none, PriceBelow := none,
    ChangeAbove := none, ChangeBelow := some (float64.fin (-5)) }

/-- The rule `AAPL`, price-above = 200. -/
def ruleAAPL : config.Rule :=
  { Symbol := "AAPL", Market := "US", Name := "", PriceAbove := some (float64.fin 200),
    PriceBelow := none, ChangeAbove := none, ChangeBelow := none }

/-- For each pass, whether the step of the (single) rule called the transport. -/
def sentPerPass (out : List (List (String × List Event))) : List Bool :=
  out.map (fun pass => pass.any (fun se => se.2.any Event.isSend))

/-- One single-rule pass per quote, all fetches succeeding. -/
def passesOf (r : config.Rule) (quotes : List stock.Quote) :
    List (List (config.Rule × Except String stock.Quote)) :=
  quotes.map (fun q => [(r, Except.ok q)])

/-- The dashboard entry of `AAPL` as `NewModel` creates it. -/
def stockAAPL : tui.StockData :=
  { Symbol := "AAPL", Name := "", Price := float64.fin 0, Change := float64.fin 0,
    PrevClose := float64.fin 0, Open := float64.fin 0, High := float64.fin 0,
    Low := float64.fin 0, LastUpdate := 0, Triggered := false, TriggerReason := "",
    Error := "", Market := "US", Quantity := float64.fin 0, CostPrice := float64.fin 0 }

/-- A dashboard model with the single rule `AAPL` and an empty trigger memory. -/
def dashModel : tui.Model :=
  { stocks := fun s => if s = "AAPL" then some stockAAPL else none,
    stockOrder := ["AAPL"],
    cfg := { FinnhubAPIKey := "f", BarkServerURL := "https://api.day.app", BarkKey := "k",
             Interval := 60, Rules := [ruleAAPL], Holdings := [] },
    notifier := okNotifier,
    triggeredState := TriggeredState.empty,
    sortAscending := false,
    holdingsCount := 0 }

/-- A rule with all four thresholds set: 100 < price < 300 and -10 < change < 10 trigger. -/
def ruleBand : config.Rule :=
  { Symbol := "MSFT", Market := "US", Name := "Microsoft",
    PriceAbove := some (float64.fin 100), PriceBelow := some (float64.fin 300),
    ChangeAbove := some (float64.fin (-10)), ChangeBelow := some (float64.fin 10) }

/-- A rule with two thresholds and a display name: price-above = 200, change-above = 5. -/
def ruleTwo : config.Rule :=
  { Symbol := "AAPL", Market := "US", Name := "Apple", PriceAbove := some (float64.fin 200),
    PriceBelow := none, ChangeAbove := some (float64.fin 5), ChangeBelow := none }

/-! ## The parts of a notification, named -/

/-- The title of a notification: the symbol, followed by the display name when it is set. -/
def notificationTitle (r : config.Rule) : String :=
  "📊 " ++ (if r.Name ≠ "" then r.Symbol ++ " (" ++ r.Name ++ ")" else r.Symbol) ++ " 触发提醒"

/-- The first line of a notification body: the current price and the signed percent change. -/
def notificationHeader (q : stock.Quote) : String :=
  "价格: $" ++ fmtF2 q.CurrentPrice ++ " ("
    ++ (if float64.ge q.PercentChange (float64.fin 0) then "+" else "")
    ++ fmtF2 q.PercentChange ++ "%)\n"

/-- The line of a notification body that carries one reason. -/
def reasonLine (reason : String) : String :=
  "⚠️ " ++ reason ++ "\n"

/-! ## The time package, as far as the trading calendar uses it

An instant is a count of nanoseconds since the Unix epoch (the range limits of
int64 are not modelled).  A `Location` is given by its `lookup`, which returns for
a Unix second the offset in effect and the period of validity, as in Go.  The
civil date (year, month, day) of an instant is carried as its day number, so that
`time.Date(now.Year(), now.Month(), now.Day(), h, m, 0, 0, loc)` is
`time.Date now.civilDay h m loc`. -/

namespace time

/-- What `Location.lookup` returns: the offset east of UTC in seconds and the
Unix seconds between which it is in effect. -/
structure zoneSpan where
  offset : Int
  start : Int
  stop : Int
  deriving DecidableEq

/-- A time zone (`time.Location`). -/
structure Location where
  name : String
  lookup : Int → zoneSpan

/-- The beginning of time of the zone tables. -/
def alpha : Int := -9223372036854775808

/-- The end of time of the zone tables. -/
def omega : Int := 9223372036854775807

/-- The function `time.FixedZone`: one offset, in effect for ever. -/
def FixedZone (name : String) (offset : Int) : Location :=
  { name := name, lookup := fun _ => { offset := offset, start := alpha, stop := omega } }

/-- An instant with the location it is displayed in (`time.Time`). -/
structure Time where
  unixNano : Int
  loc : Location

/-- One hour as a `time.Duration` (nanoseconds). -/
def Hour : Int := 3600 * 1000000000

/-- The weekday numbers of Go. -/
def Sunday : Int := 0

/-- Monday. -/
def Monday : Int := 1

/-- Friday. -/
def Friday : Int := 5

/-- Saturday. -/
def Saturday : Int := 6

namespace Time

/-- Seconds since the Unix epoch (rounded down). -/
def unixSec (t : Time) : Int := t.unixNano / 1000000000

/-- Seconds of the local time line: Unix seconds plus the zone offset in effect. -/
def abs (t : Time) : Int := t.unixSec + (t.loc.lookup t.unixSec).offset

/-- The method `In`: the same instant in another location. -/
def In (t : Time) (loc : Location) : Time := { t with loc := loc }

/-- The method `Weekday` (Sunday = 0); the epoch was a Thursday. -/
def Weekday (t : Time) : Int := (t.abs / 86400 + 4) % 7

/-- The method `Clock`: hour, minute and second of the local day. -/
def Clock (t : Time) : Int × Int × Int :=
  let s := t.abs % 86400
  (s / 3600, s % 3600 / 60, s % 60)

/-- The method `Hour`. -/
def Hour (t : Time) : Int := t.abs % 86400 / 3600

/-- The day number of the local civil date (stands for `Year`, `Month`, `Day`). -/
def civilDay (t : Time) : Int := t.abs / 86400

/-- The method `Add`. -/
def Add (t : Time) (d : Int) : Time := { t with unixNano := t.unixNano + d }

/-- Nanoseconds elapsed since the start of the local day. -/
def nanoOfDay (t : Time) : Int :=
  (t.unixNano + (t.loc.lookup t.unixSec).offset * 1000000000) % 86400000000000

/-- The method `After`. -/
def After (t u : Time) : Bool := decide (t.unixNano > u.unixNano)

/-- The method `Before`. -/
def Before (t u : Time) : Bool := decide (t.unixNano < u.unixNano)

end Time

/-- The time of day `hour:min:00` in nanoseconds since the start of the day. -/
def clockTime (hour min : Int) : Int := (hour * 3600 + min * 60) * 1000000000

/-- The function `time.Date` for the civil day `day` at `hour:min:00`: the local
reading is turned into an instant with the offset that `lookup` gives, looked up
a second time when the first guess falls outside its period. -/
def Date (day hour min : Int) (loc : Location) : Time :=
  let unix := day * 86400 + hour * 3600 + min * 60
  let z := loc.lookup unix
  let offset :=
    if z.offset ≠ 0 then
      let utc := unix - z.offset
      if utc < z.start ∨ utc ≥ z.stop then (loc.lookup utc).offset else z.offset
    else 0
  { unixNano := (unix - offset) * 1000000000, loc := loc }

end time

/-! ## stock/market.go

The package variables `tzEastern` and `tzShanghai` and the reading of `time.Now()`
are arguments.  The loops that skip weekends carry a bound on their iterations
and return `none` when it is exhausted. -/

namespace stock

/-- The market tag `US`. -/
def MarketUS : String := "US"

/-- The market tag `CN`. -/
def MarketCN : String := "CN"

/-- The market tag `HK`. -/
def MarketHK : String := "HK"

/-- The market tag `TW`. -/
def MarketTW : String := "TW"

/-- The market tag `CRYPTO`. -/
def MarketCrypto : String := "CRYPTO"

/-- The market tag `FOREX`. -/
def MarketForex : String := "FOREX"

/-- The function `isUSMarketOpen`. -/
def isUSMarketOpen (tzEastern : time.Location) (clock : time.Time) : Bool :=
  let now := clock.In tzEastern
  let weekday := now.Weekday
  if weekday = time.Saturday ∨ weekday = time.Sunday then false
  else
    let timeInMinutes := now.Clock.1 * 60 + now.Clock.2.1
    decide (timeInMinutes ≥ 9 * 60 + 30 ∧ timeInMinutes < 16 * 60)

/-- The function `isCNMarketOpen`. -/
def isCNMarketOpen (tzShanghai : time.Location) (clock : time.Time) : Bool :=
  let now := clock.In tzShanghai
  let weekday := now.Weekday
  if weekday = time.Saturday ∨ weekday = time.Sunday then false
  else
    let timeInMinutes := now.Clock.1 * 60 + now.Clock.2.1
    let isMorning := decide (timeInMinutes ≥ 9 * 60 + 30 ∧ timeInMinutes < 11 * 60 + 30)
    let isAfternoon := decide (timeInMinutes ≥ 13 * 60 ∧ timeInMinutes < 15 * 60)
    isMorning || isAfternoon

/-- The function `isTWMarketOpen`. -/
def isTWMarketOpen (tzShanghai : time.Location) (clock : time.Time) : Bool :=
  let now := clock.In tzShanghai
  let weekday := now.Weekday
  if weekday = time.Saturday ∨ weekday = time.Sunday then false
  else
    let timeInMinutes := now.Clock.1 * 60 + now.Clock.2.1
    decide (timeInMinutes ≥ 9 * 60 ∧ timeInMinutes < 13 * 60 + 30)

/-- The function `isForexOpen`. -/
def isForexOpen (tzEastern : time.Location) (clock : time.Time) : Bool :=
  let now := clock.In tzEastern
  let weekday := now.Weekday
  if weekday = time.Saturday then false
  else
    let hour := now.Clock.1
    if weekday = time.Friday ∧ hour ≥ 17 then false
    else if weekday = time.Sunday ∧ hour < 17 then false
    else true

/-- The function `IsMarketOpen`. -/
def IsMarketOpen (tzEastern tzShanghai : time.Location) (market : String)
    (clock : time.Time) : Bool :=
  if market = MarketCrypto then true
  else if market = MarketCN then isCNMarketOpen tzShanghai clock
  else if market = MarketTW then isTWMarketOpen tzShanghai clock
  else if market = MarketForex then isForexOpen tzEastern clock
  else if market = MarketUS then isUSMarketOpen tzEastern clock
  else isUSMarketOpen tzEastern clock

/-- The loop `for nextOpen.Weekday() == Saturday || nextOpen.Weekday() == Sunday
{ nextOpen = nextOpen.Add(24 * time.Hour) }`, run for at most `fuel` iterations. -/
def skipWeekends : Nat → time.Time → Option time.Time
  | 0, nextOpen =>
    if nextOpen.Weekday = time.Saturday ∨ nextOpen.Weekday = time.Sunday then none
    else some nextOpen
  | fuel + 1, nextOpen =>
    if nextOpen.Weekday = time.Saturday ∨ nextOpen.Weekday = time.Sunday then
      skipWeekends fuel (nextOpen.Add (24 * time.Hour))
    else some nextOpen

/-- The function `getNextUSMarketOpen`. -/
def getNextUSMarketOpen (fuel : Nat) (tzEastern : time.Location) (clock : time.Time) :
    Option time.Time :=
  let now := clock.In tzEastern
  let nextOpen := time.Date now.civilDay 9 30 tzEastern
  let nextOpen := if now.After nextOpen then nextOpen.Add (24 * time.Hour) else nextOpen
  skipWeekends fuel nextOpen

/-- The function `getNextCNMarketOpen`. -/
def getNextCNMarketOpen (fuel : Nat) (tzShanghai : time.Location) (clock : time.Time) :
    Option time.Time :=
  let now := clock.In tzShanghai
  let morningOpen := time.Date now.civilDay 9 30 tzShanghai
  let afternoonOpen := time.Date now.civilDay 13 0 tzShanghai
  if now.Before morningOpen then some morningOpen
  else if now.Before afternoonOpen then
    let mins := now.Clock.1 * 60 + now.Clock.2.1
    if mins < 11 * 60 + 30 then some now
    else some afternoonOpen
  else
    skipWeekends fuel (morningOpen.Add (24 * time.Hour))

/-- The function `getNextTWMarketOpen`. -/
def getNextTWMarketOpen (fuel : Nat) (tzShanghai : time.Location) (clock : time.Time) :
    Option time.Time :=
  let now := clock.In tzShanghai
  let nextOpen := time.Date now.civilDay 9 0 tzShanghai
  let nextOpen := if now.After nextOpen then nextOpen.Add (24 * time.Hour) else nextOpen
  skipWeekends fuel nextOpen

/-- The function `getNextForexOpen`. -/
def getNextForexOpen (tzEastern : time.Location) (clock : time.Time) : time.Time :=
  let now := clock.In tzEastern
  let daysUntilSunday := (time.Sunday - now.Weekday + 7) % 7
  let daysUntilSunday := if daysUntilSunday = 0 ∧ now.Hour ≥ 17 then 7 else daysUntilSunday
  let nextOpen := time.Date now.civilDay 17 0 tzEastern
  nextOpen.Add (daysUntilSunday * 24 * time.Hour)

/-- The function `GetNextMarketOpen`. -/
def GetNextMarketOpen (fuel : Nat) (tzEastern tzShanghai : time.Location) (market : String)
    (clock : time.Time) : Option time.Time :=
  if market = MarketCrypto then some clock
  else if market = MarketForex then some (getNextForexOpen tzEastern clock)
  else if market = MarketCN then getNextCNMarketOpen fuel tzShanghai clock
  else if market = MarketTW then getNextTWMarketOpen fuel tzShanghai clock
  else getNextUSMarketOpen fuel tzEastern clock

end stock

/-! ## cmd/watch.go: the market hours of the watch loop -/

namespace cmd

/-- The function `isMarketOpen` of the watch command. -/
def isMarketOpen (easternTZ : time.Location) (clock : time.Time) : Bool :=
  let now := clock.In easternTZ
  let weekday := now.Weekday
  if weekday = time.Saturday ∨ weekday = time.Sunday then false
  else
    let timeInMinutes := now.Clock.1 * 60 + now.Clock.2.1
    let marketOpen := 9 * 60 + 30
    let marketClose := 16 * 60
    decide (timeInMinutes ≥ marketOpen ∧ timeInMinutes < marketClose)

end cmd

/-! ## tui/model.go: `Model.refreshAllStocks` -/

namespace tui

/-- The market that `refreshAllStocks` uses for a symbol: the tag stored with the
symbol if non-empty, else the tag of its rule if non-empty, else `US`. -/
def Model.marketOf (m : Model) (s : String) : String :=
  match m.stocks s with
  | some data =>
    if data.Market ≠ "" then data.Market
    else
      match m.cfg.GetRule s with
      | some rule => if rule.Market ≠ "" then rule.Market else stock.MarketUS
      | none => stock.MarketUS
  | none =>
    match m.cfg.GetRule s with
    | some rule => if rule.Market ≠ "" then rule.Market else stock.MarketUS
    | none => stock.MarketUS

/-- The method `Model.refreshAllStocks`: the quote fetches `GetQuote(s, market)` of
the batch it returns, in order.  The clock readings of one call are one instant. -/
def Model.refreshAllStocks (m : Model) (force : Bool) (tzEastern tzShanghai : time.Location)
    (clock : time.Time) : List (String × String) :=
  m.stockOrder.foldl
    (fun cmds s =>
      let market := m.marketOf s
      if force || stock.IsMarketOpen tzEastern tzShanghai market clock then
        cmds ++ [(s, market)]
      else cmds)
    []

/-- The quote fetches that `Model.Init` issues: `m.refreshAllStocks(true)`. -/
def Model.Init (m : Model) (tzEastern tzShanghai : time.Location) (clock : time.Time) :
    List (String × String) :=
  m.refreshAllStocks true tzEastern tzShanghai clock

/-- The quote fetches that `Update` issues on a `tickMsg`: `m.refreshAllStocks(false)`. -/
def Model.tick (m : Model) (tzEastern tzShanghai : time.Location) (clock : time.Time) :
    List (String × String) :=
  m.refreshAllStocks false tzEastern tzShanghai clock

/-- The `stockUpdateMsg` handling of `Update`, for the messages that come back from a
batch, in their order of arrival: `updateStock` on each (the sort that follows it
touches the display order only). -/
def Model.applyUpdates (m : Model) : List (stockUpdateMsg × Int) → Model
  | [] => m
  | (msg, now) :: rest => Model.applyUpdates (m.updateStock msg now).model rest

end tui

/-! ## Scenario data for the calendar -/

/-- The fallback zone of `init` for `America/New_York`. -/
def zoneEST : time.Location := time.FixedZone "EST" (-5 * 60 * 60)

/-- The fallback zone of `init` for `Asia/Shanghai`. -/
def zoneCST : time.Location := time.FixedZone "CST" (8 * 60 * 60)

/-- The instant at `unix` seconds after the epoch, as `time.Now()` returns it. -/
def instant (unix : Int) : time.Time :=
  { unixNano := unix * 1000000000, loc := time.FixedZone "UTC" 0 }

/-- Saturday 2024-01-06 10:00:00 in Shanghai (02:00 UTC). -/
def saturday1000Shanghai : time.Time := instant 1704506400

/-- Saturday 2024-01-06 08:00:00 in Shanghai (00:00 UTC). -/
def saturday0800Shanghai : time.Time := instant 1704499200

/-- Tuesday 2024-01-02 12:15:00 in Shanghai (04:15 UTC). -/
def tuesday1215Shanghai : time.Time := instant 1704168900

/-- Tuesday 2024-01-02 10:00:00 in Shanghai (02:00 UTC). -/
def tuesday1000Shanghai : time.Time := instant 1704160800

/-- Saturday 2024-01-06 12:00:00 Eastern (17:00 UTC). -/
def saturday1200Eastern : time.Time := instant 1704560400

/-- Sunday 2024-01-07 18:00:00 Eastern (23:00 UTC). -/
def sunday1800Eastern : time.Time := instant 1704668400

/-- The dashboard entry of `BTC-USD`, a symbol of the always-open market. -/
def stockBTC : tui.StockData :=
  { stockAAPL with Symbol := "BTC-USD", Market := "CRYPTO" }

/-- The rule `BTC-USD`, price-above = 50000, market `CRYPTO`. -/
def ruleBTC : config.Rule :=
  { Symbol := "BTC-USD", Market := "CRYPTO", Name := "", PriceAbove := some (float64.fin 50000),
    PriceBelow := none, ChangeAbove := none, ChangeBelow := none }

/-- A dashboard model with a `US` symbol and a `CRYPTO` symbol. -/
def dashModelTwo : tui.Model :=
  { dashModel with
    stocks := fun s =>
      if s = "AAPL" then some stockAAPL else if s = "BTC-USD" then some stockBTC else none,
    stockOrder := ["AAPL", "BTC-USD"],
    cfg := { dashModel.cfg with Rules := [ruleAAPL, ruleBTC] } }

/-- The periods of `America/New_York` around 2024: standard time until 2024-03-10 07:00 UTC,
daylight time until 2024-11-03 06:00 UTC, standard time after it. -/
def zoneNewYork2024 : time.Location :=
  { name := "America/New_York",
    lookup := fun u =>
      if u < 1710054000 then { offset := -18000, start := 1699164000, stop := 1710054000 }
      else if u < 1730613600 then { offset := -14400, start := 1710054000, stop := 1730613600 }
      else { offset := -18000, start := 1730613600, stop := 1741503600 } }

/-- Friday 2024-11-01 18:00:00 in New York (22:00 UTC), two days before the clocks go back. -/
def friday1800NewYork : time.Time := instant 1730498400

/-- A notifier with a key whose transport always fails. -/
def failNotifier : notify.Notifier :=
  { serverURL := "https://api.day.app", key := "k",
    transport := fun _ _ _ => some "bark returned status 500" }

/-! ## config/config.go: `Config.AddRule` -/

namespace config

/-- The loop of `AddRule`: the first rule with the symbol of `rule` is replaced; `none` when
no rule has that symbol. -/
def replaceRule (rule : Rule) : List Rule → Option (List Rule)
  | [] => none
  | r :: rest =>
    if r.Symbol = rule.Symbol then some (rule :: rest)
    else (replaceRule rule rest).map (fun rs => r :: rs)

/-- The method `Config.AddRule` (its error result is always nil). -/
def Config.AddRule (c : Config) (rule : Rule) : Config :=
  match replaceRule rule c.Rules with
  | some rules => { c with Rules := rules }
  | none => { c with Rules := c.Rules ++ [rule] }

end config

/-! ## cmd/watch.go: the tick of `RunWatch` -/

namespace cmd

/-- The function `getNextMarketOpen` of the watch command. -/
def getNextMarketOpen (fuel : Nat) (easternTZ : time.Location) (clock : time.Time) :
    Option time.Time :=
  let now := clock.In easternTZ
  let nextOpen := time.Date now.civilDay 9 30 easternTZ
  let nextOpen := if now.After nextOpen then nextOpen.Add (24 * time.Hour) else nextOpen
  stock.skipWeekends fuel nextOpen

/-- What one pass of the main loop does: the `GetQuote(symbol, market)` calls it makes, the
trigger memory it leaves and the events of each rule. -/
structure PassResult where
  quotes : List (String × String)
  state : TriggeredState
  events : List (String × List Event)

/-- The call `checkRules(cfg, stockClient, notifier, evaluator)` with the quote source
`getQuote` standing for `stockClient.GetQuote`. -/
def runCheckRules (notifier : notify.Notifier)
    (getQuote : String → String → Except String stock.Quote) (cfg : config.Config)
    (st : TriggeredState) : PassResult :=
  let out := checkRules notifier (cfg.Rules.map (fun r => (r, getQuote r.Symbol r.Market))) st
  { quotes := cfg.Rules.map (fun r => (r.Symbol, r.Market)), state := out.1, events := out.2 }

/-- The branch `case <-ticker.C` of the main loop of `RunWatch`, with the clock reading
`now` of `isMarketOpen`.  When the market is reported closed the loop waits for the timer
set to the next open; `signalled` says that a signal arrives first, in which case the
function returns (`none`).  Otherwise `checkRules` runs. -/
def onTick (notifier : notify.Notifier) (easternTZ : time.Location)
    (getQuote : String → String → Except String stock.Quote) (cfg : config.Config)
    (now : time.Time) (signalled : Bool) (st : TriggeredState) : Option PassResult :=
  if ¬ isMarketOpen easternTZ now then
    if signalled then none
    else some (runCheckRules notifier getQuote cfg st)
  else some (runCheckRules notifier getQuote cfg st)

end cmd

/-! ## tui/model.go: `SortByChange`, `NewModel`, `reloadRules`, the displayed price change

`sort.Slice` runs the insertion sort of the `sort` package on a slice of at most 12 elements
(`insertionSortLessFunc`, reached when `length <= maxInsertion`); that loop is transcribed.
On a longer slice the package runs its pattern-defeating quicksort, which is not part of this
repository: it is an argument `long` of the model, one run (`sortRun`) for each length, and
all that is used of it is that it reaches the slice through `Less(i, j)` and `Swap(i, j)`
with indices inside the slice and that it ends.  A comparison that reads a symbol without an
entry in the stock table dereferences a nil pointer: the comparison is `none` and the sort
returns `none`. -/

namespace tui

/-- The comparison function given to `sort.Slice` by `SortByChange`, on the symbols at the
two positions. -/
def Model.lessByChange (m : Model) (a b : String) : Option Bool :=
  match m.stocks a, m.stocks b with
  | some si, some sj =>
    if m.sortAscending then some (float64.lt si.Change sj.Change)
    else some (float64.gt si.Change sj.Change)
  | _, _ => none

/-- The inner loop of the insertion sort: the element `x` moves left while it is less than
its left neighbour.  `left` is the part before `x`, nearest neighbour first. -/
def insertLeft (less : String → String → Option Bool) (x : String) :
    List String → Option (List String)
  | [] => some [x]
  | y :: ys =>
    match less x y with
    | none => none
    | some true => (insertLeft less x ys).map (fun l => y :: l)
    | some false => some (x :: y :: ys)

/-- The outer loop of the insertion sort: `done` is the sorted part, last element first. -/
def sortLoop (less : String → String → Option Bool) :
    List String → List String → Option (List String)
  | done, [] => some done.reverse
  | done, x :: rest =>
    match insertLeft less x done with
    | none => none
    | some done' => sortLoop less done' rest

/-- The function `insertionSortLessFunc` of the `sort` package on a whole slice. -/
def insertionSort (less : String → String → Option Bool) (order : List String) :
    Option (List String) :=
  match order with
  | [] => some []
  | x :: rest => sortLoop less [x] rest

/-- A run of an in-place sort of the `sort` package on a slice of `n` elements.  The package
reaches the slice through `Less(i, j)` and `Swap(i, j)` only, with indices inside the slice:
a run is over, or it swaps two positions and goes on, or it compares two positions and goes
on according to the answer. -/
inductive sortRun (n : Nat) where
  | done : sortRun n
  | swap (i j : Fin n) (next : sortRun n) : sortRun n
  | less (i j : Fin n) (ifLess ifNot : sortRun n) : sortRun n

/-- The swap function that `sort.Slice` builds for the slice: the elements at the positions
`i` and `j` change places. -/
def swapAt {n : Nat} (data : Fin n → String) (i j : Fin n) : Fin n → String :=
  fun k => if k = i then data j else if k = j then data i else data k

/-- A run on a slice, given as its element at each position.  `Less(i, j)` is the comparison
function on the elements that are at `i` and `j` at that moment; a comparison that panics
ends the run with `none`. -/
def sortRun.runOn (less : String → String → Option Bool) {n : Nat} :
    sortRun n → (Fin n → String) → Option (Fin n → String)
  | sortRun.done, data => some data
  | sortRun.swap i j next, data => sortRun.runOn less next (swapAt data i j)
  | sortRun.less i j ifLess ifNot, data =>
    match less (data i) (data j) with
    | none => none
    | some true => sortRun.runOn less ifLess data
    | some false => sortRun.runOn less ifNot data

/-- The call `sort.Slice(order, less)`: the insertion sort up to 12 elements, the run `long`
of the package for the length of the slice above. -/
def sortSlice (long : (n : Nat) → sortRun n) (less : String → String → Option Bool)
    (order : List String) : Option (List String) :=
  if order.length ≤ 12 then insertionSort less order
  else ((long order.length).runOn less order.get).map List.ofFn

/-- The method `Model.SortByChange`; the table rows it rebuilds are display only. -/
def Model.SortByChange (long : (n : Nat) → sortRun n) (m : Model) : Option Model :=
  (sortSlice long m.lessByChange m.stockOrder).map (fun order => { m with stockOrder := order })

/-- The first loop of `NewModel`: an entry and a place in the order for each rule. -/
def newStocks : List config.Rule → (String → Option StockData) → (String → Option StockData)
  | [], stocks => stocks
  | r :: rest, stocks =>
    newStocks rest (Function.update stocks r.Symbol
      (some { Symbol := r.Symbol, Name := r.Name, Price := float64.fin 0,
              Change := float64.fin 0, PrevClose := float64.fin 0, Open := float64.fin 0,
              High := float64.fin 0, Low := float64.fin 0, LastUpdate := 0,
              Triggered := false, TriggerReason := "", Error := "", Market := r.Market,
              Quantity := float64.fin 0, CostPrice := float64.fin 0 }))

/-- The loop over the holdings in `NewModel` and in `reloadRules`: quantity and cost price
are written into the entries that exist; the count of those holdings is kept. -/
def loadHoldings : List config.Holding → (String → Option StockData) → Int →
    (String → Option StockData) × Int
  | [], stocks, count => (stocks, count)
  | h :: rest, stocks, count =>
    match stocks h.Symbol with
    | some data =>
      loadHoldings rest
        (Function.update stocks h.Symbol
          (some { data with Quantity := h.Quantity, CostPrice := h.CostPrice }))
        (count + 1)
    | none => loadHoldings rest stocks count

/-- The function `NewModel`; `none` stands for a panic of the initial sort. -/
def NewModel (long : (n : Nat) → sortRun n) (cfg : config.Config)
    (notifier : notify.Notifier) : Option Model :=
  let stocks := newStocks cfg.Rules (fun _ => none)
  let stockOrder := cfg.Rules.map (fun r => r.Symbol)
  let loaded := loadHoldings cfg.Holdings stocks 0
  Model.SortByChange long
    { stocks := loaded.1, stockOrder := stockOrder, cfg := cfg, notifier := notifier,
      triggeredState := TriggeredState.empty, sortAscending := false,
      holdingsCount := loaded.2 }

/-- The first loop of `reloadRules`: an entry that exists is kept with the name of the rule,
a missing one is created from the rule. -/
def reloadStocks (old : String → Option StockData) :
    List config.Rule → (String → Option StockData) → (String → Option StockData)
  | [], stocks => stocks
  | r :: rest, stocks =>
    match old r.Symbol with
    | some existing =>
      reloadStocks old rest (Function.update stocks r.Symbol (some { existing with Name := r.Name }))
    | none =>
      reloadStocks old rest (Function.update stocks r.Symbol
        (some { Symbol := r.Symbol, Name := r.Name, Price := float64.fin 0,
                Change := float64.fin 0, PrevClose := float64.fin 0, Open := float64.fin 0,
                High := float64.fin 0, Low := float64.fin 0, LastUpdate := 0,
                Triggered := false, TriggerReason := "", Error := "", Market := r.Market,
                Quantity := float64.fin 0, CostPrice := float64.fin 0 }))

/-- The method `Model.reloadRules`; `none` stands for a panic of the sort. -/
def Model.reloadRules (long : (n : Nat) → sortRun n) (m : Model) : Option Model :=
  let stocks := reloadStocks m.stocks m.cfg.Rules (fun _ => none)
  let newOrder := m.cfg.Rules.map (fun r => r.Symbol)
  let loaded := loadHoldings m.cfg.Holdings stocks 0
  Model.SortByChange long
    { m with stocks := loaded.1, stockOrder := newOrder, holdingsCount := loaded.2 }

/-- The case `configReloadMsg` of `Update`: `m.cfg = msg.cfg` and then `m.reloadRules()`. -/
def Model.onConfigReload (long : (n : Nat) → sortRun n) (m : Model) (cfg : config.Config) :
    Option Model :=
  Model.reloadRules long { m with cfg := cfg }

/-- The value `priceChange` computed in `updateTableRows` and in `updatePortfolioTableRows`,
on exact numbers. -/
def priceChange (price prevClose change : ℚ) : ℚ :=
  if prevClose > 0 then price - prevClose
  else price * change / (100 + change)

end tui

/-- The invariant of the dashboard model: the working symbol list is a permutation of the
symbols of the rules of the current configuration, and each of its symbols has an entry in
the stock table. -/
def tui.Model.wellFormed (m : tui.Model) : Prop :=
  m.stockOrder.Perm (m.cfg.Rules.map (fun r => r.Symbol))
  ∧ ∀ s ∈ m.stockOrder, (m.stocks s).isSome = true

/-! ## Scenario data for the last claims -/

/-- A rule on the Shanghai market: price-above = 1000. -/
def ruleCN : config.Rule :=
  { Symbol := "600519.SS", Market := "CN", Name := "", PriceAbove := some (float64.fin 1000),
    PriceBelow := none, ChangeAbove := none, ChangeBelow := none }

/-- A configuration with the single rule `ruleCN`. -/
def cfgCN : config.Config :=
  { FinnhubAPIKey := "f", BarkServerURL := "https://api.day.app", BarkKey := "k",
    Interval := 60, Rules := [ruleCN], Holdings := [] }

/-- A quote source that answers every symbol with the price 1200 and the change +1. -/
def quoteSource : String → String → Except String stock.Quote :=
  fun symbol _ => Except.ok (quoteOf symbol 1200 1)

/-- Tuesday 2024-01-02 10:00:00 Eastern (15:00 UTC), which is 23:00 in Shanghai. -/
def tuesday1000Eastern : time.Time := instant 1704207600

/-- Sunday 2024-01-07 12:00:00 in Shanghai (04:00 UTC). -/
def sunday1200Shanghai : time.Time := instant 1704600000

/-- Friday 2024-03-08 18:00:00 in New York (23:00 UTC), two days before the clocks go forward. -/
def friday1800NewYorkMarch : time.Time := instant 1709938800

/-- Monday 2024-03-11 09:30:00 in New York (13:30 UTC). -/
def monday0930NewYorkMarch : time.Time := instant 1710163800

/-- A configuration with a rule and a holding for `AAPL`. -/
def cfgBefore : config.Config :=
  { FinnhubAPIKey := "f", BarkServerURL := "https://api.day.app", BarkKey := "k",
    Interval := 60, Rules := [ruleAAPL],
    Holdings := [{ Symbol := "AAPL", Quantity := float64.fin 10, CostPrice := float64.fin 150 }] }

/-- The configuration after an edit: `AAPL` moved to the market `HK`, named, holding removed. -/
def cfgAfter : config.Config :=
  { cfgBefore with
    Rules := [{ ruleAAPL with Market := "HK", Name := "Apple" }], Holdings := [] }

/-- A dashboard model for the choice of the market of a fetch: `BTC-USD` has the stored tag
`CRYPTO` and a rule on the market `US`; `600519.SS` has an empty stored tag and a rule on the
market `CN`; `AAPL` has an empty stored tag and a rule with an empty market. -/
def dashModelTags : tui.Model :=
  { dashModel with
    stocks := fun s =>
      if s = "BTC-USD" then some stockBTC
      else if s = "600519.SS" then some { stockAAPL with Symbol := "600519.SS", Market := "" }
      else if s = "AAPL" then some { stockAAPL with Market := "" }
      else none,
    stockOrder := ["BTC-USD", "600519.SS", "AAPL"],
    cfg := { dashModel.cfg with
      Rules := [{ ruleBTC with Market := "US" }, ruleCN, { ruleAAPL with Market := "" }] } }

/-- Thirteen symbols, one more than the longest slice that `sort.Slice` sorts by insertion. -/
def symbolsThirteen : List String :=
  ["S01", "S02", "S03", "S04", "S05", "S06", "S07", "S08", "S09", "S10", "S11", "S12", "S13"]

/-- A configuration with one rule for each of the thirteen symbols. -/
def cfgThirteen : config.Config :=
  { FinnhubAPIKey := "f", BarkServerURL := "https://api.day.app", BarkKey := "k",
    Interval := 60, Rules := symbolsThirteen.map (fun s => { ruleAAPL with Symbol := s }),
    Holdings := [] }

/-- A dashboard model with an entry for each of the thirteen symbols. -/
def dashModelThirteen : tui.Model :=
  { dashModel with
    stocks := fun s => if s ∈ symbolsThirteen then some { stockAAPL with Symbol := s } else none,
    stockOrder := symbolsThirteen,
    cfg := cfgThirteen }

/-- A sample run of the `sort` package on a slice of more than 12 elements, for scenarios:
it compares the element at 1 with the element at 0 and swaps them if the answer is yes. -/
def sampleRun : (n : Nat) → tui.sortRun n :=
  fun n =>
    if h : 2 ≤ n then
      tui.sortRun.less ⟨1, by omega⟩ ⟨0, by omega⟩
        (tui.sortRun.swap ⟨1, by omega⟩ ⟨0, by omega⟩ tui.sortRun.done) tui.sortRun.done
    else tui.sortRun.done

/-! ## Lemmas on the evaluator -/

theorem foldl_insert_eq (l : List String) (acc : Finset String) :
    l.foldl (fun m reason => insert reason m) acc = acc ∪ l.toFinset := by
  induction l generalizing acc with
  | nil => simp
  | cons a t ih =>
    simp only [List.foldl_cons, List.toFinset_cons]
    rw [ih]
    ext x
    simp only [Finset.mem_union, Finset.mem_insert]
    tauto

theorem currentConditions_eq (l : List String) : currentConditions l = l.toFinset := by
  unfold currentConditions
  rw [foldl_insert_eq]
  simp

theorem appendIf_eq (l : List String) (thr : Option float64) (holds : float64 → Bool)
    (mk : float64 → String) :
    rule.appendIf l thr holds mk
      = l ++ (match thr with
              | some t => if holds t then some (mk t) else none
              | none => none).toList := by
  cases thr with
  | none => simp [rule.appendIf]
  | some t =>
    by_cases h : holds t = true <;> simp [rule.appendIf, h]

theorem filterMap_four {α β : Type} (f : α → Option β) (a b c d : α) :
    List.filterMap f [a, b, c, d]
      = (f a).toList ++ ((f b).toList ++ ((f c).toList ++ (f d).toList)) := by
  rcases ha : f a with _ | x <;> rcases hb : f b with _ | y <;> rcases hc : f c with _ | z <;>
    rcases hd : f d with _ | w <;> simp [List.filterMap_cons, ha, hb, hc, hd]

theorem Evaluate_Reasons (r : config.Rule) (q : stock.Quote) :
    (rule.Evaluate r q).Reasons = Condition.all.filterMap (fun c => c.reason r q) := by
  unfold Condition.all
  rw [filterMap_four]
  simp only [rule.Evaluate, appendIf_eq, List.nil_append, List.append_assoc]
  rfl

theorem mem_Reasons_iff (r : config.Rule) (q : stock.Quote) (x : String) :
    x ∈ (rule.Evaluate r q).Reasons ↔ ∃ c : Condition, c.reason r q = some x := by
  rw [Evaluate_Reasons, List.mem_filterMap]
  constructor
  · rintro ⟨c, _, hc⟩; exact ⟨c, hc⟩
  · rintro ⟨c, hc⟩
    refine ⟨c, ?_, hc⟩
    cases c <;> simp [Condition.all]

theorem reason_isSome_iff (c : Condition) (r : config.Rule) (q : stock.Quote) :
    (c.reason r q).isSome = c.holds r q := by
  unfold Condition.reason Condition.holds
  cases c.threshold r with
  | none => rfl
  | some t => cases h : c.compare q t <;> simp [h]

/-! ## Lemmas on one step of a driver -/

theorem has_eq (st : TriggeredState) (symbol reason : String) :
    TriggeredState.has st symbol reason = decide (reason ∈ (st symbol).getD ∅) := by
  unfold TriggeredState.has
  cases st symbol <;> simp

theorem edge_filter_eq (st : TriggeredState) (symbol : String) (cur : Finset String) :
    cur.filter (fun reason =>
        ¬ TriggeredState.has
            (if st symbol = none then Function.update st symbol (some ∅) else st) symbol reason)
      = cur \ (st symbol).getD ∅ := by
  ext x
  simp only [Finset.mem_filter, Finset.mem_sdiff, has_eq]
  cases h : st symbol <;> simp [h]

theorem replace_eq (st : TriggeredState) (symbol : String) (cur : Finset String) :
    Function.update (if st symbol = none then Function.update st symbol (some ∅) else st)
        symbol (some cur)
      = Function.update st symbol (some cur) := by
  split
  · simp
  · rfl

theorem checkRule_ok_newly (n : notify.Notifier) (r : config.Rule) (q : stock.Quote)
    (st : TriggeredState) :
    (cmd.checkRule n r (Except.ok q) st).newlyTriggered
      = (rule.Evaluate r q).Reasons.toFinset \ (st r.Symbol).getD ∅ := by
  simp only [cmd.checkRule, edge_filter_eq, currentConditions_eq]

theorem checkRule_ok_state (n : notify.Notifier) (r : config.Rule) (q : stock.Quote)
    (st : TriggeredState) :
    (cmd.checkRule n r (Except.ok q) st).state
      = Function.update st r.Symbol (some (rule.Evaluate r q).Reasons.toFinset) := by
  simp only [cmd.checkRule, replace_eq, currentConditions_eq]

theorem checkRule_ok_events (n : notify.Notifier) (r : config.Rule) (q : stock.Quote)
    (st : TriggeredState) :
    (cmd.checkRule n r (Except.ok q) st).events
      = if (cmd.checkRule n r (Except.ok q) st).newlyTriggered ≠ ∅ ∧ n.IsConfigured = true then
          [Event.send (rule.Evaluate r q).FormatNotification.1
            (rule.Evaluate r q).FormatNotification.2 "stock-ping"
            (n.SendWithGroup (rule.Evaluate r q).FormatNotification.1
              (rule.Evaluate r q).FormatNotification.2 "stock-ping")]
        else [] := by
  simp only [cmd.checkRule, Finset.card_pos, Finset.nonempty_iff_ne_empty]

theorem updateStock_ok (m : tui.Model) (symbol : String) (q : stock.Quote) (now : Int)
    (data : tui.StockData) (r : config.Rule)
    (hdata : m.stocks symbol = some data) (hrule : m.cfg.GetRule symbol = some r) :
    (m.updateStock ⟨symbol, Except.ok q⟩ now).newlyTriggered
        = (rule.Evaluate r q).Reasons.toFinset \ (m.triggeredState symbol).getD ∅
    ∧ (m.updateStock ⟨symbol, Except.ok q⟩ now).model.triggeredState
        = Function.update m.triggeredState symbol (some (rule.Evaluate r q).Reasons.toFinset)
    ∧ (m.updateStock ⟨symbol, Except.ok q⟩ now).events
        = if (m.updateStock ⟨symbol, Except.ok q⟩ now).newlyTriggered ≠ ∅
              ∧ m.notifier.IsConfigured = true then
            [Event.send (rule.Evaluate r q).FormatNotification.1
              (rule.Evaluate r q).FormatNotification.2 "stock-ping"
              (m.notifier.SendWithGroup (rule.Evaluate r q).FormatNotification.1
                (rule.Evaluate r q).FormatNotification.2 "stock-ping")]
          else [] := by
  simp only [tui.Model.updateStock, hdata, hrule, edge_filter_eq, replace_eq,
    currentConditions_eq, Finset.card_pos, Finset.nonempty_iff_ne_empty]
  exact ⟨trivial, trivial, trivial⟩

theorem updateStock_sends (m : tui.Model) (msg : tui.stockUpdateMsg) (now : Int) :
    (m.updateStock msg now).events.countP Event.isSend
      = if (m.updateStock msg now).newlyTriggered ≠ ∅ ∧ m.notifier.IsConfigured = true
        then 1 else 0 := by
  obtain ⟨symbol, fetched⟩ := msg
  unfold tui.Model.updateStock
  simp only
  cases hd : m.stocks symbol with
  | none => simp
  | some data =>
    cases fetched with
    | error e => simp
    | ok q =>
      cases hr : m.cfg.GetRule symbol with
      | none => simp
      | some r =>
        simp only [Finset.card_pos, Finset.nonempty_iff_ne_empty, edge_filter_eq]
        split_ifs <;> simp [Event.isSend]

/-! ## The reason texts of different conditions differ -/

theorem digitChar_ne_space : ∀ d, d < 10 → Nat.digitChar d ≠ ' ' := by decide

theorem toDigitsCore_no_space (fuel : ℕ) : ∀ (n : ℕ) (ds : List Char), ' ' ∉ ds →
    ' ' ∉ Nat.toDigitsCore 10 fuel n ds := by
  induction fuel with
  | zero => intro n ds h; simpa [Nat.toDigitsCore] using h
  | succ k ih =>
    intro n ds h
    simp only [Nat.toDigitsCore]
    have hd : ' ' ∉ Nat.digitChar (n % 10) :: ds := by
      simp only [List.mem_cons, not_or]
      exact ⟨fun e => digitChar_ne_space _ (Nat.mod_lt _ (by norm_num)) e.symm, h⟩
    split_ifs
    · exact hd
    · exact ih _ _ hd

theorem toString_no_space (n : ℕ) : ' ' ∉ (toString n).data := by
  show ' ' ∉ (Nat.repr n).data
  unfold Nat.repr Nat.toDigits
  simp only [List.asString]
  exact toDigitsCore_no_space _ _ _ (by simp)

theorem split_at_first {α : Type} (a : α) : ∀ (l1 l2 r1 r2 : List α), a ∉ l1 → a ∉ l2 →
    l1 ++ a :: r1 = l2 ++ a :: r2 → l1 = l2 ∧ r1 = r2 := by
  intro l1
  induction l1 with
  | nil =>
    intro l2 r1 r2 _ h2 h
    cases l2 with
    | nil => simpa using h
    | cons b t =>
      simp only [List.nil_append, List.cons_append, List.cons.injEq] at h
      exact absurd (by rw [← h.1]; simp) h2
  | cons x t ih =>
    intro l2 r1 r2 h1 h2 h
    cases l2 with
    | nil =>
      simp only [List.nil_append, List.cons_append, List.cons.injEq] at h
      exact absurd (by rw [h.1]; simp) h1
    | cons b t2 =>
      simp only [List.cons_append, List.cons.injEq] at h
      simp only [List.mem_cons, not_or] at h1 h2
      obtain ⟨e1, e2⟩ := ih t2 r1 r2 h1.2 h2.2 h.2
      exact ⟨by rw [h.1, e1], e2⟩

theorem pad2_no_space (n : ℕ) : ' ' ∉ (pad2 n).data := by
  unfold pad2
  split_ifs
  · rw [String.data_append, List.mem_append, not_or]
    exact ⟨by decide, toString_no_space n⟩
  · exact toString_no_space n

theorem fmtF2_no_space (x : float64) : ' ' ∉ (fmtF2 x).data := by
  cases x with
  | NaN => decide
  | Inf neg => cases neg <;> decide
  | negZero => decide
  | fin q =>
    simp only [fmtF2, String.data_append, List.mem_append, not_or]
    refine ⟨⟨⟨?_, toString_no_space _⟩, by decide⟩, pad2_no_space _⟩
    split_ifs <;> decide

theorem reasonPriceAbove_data (p t : float64) :
    (rule.reasonPriceAbove p t).data
      = ['价', '格', ' ', '$'] ++ ((fmtF2 p).data ++ ' ' :: (['超', '过', ' ', '$'] ++ (fmtF2 t).data)) := by
  simp [rule.reasonPriceAbove, String.data_append]

theorem reasonPriceBelow_data (p t : float64) :
    (rule.reasonPriceBelow p t).data
      = ['价', '格', ' ', '$'] ++ ((fmtF2 p).data ++ ' ' :: (['低', '于', ' ', '$'] ++ (fmtF2 t).data)) := by
  simp [rule.reasonPriceBelow, String.data_append]

theorem reasonChangeAbove_data (p t : float64) :
    (rule.reasonChangeAbove p t).data
      = '涨' :: ('幅' :: ' ' :: ((fmtF2 p).data ++ ("% 超过 ".data ++ ((fmtF2 t).data ++ ['%'])))) := by
  simp [rule.reasonChangeAbove, String.data_append]

theorem reasonChangeBelow_data (p t : float64) :
    (rule.reasonChangeBelow p t).data
      = '跌' :: ('幅' :: ' ' :: ((fmtF2 p).data ++ ("% 超过 ".data ++ ((fmtF2 t).data ++ ['%'])))) := by
  simp [rule.reasonChangeBelow, String.data_append]

theorem priceAbove_ne_priceBelow (p t p' t' : float64) :
    rule.reasonPriceAbove p t ≠ rule.reasonPriceBelow p' t' := by
  intro h
  have hd := congrArg String.data h
  rw [reasonPriceAbove_data, reasonPriceBelow_data] at hd
  have h2 := (split_at_first ' ' _ _ _ _ (fmtF2_no_space p) (fmtF2_no_space p')
    (List.append_cancel_left hd)).2
  simp at h2

theorem text_injective_in_condition (c c' : Condition) (q q' : stock.Quote) (t t' : float64)
    (h : c.text q t = c'.text q' t') : c = c' := by
  have hd := congrArg String.data h
  cases c <;> cases c' <;> first
    | rfl
    | exact absurd h (priceAbove_ne_priceBelow _ _ _ _)
    | exact absurd h.symm (priceAbove_ne_priceBelow _ _ _ _)
    | (simp only [Condition.text, reasonPriceAbove_data, reasonPriceBelow_data,
        reasonChangeAbove_data, reasonChangeBelow_data] at hd
       simp at hd)

theorem reason_eq_some (c : Condition) (r : config.Rule) (q : stock.Quote) (x : String)
    (h : c.reason r q = some x) :
    c.holds r q = true ∧ ∃ t, c.threshold r = some t ∧ x = c.text q t := by
  unfold Condition.reason at h
  unfold Condition.holds
  cases ht : c.threshold r with
  | none => simp [ht] at h
  | some t =>
    rw [ht] at h
    by_cases hc : c.compare q t = true
    · simp only [hc, if_true, Option.some.injEq] at h
      exact ⟨hc, t, rfl, h.symm⟩
    · simp [hc] at h

theorem reason_condition_unique (c c' : Condition) (r r' : config.Rule) (q q' : stock.Quote)
    (x : String) (h : c.reason r q = some x) (h' : c'.reason r' q' = some x) : c = c' := by
  obtain ⟨_, t, _, e⟩ := reason_eq_some c r q x h
  obtain ⟨_, t', _, e'⟩ := reason_eq_some c' r' q' x h'
  exact text_injective_in_condition c c' q q' t t' (e.symm.trans e')

/-! ## Lemmas on triggering -/

theorem float64_lt_irrefl (x : float64) : float64.lt x x = false := by
  unfold float64.lt
  cases x.rank with
  | none => rfl
  | some p => simp

theorem holds_iff (c : Condition) (r : config.Rule) (q : stock.Quote) :
    c.holds r q = true ↔ ∃ t, c.threshold r = some t ∧ c.compare q t = true := by
  unfold Condition.holds
  cases c.threshold r with
  | none => simp
  | some t => simp

theorem triggered_iff_exists_holds (r : config.Rule) (q : stock.Quote) :
    (rule.Evaluate r q).Triggered = true ↔ ∃ c : Condition, c.holds r q = true := by
  unfold rule.TriggerResult.Triggered
  rw [decide_eq_true_iff, gt_iff_lt, List.length_pos]
  constructor
  · intro hne
    obtain ⟨x, hx⟩ := List.exists_mem_of_ne_nil _ hne
    obtain ⟨c, hc⟩ := (mem_Reasons_iff r q x).1 hx
    exact ⟨c, (reason_eq_some c r q x hc).1⟩
  · rintro ⟨c, hc⟩
    rw [← reason_isSome_iff, Option.isSome_iff_exists] at hc
    obtain ⟨x, hx⟩ := hc
    exact List.ne_nil_of_mem ((mem_Reasons_iff r q x).2 ⟨c, hx⟩)

theorem countP_send_ite (c : Prop) [Decidable c] (t b g : String) (res : Option String) :
    (if c then [Event.send t b g res] else []).countP Event.isSend = if c then 1 else 0 := by
  split_ifs <;> simp [Event.isSend]

/-! ## Lemmas on successive steps -/

theorem updateStock_ok_as_checkRule (m : tui.Model) (q : stock.Quote) (now : Int)
    (data : tui.StockData) (r : config.Rule)
    (hdata : m.stocks r.Symbol = some data) (hrule : m.cfg.GetRule r.Symbol = some r) :
    (∃ d, (m.updateStock ⟨r.Symbol, Except.ok q⟩ now).model.stocks r.Symbol = some d)
    ∧ (m.updateStock ⟨r.Symbol, Except.ok q⟩ now).model.cfg = m.cfg
    ∧ (m.updateStock ⟨r.Symbol, Except.ok q⟩ now).model.notifier = m.notifier
    ∧ (m.updateStock ⟨r.Symbol, Except.ok q⟩ now).model.triggeredState
        = (cmd.checkRule m.notifier r (Except.ok q) m.triggeredState).state
    ∧ (m.updateStock ⟨r.Symbol, Except.ok q⟩ now).newlyTriggered
        = (cmd.checkRule m.notifier r (Except.ok q) m.triggeredState).newlyTriggered
    ∧ (m.updateStock ⟨r.Symbol, Except.ok q⟩ now).events
        = (cmd.checkRule m.notifier r (Except.ok q) m.triggeredState).events := by
  simp [tui.Model.updateStock, hdata, hrule, cmd.checkRule]

theorem checkRule_ok_stored (n : notify.Notifier) (r : config.Rule) (q : stock.Quote)
    (st : TriggeredState) :
    ((cmd.checkRule n r (Except.ok q) st).state r.Symbol).getD ∅
      = (rule.Evaluate r q).Reasons.toFinset := by
  rw [checkRule_ok_state]
  simp

theorem checkRule_sends_one (n : notify.Notifier) (r : config.Rule) (q : stock.Quote)
    (st : TriggeredState) (x : String) (hcfg : n.IsConfigured = true)
    (hx : x ∈ (cmd.checkRule n r (Except.ok q) st).newlyTriggered) :
    (cmd.checkRule n r (Except.ok q) st).events.countP Event.isSend = 1 := by
  rw [checkRule_ok_events, countP_send_ite, if_pos]
  exact ⟨Finset.ne_empty_of_mem hx, hcfg⟩

theorem checkRule_sends_none (n : notify.Notifier) (r : config.Rule) (q : stock.Quote)
    (st : TriggeredState) (h : (cmd.checkRule n r (Except.ok q) st).newlyTriggered = ∅) :
    (cmd.checkRule n r (Except.ok q) st).events = [] := by
  rw [checkRule_ok_events, if_neg]
  intro hh
  exact hh.1 h

theorem holds_reason (c : Condition) (r : config.Rule) (q : stock.Quote)
    (h : c.holds r q = true) : ∃ x, c.reason r q = some x ∧ x ∈ (rule.Evaluate r q).Reasons := by
  rw [← reason_isSome_iff, Option.isSome_iff_exists] at h
  obtain ⟨x, hx⟩ := h
  exact ⟨x, hx, (mem_Reasons_iff r q x).2 ⟨c, hx⟩⟩

/-- The re-arm property on three successive steps of `checkRules` for one rule. -/
theorem rearm_checkRule (n : notify.Notifier) (r : config.Rule) (q1 q2 q3 : stock.Quote)
    (st : TriggeredState) (c : Condition)
    (hcfg : n.IsConfigured = true) (hst : (st r.Symbol).getD ∅ = ∅)
    (h1 : c.holds r q1 = true) (h2 : c.holds r q2 = false) (h3 : c.holds r q3 = true)
    (s1 s2 s3 : cmd.StepResult)
    (e1 : s1 = cmd.checkRule n r (Except.ok q1) st)
    (e2 : s2 = cmd.checkRule n r (Except.ok q2) s1.state)
    (e3 : s3 = cmd.checkRule n r (Except.ok q3) s2.state) :
    ((∃ x, c.reason r q1 = some x ∧ x ∈ s1.newlyTriggered)
      ∧ s1.events.countP Event.isSend = 1)
    ∧ ((∀ x ∈ s2.newlyTriggered, ∃ c', c' ≠ c ∧ c'.reason r q2 = some x)
      ∧ (s2.newlyTriggered = ∅ → s2.events = [])
      ∧ ((∀ c', c' ≠ c → c'.holds r q2 = false) → s2.events = []))
    ∧ ((∃ x, c.reason r q3 = some x ∧ x ∈ s3.newlyTriggered)
      ∧ s3.events.countP Event.isSend = 1) := by
  subst e1 e2 e3
  have hne : ∀ c' x, c'.reason r q2 = some x → c' ≠ c := by
    intro c' x hx hcc
    rw [hcc] at hx
    have := (reason_eq_some c r q2 x hx).1
    rw [h2] at this
    exact Bool.noConfusion this
  refine ⟨?_, ⟨?_, checkRule_sends_none n r q2 _, ?_⟩, ?_⟩
  · obtain ⟨x, hx, hmem⟩ := holds_reason c r q1 h1
    have hx1 : x ∈ (cmd.checkRule n r (Except.ok q1) st).newlyTriggered := by
      rw [checkRule_ok_newly, hst]
      simpa using hmem
    exact ⟨⟨x, hx, hx1⟩, checkRule_sends_one n r q1 st x hcfg hx1⟩
  · intro x hx
    rw [checkRule_ok_newly, Finset.mem_sdiff, List.mem_toFinset] at hx
    obtain ⟨c', hc'⟩ := (mem_Reasons_iff r q2 x).1 hx.1
    exact ⟨c', hne c' x hc', hc'⟩
  · intro hall
    apply checkRule_sends_none
    rw [checkRule_ok_newly]
    have hnil : (rule.Evaluate r q2).Reasons = [] := by
      rw [List.eq_nil_iff_forall_not_mem]
      intro x hx
      obtain ⟨c', hc'⟩ := (mem_Reasons_iff r q2 x).1 hx
      have := (reason_eq_some c' r q2 x hc').1
      rw [hall c' (hne c' x hc')] at this
      exact Bool.noConfusion this
    rw [hnil]
    simp
  · obtain ⟨x, hx, hmem⟩ := holds_reason c r q3 h3
    have hx3 : x ∈ (cmd.checkRule n r (Except.ok q3)
        (cmd.checkRule n r (Except.ok q2)
          (cmd.checkRule n r (Except.ok q1) st).state).state).newlyTriggered := by
      rw [checkRule_ok_newly, checkRule_ok_stored, Finset.mem_sdiff, List.mem_toFinset,
        List.mem_toFinset]
      refine ⟨hmem, fun hin => ?_⟩
      obtain ⟨c', hc'⟩ := (mem_Reasons_iff r q2 x).1 hin
      exact hne c' x hc' (reason_condition_unique c' c r r q2 q3 x hc' hx)
    exact ⟨⟨x, hx, hx3⟩, checkRule_sends_one n r q3 _ x hcfg hx3⟩

/-- The same quote evaluated on two successive steps of `checkRules` for one rule. -/
theorem same_quote_checkRule (n : notify.Notifier) (r : config.Rule) (q : stock.Quote)
    (st : TriggeredState) (hcfg : n.IsConfigured = true) (hst : (st r.Symbol).getD ∅ = ∅)
    (htrig : (rule.Evaluate r q).Triggered = true) :
    (cmd.checkRule n r (Except.ok q) st).events.countP Event.isSend = 1
    ∧ (cmd.checkRule n r (Except.ok q) (cmd.checkRule n r (Except.ok q) st).state).events = []
    ∧ (cmd.checkRule n r (Except.ok q) (cmd.checkRule n r (Except.ok q) st).state).state
        = (cmd.checkRule n r (Except.ok q) st).state := by
  obtain ⟨c, hc⟩ := (triggered_iff_exists_holds r q).1 htrig
  obtain ⟨x, _, hmem⟩ := holds_reason c r q hc
  refine ⟨?_, ?_, ?_⟩
  · apply checkRule_sends_one n r q st x hcfg
    rw [checkRule_ok_newly, hst]
    simpa using hmem
  · apply checkRule_sends_none
    rw [checkRule_ok_newly, checkRule_ok_stored]
    simp
  · rw [checkRule_ok_state, checkRule_ok_state]
    simp

/-! ## Lemmas on a whole pass -/

theorem checkRule_other (n : notify.Notifier) (r : config.Rule)
    (f : Except String stock.Quote) (st : TriggeredState) (s : String) (h : s ≠ r.Symbol) :
    (cmd.checkRule n r f st).state s = st s := by
  cases f with
  | error e => rfl
  | ok q =>
    rw [checkRule_ok_state]
    exact Function.update_noteq h _ _

theorem checkRule_congr (n : notify.Notifier) (r : config.Rule)
    (f : Except String stock.Quote) (st1 st2 : TriggeredState)
    (h : st1 r.Symbol = st2 r.Symbol) :
    (cmd.checkRule n r f st1).events = (cmd.checkRule n r f st2).events
    ∧ (cmd.checkRule n r f st1).state r.Symbol = (cmd.checkRule n r f st2).state r.Symbol := by
  cases f with
  | error e => exact ⟨rfl, h⟩
  | ok q =>
    refine ⟨?_, ?_⟩
    · rw [checkRule_ok_events, checkRule_ok_events, checkRule_ok_newly, checkRule_ok_newly, h]
    · rw [checkRule_ok_state, checkRule_ok_state]
      simp

theorem checkRules_frame (n : notify.Notifier) :
    ∀ (work : List (config.Rule × Except String stock.Quote)) (st : TriggeredState) (s : String),
      (∀ p ∈ work, p.1.Symbol ≠ s) → (cmd.checkRules n work st).1 s = st s := by
  intro work
  induction work with
  | nil => intro st s _; rfl
  | cons p rest ih =>
    intro st s h
    obtain ⟨r, f⟩ := p
    simp only [cmd.checkRules]
    rw [ih _ s (fun p hp => h p (List.mem_cons_of_mem _ hp))]
    exact checkRule_other n r f st s (fun e => h (r, f) (List.mem_cons_self _ _) e.symm)

theorem checkRules_agree (n : notify.Notifier) (P : String → Prop) :
    ∀ (work : List (config.Rule × Except String stock.Quote)) (st1 st2 : TriggeredState),
      (∀ p ∈ work, P p.1.Symbol) → (∀ s, P s → st1 s = st2 s) →
        (cmd.checkRules n work st1).2 = (cmd.checkRules n work st2).2
        ∧ ∀ s, P s → (cmd.checkRules n work st1).1 s = (cmd.checkRules n work st2).1 s := by
  intro work
  induction work with
  | nil => intro st1 st2 _ h; exact ⟨rfl, h⟩
  | cons p rest ih =>
    intro st1 st2 hP h
    obtain ⟨r, f⟩ := p
    have hr : P r.Symbol := hP (r, f) (List.mem_cons_self _ _)
    obtain ⟨hev, hst⟩ := checkRule_congr n r f st1 st2 (h _ hr)
    have hnext : ∀ s, P s →
        (cmd.checkRule n r f st1).state s = (cmd.checkRule n r f st2).state s := by
      intro s hs
      by_cases e : s = r.Symbol
      · rw [e]; exact hst
      · rw [checkRule_other n r f st1 s e, checkRule_other n r f st2 s e]
        exact h s hs
    obtain ⟨ih1, ih2⟩ := ih _ _ (fun p hp => hP p (List.mem_cons_of_mem _ hp)) hnext
    simp only [cmd.checkRules]
    exact ⟨by rw [hev, ih1], ih2⟩

theorem checkRules_append (n : notify.Notifier) :
    ∀ (a b : List (config.Rule × Except String stock.Quote)) (st : TriggeredState),
      cmd.checkRules n (a ++ b) st
        = ((cmd.checkRules n b (cmd.checkRules n a st).1).1,
            (cmd.checkRules n a st).2 ++ (cmd.checkRules n b (cmd.checkRules n a st).1).2) := by
  intro a
  induction a with
  | nil => intro b st; rfl
  | cons p rest ih =>
    intro b st
    obtain ⟨r, f⟩ := p
    show cmd.checkRules n ((r, f) :: (rest ++ b)) st = _
    simp only [cmd.checkRules, ih, List.cons_append]

theorem symbols_ne_of_mem (work : List (config.Rule × Except String stock.Quote)) (x : String)
    (h : x ∉ work.map (fun p => p.1.Symbol)) : ∀ p ∈ work, p.1.Symbol ≠ x := by
  intro p hp e
  exact h (List.mem_map.2 ⟨p, hp, e⟩)

theorem filter_events_of_ne (x : String) (l : List (String × List Event))
    (h : ∀ se ∈ l, se.1 ≠ x) : l.filter (fun se => decide (se.1 ≠ x)) = l := by
  rw [List.filter_eq_self]
  intro se hse
  exact decide_eq_true (h se hse)

theorem checkRules_symbols (n : notify.Notifier) :
    ∀ (work : List (config.Rule × Except String stock.Quote)) (st : TriggeredState),
      (cmd.checkRules n work st).2.map (fun se => se.1) = work.map (fun p => p.1.Symbol) := by
  intro work
  induction work with
  | nil => intro st; rfl
  | cons p rest ih =>
    intro st
    obtain ⟨r, f⟩ := p
    simp only [cmd.checkRules, List.map_cons, ih]

/-- A failed fetch for one rule inside a pass of `checkRules` over distinct symbols. -/
theorem fetch_error_checkRules (n : notify.Notifier)
    (pre post : List (config.Rule × Except String stock.Quote)) (rX : config.Rule)
    (err : String) (q : stock.Quote) (st : TriggeredState)
    (hdist : ((pre ++ (rX, Except.error err) :: post).map (fun p => p.1.Symbol)).Nodup) :
    (cmd.checkRules n (pre ++ (rX, Except.error err) :: post) st).1 rX.Symbol = st rX.Symbol
    ∧ (∀ se ∈ (cmd.checkRules n (pre ++ (rX, Except.error err) :: post) st).2,
        se.1 = rX.Symbol → se.2 = [Event.fetchError rX.Symbol err])
    ∧ (∀ y, y ≠ rX.Symbol →
        (cmd.checkRules n (pre ++ (rX, Except.error err) :: post) st).1 y
          = (cmd.checkRules n (pre ++ (rX, Except.ok q) :: post) st).1 y)
    ∧ (cmd.checkRules n (pre ++ (rX, Except.error err) :: post) st).2.filter
          (fun se => decide (se.1 ≠ rX.Symbol))
        = (cmd.checkRules n (pre ++ (rX, Except.ok q) :: post) st).2.filter
          (fun se => decide (se.1 ≠ rX.Symbol)) := by
  rw [List.map_append, List.map_cons, List.nodup_append] at hdist
  obtain ⟨_, hpostnd, hdisj⟩ := hdist
  have hpre : ∀ p ∈ pre, p.1.Symbol ≠ rX.Symbol :=
    symbols_ne_of_mem pre _ (fun hin => hdisj hin (List.mem_cons_self _ _))
  have hpost : ∀ p ∈ post, p.1.Symbol ≠ rX.Symbol :=
    symbols_ne_of_mem post _ (List.nodup_cons.1 hpostnd).1
  have hag := checkRules_agree n (fun s => s ≠ rX.Symbol) post
    (cmd.checkRule n rX (Except.error err) (cmd.checkRules n pre st).1).state
    (cmd.checkRule n rX (Except.ok q) (cmd.checkRules n pre st).1).state hpost
    (fun s hs => by
      rw [checkRule_other n rX _ _ s hs, checkRule_other n rX _ _ s hs])
  have hsym : ∀ (w : List (config.Rule × Except String stock.Quote)) (st' : TriggeredState),
      (∀ p ∈ w, p.1.Symbol ≠ rX.Symbol) →
        ∀ se ∈ (cmd.checkRules n w st').2, se.1 ≠ rX.Symbol := by
    intro w st' hw se hse e
    have hm : se.1 ∈ (cmd.checkRules n w st').2.map (fun se => se.1) :=
      List.mem_map.2 ⟨se, hse, rfl⟩
    rw [checkRules_symbols] at hm
    obtain ⟨p, hp, hpe⟩ := List.mem_map.1 hm
    exact hw p hp (hpe.trans e)
  simp only [checkRules_append, cmd.checkRules]
  refine ⟨?_, ?_, ?_, ?_⟩
  · rw [checkRules_frame n post _ _ hpost]
    show (cmd.checkRules n pre st).1 rX.Symbol = st rX.Symbol
    exact checkRules_frame n pre st _ hpre
  · intro se hse e
    rw [List.mem_append, List.mem_cons] at hse
    rcases hse with h | h | h
    · exact absurd e (hsym pre st hpre se h)
    · rw [h]; rfl
    · exact absurd e (hsym post _ hpost se h)
  · intro y hy
    exact hag.2 y hy
  · rw [List.filter_append, List.filter_append, List.filter_cons, List.filter_cons, hag.1]
    simp

theorem updateStock_error (m : tui.Model) (x err : String) (t : Int) :
    (m.updateStock ⟨x, Except.error err⟩ t).model.triggeredState = m.triggeredState
    ∧ (m.updateStock ⟨x, Except.error err⟩ t).events = [] := by
  unfold tui.Model.updateStock
  cases m.stocks x <;> exact ⟨rfl, rfl⟩

theorem updateStock_writes (m : tui.Model) (x : String) (f : Except String stock.Quote)
    (t : Int) (y : String) (h : y ≠ x) :
    (m.updateStock ⟨x, f⟩ t).model.stocks y = m.stocks y
    ∧ (m.updateStock ⟨x, f⟩ t).model.triggeredState y = m.triggeredState y
    ∧ (m.updateStock ⟨x, f⟩ t).model.cfg = m.cfg
    ∧ (m.updateStock ⟨x, f⟩ t).model.notifier = m.notifier := by
  unfold tui.Model.updateStock
  simp only
  cases m.stocks x with
  | none => exact ⟨rfl, rfl, rfl, rfl⟩
  | some data =>
    cases f with
    | error e => exact ⟨Function.update_noteq h _ _, rfl, rfl, rfl⟩
    | ok q =>
      cases m.cfg.GetRule x with
      | none => exact ⟨Function.update_noteq h _ _, rfl, rfl, rfl⟩
      | some r =>
        refine ⟨Function.update_noteq h _ _, ?_, rfl, rfl⟩
        simp only [replace_eq]
        exact Function.update_noteq h _ _

theorem updateStock_reads (m1 m2 : tui.Model) (y : String) (f : Except String stock.Quote)
    (t : Int) (hs : m1.stocks y = m2.stocks y) (hc : m1.cfg = m2.cfg)
    (hn : m1.notifier = m2.notifier) (ht : m1.triggeredState y = m2.triggeredState y) :
    (m1.updateStock ⟨y, f⟩ t).events = (m2.updateStock ⟨y, f⟩ t).events
    ∧ (m1.updateStock ⟨y, f⟩ t).model.triggeredState y
        = (m2.updateStock ⟨y, f⟩ t).model.triggeredState y := by
  unfold tui.Model.updateStock
  simp only [hs, hc, hn]
  cases m2.stocks y with
  | none => exact ⟨rfl, ht⟩
  | some data =>
    cases f with
    | error e => exact ⟨rfl, ht⟩
    | ok q =>
      cases m2.cfg.GetRule y with
      | none => exact ⟨rfl, ht⟩
      | some r =>
        simp only [edge_filter_eq, replace_eq]
        simp only [ht, Function.update_same]
        exact ⟨trivial, trivial⟩

/-! ## Lemmas on the notification text -/

theorem foldl_append_eq (l : List String) (acc : String) :
    l.foldl (fun b x => b ++ x) acc = acc ++ String.join l := by
  induction l generalizing acc with
  | nil => simp [String.join]
  | cons a t ih =>
    have h1 := ih (acc ++ a)
    have h2 := ih ("" ++ a)
    simp only [List.foldl_cons, String.join] at h1 h2 ⊢
    rw [h1, h2, String.empty_append, String.append_assoc]

theorem FormatNotification_eq (r : config.Rule) (q : stock.Quote) :
    (rule.Evaluate r q).FormatNotification
      = (notificationTitle r,
          notificationHeader q ++ String.join ((rule.Evaluate r q).Reasons.map reasonLine)) := by
  have h : ∀ (l : List String) (acc : String),
      l.foldl (fun b reason => b ++ ("⚠️ " ++ reason ++ "\n")) acc
        = (l.map reasonLine).foldl (fun b x => b ++ x) acc := by
    intro l
    induction l with
    | nil => intro acc; rfl
    | cons a t ih => intro acc; simp only [List.foldl_cons, List.map_cons, ih, reasonLine]
  unfold rule.TriggerResult.FormatNotification
  simp only [h, foldl_append_eq]
  rfl

theorem Reasons_nodup (r : config.Rule) (q : stock.Quote) :
    (rule.Evaluate r q).Reasons.Nodup := by
  rw [Evaluate_Reasons]
  apply List.Nodup.filterMap
  · intro c c' x hx hx'
    exact reason_condition_unique c c' r r q q x (Option.mem_def.1 hx) (Option.mem_def.1 hx')
  · decide

theorem eq_singleton_of_nodup (l : List String) (a : String) (hnd : l.Nodup)
    (hmem : ∀ x, x ∈ l ↔ x = a) : l = [a] := by
  cases l with
  | nil => exact absurd ((hmem a).2 rfl) (List.not_mem_nil a)
  | cons b t =>
    have hb : b = a := (hmem b).1 (List.mem_cons_self _ _)
    have ht : t = [] := by
      rw [List.eq_nil_iff_forall_not_mem]
      intro c hc
      have hca : c = a := (hmem c).1 (List.mem_cons_of_mem _ hc)
      rw [hca, ← hb] at hc
      exact (List.nodup_cons.1 hnd).1 hc
    rw [hb, ht]

/-! ## Claims -/

/-- C1 (evaluated on the code): rule change-below = -5 with percent-changes -2, -6, -7, -1 on
four passes.  The change-below condition holds on passes 2 and 3, and the transport is called
on pass 2 and again on pass 3: the stored key is the reason text, which carries the current
value, so the reason of pass 3 is not found in the set stored by pass 2. -/
theorem C1_tsla_scenario_sends_on_passes_2_and_3 :
    Condition.changeBelow.holds ruleTSLA (quoteOf "TSLA" 100 (-6)) = true
    ∧ Condition.changeBelow.holds ruleTSLA (quoteOf "TSLA" 100 (-7)) = true
    ∧ sentPerPass (cmd.runPasses okNotifier
        (passesOf ruleTSLA [quoteOf "TSLA" 100 (-2), quoteOf "TSLA" 100 (-6),
          quoteOf "TSLA" 100 (-7), quoteOf "TSLA" 100 (-1)]) TriggeredState.empty).2
        = [false, true, true, false] := by
  decide

/-- C2: in a step whose fetch succeeds, the newly-triggered set is the set of reasons that
Evaluate returns for the quote minus the set stored for the symbol, the stored set being empty
when the symbol has no entry; in `checkRules` and in `updateStock` alike. -/
theorem C2_newly_triggered_is_current_minus_stored (n : notify.Notifier) (r : config.Rule)
    (q : stock.Quote) (st : TriggeredState) (m : tui.Model) (symbol : String) (now : Int)
    (data : tui.StockData) (r' : config.Rule)
    (hdata : m.stocks symbol = some data) (hrule : m.cfg.GetRule symbol = some r') :
    (cmd.checkRule n r (Except.ok q) st).newlyTriggered
        = (rule.Evaluate r q).Reasons.toFinset \ (st r.Symbol).getD ∅
    ∧ (m.updateStock ⟨symbol, Except.ok q⟩ now).newlyTriggered
        = (rule.Evaluate r' q).Reasons.toFinset \ (m.triggeredState symbol).getD ∅ :=
  ⟨checkRule_ok_newly n r q st, (updateStock_ok m symbol q now data r' hdata hrule).1⟩

theorem C2_newly_triggered_is_current_minus_stored_witness :
    dashModel.stocks "AAPL" = some stockAAPL
    ∧ dashModel.cfg.GetRule "AAPL" = some ruleAAPL
    ∧ (cmd.checkRule okNotifier ruleAAPL (Except.ok (quoteOf "AAPL" 205 1))
          TriggeredState.empty).newlyTriggered
        = (rule.Evaluate ruleAAPL (quoteOf "AAPL" 205 1)).Reasons.toFinset
            \ (TriggeredState.empty ruleAAPL.Symbol).getD ∅
    ∧ (dashModel.updateStock ⟨"AAPL", Except.ok (quoteOf "AAPL" 205 1)⟩ 7).newlyTriggered
        = (rule.Evaluate ruleAAPL (quoteOf "AAPL" 205 1)).Reasons.toFinset
            \ (dashModel.triggeredState "AAPL").getD ∅ :=
  ⟨rfl, rfl, C2_newly_triggered_is_current_minus_stored okNotifier ruleAAPL
    (quoteOf "AAPL" 205 1) TriggeredState.empty dashModel "AAPL" 7 stockAAPL ruleAAPL rfl rfl⟩

/-- C3: after a step whose fetch succeeds, the set stored for the symbol is exactly the set of
reasons Evaluate returned for the quote, and a reason stored before that is not among them is
no longer stored; in `checkRules` and in `updateStock` alike. -/
theorem C3_stored_set_is_replaced (n : notify.Notifier) (r : config.Rule)
    (q : stock.Quote) (st : TriggeredState) (m : tui.Model) (symbol : String) (now : Int)
    (data : tui.StockData) (r' : config.Rule)
    (hdata : m.stocks symbol = some data) (hrule : m.cfg.GetRule symbol = some r') :
    ((cmd.checkRule n r (Except.ok q) st).state r.Symbol
        = some (rule.Evaluate r q).Reasons.toFinset
      ∧ ∀ x, x ∈ (st r.Symbol).getD ∅ → x ∉ (rule.Evaluate r q).Reasons →
          x ∉ ((cmd.checkRule n r (Except.ok q) st).state r.Symbol).getD ∅)
    ∧ ((m.updateStock ⟨symbol, Except.ok q⟩ now).model.triggeredState symbol
        = some (rule.Evaluate r' q).Reasons.toFinset
      ∧ ∀ x, x ∈ (m.triggeredState symbol).getD ∅ → x ∉ (rule.Evaluate r' q).Reasons →
          x ∉ ((m.updateStock ⟨symbol, Except.ok q⟩ now).model.triggeredState symbol).getD ∅) := by
  have e1 : (cmd.checkRule n r (Except.ok q) st).state r.Symbol
      = some (rule.Evaluate r q).Reasons.toFinset := by
    rw [checkRule_ok_state]; simp
  have e2 : (m.updateStock ⟨symbol, Except.ok q⟩ now).model.triggeredState symbol
      = some (rule.Evaluate r' q).Reasons.toFinset := by
    rw [(updateStock_ok m symbol q now data r' hdata hrule).2.1]; simp
  refine ⟨⟨e1, ?_⟩, e2, ?_⟩
  · intro x _ hx
    rw [e1]
    simpa using hx
  · intro x _ hx
    rw [e2]
    simpa using hx

theorem C3_stored_set_is_replaced_witness :
    dashModel.stocks "AAPL" = some stockAAPL
    ∧ dashModel.cfg.GetRule "AAPL" = some ruleAAPL
    ∧ (cmd.checkRule okNotifier ruleAAPL (Except.ok (quoteOf "AAPL" 195 1))
          (Function.update TriggeredState.empty "AAPL" (some {"old"}))).state "AAPL"
        = some (rule.Evaluate ruleAAPL (quoteOf "AAPL" 195 1)).Reasons.toFinset
    ∧ (dashModel.updateStock ⟨"AAPL", Except.ok (quoteOf "AAPL" 195 1)⟩ 7).model.triggeredState
          "AAPL"
        = some (rule.Evaluate ruleAAPL (quoteOf "AAPL" 195 1)).Reasons.toFinset :=
  have h := C3_stored_set_is_replaced okNotifier ruleAAPL (quoteOf "AAPL" 195 1)
    (Function.update TriggeredState.empty "AAPL" (some {"old"})) dashModel "AAPL" 7 stockAAPL
    ruleAAPL rfl rfl
  ⟨rfl, rfl, h.1.1, h.2.1⟩

/-- C4: Evaluate(rule, quote).Triggered() is true exactly when one of the four thresholds is
set and strictly passed by the quote (price above, price below, change above, change below,
with the comparisons of float64); on finite values these are the strict orders of the numbers;
a quote whose price and percent-change equal the thresholds triggers nothing; and a rule with
no threshold set never triggers. -/
theorem C4_triggered_iff_some_threshold_strictly_passed :
    (∀ (r : config.Rule) (q : stock.Quote),
      (rule.Evaluate r q).Triggered = true ↔
        ((∃ t, r.PriceAbove = some t ∧ float64.gt q.CurrentPrice t = true)
        ∨ (∃ t, r.PriceBelow = some t ∧ float64.lt q.CurrentPrice t = true)
        ∨ (∃ t, r.ChangeAbove = some t ∧ float64.gt q.PercentChange t = true)
        ∨ (∃ t, r.ChangeBelow = some t ∧ float64.lt q.PercentChange t = true)))
    ∧ (∀ a b : ℚ, (float64.gt (float64.fin a) (float64.fin b) = true ↔ b < a)
        ∧ (float64.lt (float64.fin a) (float64.fin b) = true ↔ a < b))
    ∧ (∀ (symbol market name : String) (q : stock.Quote),
        (rule.Evaluate
          { Symbol := symbol, Market := market, Name := name,
            PriceAbove := some q.CurrentPrice, PriceBelow := some q.CurrentPrice,
            ChangeAbove := some q.PercentChange, ChangeBelow := some q.PercentChange }
          q).Triggered = false)
    ∧ (∀ (symbol market name : String) (q : stock.Quote),
        (rule.Evaluate
          { Symbol := symbol, Market := market, Name := name, PriceAbove := none,
            PriceBelow := none, ChangeAbove := none, ChangeBelow := none } q).Triggered
          = false) := by
  refine ⟨?_, ?_, ?_, ?_⟩
  · intro r q
    rw [triggered_iff_exists_holds]
    constructor
    · rintro ⟨c, hc⟩
      rw [holds_iff] at hc
      cases c
      · exact Or.inl hc
      · exact Or.inr (Or.inl hc)
      · exact Or.inr (Or.inr (Or.inl hc))
      · exact Or.inr (Or.inr (Or.inr hc))
    · rintro (h | h | h | h)
      · exact ⟨Condition.priceAbove, (holds_iff _ r q).2 h⟩
      · exact ⟨Condition.priceBelow, (holds_iff _ r q).2 h⟩
      · exact ⟨Condition.changeAbove, (holds_iff _ r q).2 h⟩
      · exact ⟨Condition.changeBelow, (holds_iff _ r q).2 h⟩
  · intro a b
    simp [float64.gt, float64.lt, float64.rank]
  · intro symbol market name q
    simp [rule.TriggerResult.Triggered, rule.Evaluate, rule.appendIf, float64.gt,
      float64_lt_irrefl]
  · intro symbol market name q
    rfl

/-- C5: the Reasons sequence of Evaluate is the list of the reasons of the conditions that
hold, taken in the fixed order price-above, price-below, change-above, change-below, one entry
per condition that holds; and for the rule 100 < price < 300, -10 < change < 10 with the quote
(200, 0) all four hold and the sequence is the four reasons in that order. -/
theorem C5_reasons_one_per_condition_in_fixed_order :
    (∀ (r : config.Rule) (q : stock.Quote),
      (rule.Evaluate r q).Reasons
          = [Condition.priceAbove, Condition.priceBelow, Condition.changeAbove,
              Condition.changeBelow].filterMap (fun c => c.reason r q)
      ∧ (∀ c : Condition, (c.reason r q).isSome = c.holds r q)
      ∧ (rule.Evaluate r q).Reasons.length
          = [Condition.priceAbove, Condition.priceBelow, Condition.changeAbove,
              Condition.changeBelow].countP (fun c => c.holds r q))
    ∧ (∀ c : Condition, c.holds ruleBand (quoteOf "MSFT" 200 0) = true)
    ∧ (rule.Evaluate ruleBand (quoteOf "MSFT" 200 0)).Reasons
        = ["价格 $200.00 超过 $100.00", "价格 $200.00 低于 $300.00",
           "涨幅 0.00% 超过 -10.00%", "跌幅 0.00% 超过 10.00%"] := by
  refine ⟨fun r q => ⟨Evaluate_Reasons r q, fun c => reason_isSome_iff c r q, ?_⟩, ?_, ?_⟩
  · rw [Evaluate_Reasons]
    unfold Condition.all
    have h : ∀ l : List Condition,
        (l.filterMap (fun c => c.reason r q)).length = l.countP (fun c => c.holds r q) := by
      intro l
      induction l with
      | nil => rfl
      | cons a t ih =>
        have ha := reason_isSome_iff a r q
        cases hr : a.reason r q with
        | none =>
          rw [hr] at ha
          simp [List.filterMap_cons, hr, List.countP_cons, ← ha, ih]
        | some x =>
          rw [hr] at ha
          simp [List.filterMap_cons, hr, List.countP_cons, ← ha, ih]
    exact h _
  · intro c
    cases c <;> decide
  · decide

/-- C6 (as stated, refuted): rule price-above = 200, change-above = 5, empty trigger memory,
configured notifier.  The price-above condition holds at (205, +1), not at (195, +6), and
again at (205, +1); the transport is called on all three passes, the second call being for
the change-above condition that newly holds there. -/
theorem C6_second_pass_can_notify_for_another_condition :
    okNotifier.IsConfigured = true
    ∧ Condition.priceAbove.holds ruleTwo (quoteOf "AAPL" 205 1) = true
    ∧ Condition.priceAbove.holds ruleTwo (quoteOf "AAPL" 195 6) = false
    ∧ sentPerPass (cmd.runPasses okNotifier
        (passesOf ruleTwo [quoteOf "AAPL" 205 1, quoteOf "AAPL" 195 6, quoteOf "AAPL" 205 1])
        TriggeredState.empty).2 = [true, true, true] := by
  decide

/-- C6 (amended, re-arm): the stored set of the symbol is empty and the notifier is
configured; a threshold condition holds on a pass, does not hold on the next and holds again
on the third, all fetches succeeding.  Then on the first and on the third pass the reason of
the condition is newly triggered and the transport is called once; on the second pass every
newly-triggered reason belongs to another condition, and the transport is not called when
nothing is newly triggered, in particular when no other condition holds there.
This holds for three steps of `checkRules` and for three `updateStock` steps.  Scenario:
price-above = 200 with prices 195, 205, 205, 195, 210 sends on passes 2 and 5 only. -/
theorem C6_rearm_after_clearing (n : notify.Notifier) (r : config.Rule)
    (q1 q2 q3 : stock.Quote) (st : TriggeredState) (c : Condition)
    (m : tui.Model) (data : tui.StockData) (t1 t2 t3 : Int)
    (hcfg : n.IsConfigured = true) (hst : (st r.Symbol).getD ∅ = ∅)
    (h1 : c.holds r q1 = true) (h2 : c.holds r q2 = false) (h3 : c.holds r q3 = true)
    (hdata : m.stocks r.Symbol = some data) (hrule : m.cfg.GetRule r.Symbol = some r)
    (hn : m.notifier = n) (hm : m.triggeredState = st) :
    (∀ s1 s2 s3 : cmd.StepResult,
      s1 = cmd.checkRule n r (Except.ok q1) st →
      s2 = cmd.checkRule n r (Except.ok q2) s1.state →
      s3 = cmd.checkRule n r (Except.ok q3) s2.state →
        ((∃ x, c.reason r q1 = some x ∧ x ∈ s1.newlyTriggered)
          ∧ s1.events.countP Event.isSend = 1)
        ∧ ((∀ x ∈ s2.newlyTriggered, ∃ c', c' ≠ c ∧ c'.reason r q2 = some x)
          ∧ (s2.newlyTriggered = ∅ → s2.events = [])
          ∧ ((∀ c', c' ≠ c → c'.holds r q2 = false) → s2.events = []))
        ∧ ((∃ x, c.reason r q3 = some x ∧ x ∈ s3.newlyTriggered)
          ∧ s3.events.countP Event.isSend = 1))
    ∧ (∀ u1 u2 u3 : tui.UpdateResult,
      u1 = m.updateStock ⟨r.Symbol, Except.ok q1⟩ t1 →
      u2 = u1.model.updateStock ⟨r.Symbol, Except.ok q2⟩ t2 →
      u3 = u2.model.updateStock ⟨r.Symbol, Except.ok q3⟩ t3 →
        ((∃ x, c.reason r q1 = some x ∧ x ∈ u1.newlyTriggered)
          ∧ u1.events.countP Event.isSend = 1)
        ∧ ((∀ x ∈ u2.newlyTriggered, ∃ c', c' ≠ c ∧ c'.reason r q2 = some x)
          ∧ (u2.newlyTriggered = ∅ → u2.events = [])
          ∧ ((∀ c', c' ≠ c → c'.holds r q2 = false) → u2.events = []))
        ∧ ((∃ x, c.reason r q3 = some x ∧ x ∈ u3.newlyTriggered)
          ∧ u3.events.countP Event.isSend = 1))
    ∧ sentPerPass (cmd.runPasses okNotifier
        (passesOf ruleAAPL [quoteOf "AAPL" 195 0, quoteOf "AAPL" 205 0, quoteOf "AAPL" 205 0,
          quoteOf "AAPL" 195 0, quoteOf "AAPL" 210 0]) TriggeredState.empty).2
        = [false, true, false, false, true] := by
  refine ⟨fun s1 s2 s3 e1 e2 e3 =>
      rearm_checkRule n r q1 q2 q3 st c hcfg hst h1 h2 h3 s1 s2 s3 e1 e2 e3, ?_, by decide⟩
  intro u1 u2 u3 e1 e2 e3
  obtain ⟨⟨d1, hd1⟩, hc1, hn1, hs1, hnew1, hev1⟩ :=
    updateStock_ok_as_checkRule m q1 t1 data r hdata hrule
  rw [← e1] at hd1 hc1 hn1 hs1 hnew1 hev1
  obtain ⟨⟨d2, hd2⟩, hc2, hn2, hs2, hnew2, hev2⟩ :=
    updateStock_ok_as_checkRule u1.model q2 t2 d1 r hd1 (by rw [hc1]; exact hrule)
  rw [← e2] at hd2 hc2 hn2 hs2 hnew2 hev2
  obtain ⟨_, _, _, _, hnew3, hev3⟩ :=
    updateStock_ok_as_checkRule u2.model q3 t3 d2 r hd2 (by rw [hc2, hc1]; exact hrule)
  rw [← e3] at hnew3 hev3
  rw [hn1, hn, hs1, hm] at hnew2 hev2 hs2
  rw [hn2, hn1, hn, hs2] at hnew3 hev3
  rw [hn, hm] at hnew1 hev1
  rw [hnew1, hev1, hnew2, hev2, hnew3, hev3]
  exact rearm_checkRule n r q1 q2 q3 st c hcfg hst h1 h2 h3 _ _ _ rfl rfl rfl

theorem C6_rearm_after_clearing_witness :
    (okNotifier.IsConfigured = true
      ∧ Condition.priceAbove.holds ruleAAPL (quoteOf "AAPL" 205 0) = true
      ∧ Condition.priceAbove.holds ruleAAPL (quoteOf "AAPL" 195 0) = false
      ∧ Condition.priceAbove.holds ruleAAPL (quoteOf "AAPL" 210 0) = true)
    ∧ (cmd.checkRule okNotifier ruleAAPL (Except.ok (quoteOf "AAPL" 205 0))
          TriggeredState.empty).events.countP Event.isSend = 1
    ∧ (cmd.checkRule okNotifier ruleAAPL (Except.ok (quoteOf "AAPL" 195 0))
          (cmd.checkRule okNotifier ruleAAPL (Except.ok (quoteOf "AAPL" 205 0))
            TriggeredState.empty).state).events = []
    ∧ (cmd.checkRule okNotifier ruleAAPL (Except.ok (quoteOf "AAPL" 210 0))
          (cmd.checkRule okNotifier ruleAAPL (Except.ok (quoteOf "AAPL" 195 0))
            (cmd.checkRule okNotifier ruleAAPL (Except.ok (quoteOf "AAPL" 205 0))
              TriggeredState.empty).state).state).events.countP Event.isSend = 1 :=
  have h := (C6_rearm_after_clearing okNotifier ruleAAPL (quoteOf "AAPL" 205 0)
    (quoteOf "AAPL" 195 0) (quoteOf "AAPL" 210 0) TriggeredState.empty Condition.priceAbove
    dashModel stockAAPL 1 2 3 (by decide) rfl (by decide) (by decide) (by decide) rfl rfl rfl
    rfl).1 _ _ _ rfl rfl rfl
  ⟨⟨by decide, by decide, by decide, by decide⟩, h.1.2,
    h.2.1.2.2 (fun c' hc' => by cases c' <;> first | exact absurd rfl hc' | decide), h.2.2.2⟩

/-- C7: the stored set of the symbol is empty and the notifier is configured; the same quote,
which satisfies at least one threshold of the rule, is evaluated on two consecutive passes.
The first pass calls the transport exactly once, the second not at all, and the trigger
memory after the second pass equals the one after the first; for `checkRules` and for
`updateStock` alike. -/
theorem C7_same_quote_twice_notifies_once (n : notify.Notifier) (r : config.Rule)
    (q : stock.Quote) (st : TriggeredState) (m : tui.Model) (data : tui.StockData)
    (t1 t2 : Int)
    (hcfg : n.IsConfigured = true) (hst : (st r.Symbol).getD ∅ = ∅)
    (htrig : (rule.Evaluate r q).Triggered = true)
    (hdata : m.stocks r.Symbol = some data) (hrule : m.cfg.GetRule r.Symbol = some r)
    (hn : m.notifier = n) (hm : m.triggeredState = st) :
    ((cmd.checkRule n r (Except.ok q) st).events.countP Event.isSend = 1
      ∧ (cmd.checkRule n r (Except.ok q)
            (cmd.checkRule n r (Except.ok q) st).state).events.countP Event.isSend = 0
      ∧ (cmd.checkRule n r (Except.ok q) (cmd.checkRule n r (Except.ok q) st).state).state
          = (cmd.checkRule n r (Except.ok q) st).state)
    ∧ ((m.updateStock ⟨r.Symbol, Except.ok q⟩ t1).events.countP Event.isSend = 1
      ∧ ((m.updateStock ⟨r.Symbol, Except.ok q⟩ t1).model.updateStock
            ⟨r.Symbol, Except.ok q⟩ t2).events.countP Event.isSend = 0
      ∧ ((m.updateStock ⟨r.Symbol, Except.ok q⟩ t1).model.updateStock
            ⟨r.Symbol, Except.ok q⟩ t2).model.triggeredState
          = (m.updateStock ⟨r.Symbol, Except.ok q⟩ t1).model.triggeredState) := by
  obtain ⟨k1, k2, k3⟩ := same_quote_checkRule n r q st hcfg hst htrig
  obtain ⟨⟨d1, hd1⟩, hc1, hn1, hs1, _, hev1⟩ :=
    updateStock_ok_as_checkRule m q t1 data r hdata hrule
  obtain ⟨_, _, _, hs2, _, hev2⟩ :=
    updateStock_ok_as_checkRule (m.updateStock ⟨r.Symbol, Except.ok q⟩ t1).model q t2 d1 r hd1
      (by rw [hc1]; exact hrule)
  rw [hn1, hs1, hn, hm] at hev2 hs2
  rw [hn, hm] at hev1 hs1
  refine ⟨⟨k1, by rw [k2]; rfl, k3⟩, ?_, ?_, ?_⟩
  · rw [hev1]; exact k1
  · rw [hev2, k2]; rfl
  · rw [hs2, hs1]; exact k3

theorem C7_same_quote_twice_notifies_once_witness :
    (rule.Evaluate ruleAAPL (quoteOf "AAPL" 205 0)).Triggered = true
    ∧ (cmd.checkRule okNotifier ruleAAPL (Except.ok (quoteOf "AAPL" 205 0))
          TriggeredState.empty).events.countP Event.isSend = 1
    ∧ (cmd.checkRule okNotifier ruleAAPL (Except.ok (quoteOf "AAPL" 205 0))
          (cmd.checkRule okNotifier ruleAAPL (Except.ok (quoteOf "AAPL" 205 0))
            TriggeredState.empty).state).events.countP Event.isSend = 0
    ∧ (dashModel.updateStock ⟨"AAPL", Except.ok (quoteOf "AAPL" 205 0)⟩ 1).events.countP
          Event.isSend = 1 :=
  have h := C7_same_quote_twice_notifies_once okNotifier ruleAAPL (quoteOf "AAPL" 205 0)
    TriggeredState.empty dashModel stockAAPL 1 2 (by decide) rfl (by decide) rfl rfl rfl rfl
  ⟨by decide, h.1.1, h.1.2.1, h.2.1⟩

/-- C8: in a pass of `checkRules` over rules with pairwise distinct symbols in which the fetch
for X fails, the stored set of X after the pass is the one before it and the step of X only
reports the error (no call of the transport); for every other symbol the stored set after
the pass and the events of its step (so the decision to notify) are those of the pass in
which the fetch for X succeeds.  In the dashboard, an `updateStock` for X with a fetch error
leaves the trigger memory unchanged and calls nothing, and a following update for another
symbol Y gives the same events and stored set of Y as after a successful update for X. -/
theorem C8_fetch_error_is_isolated (n : notify.Notifier)
    (pre post : List (config.Rule × Except String stock.Quote)) (rX : config.Rule)
    (err : String) (q : stock.Quote) (st : TriggeredState)
    (m : tui.Model) (y : String) (fy : Except String stock.Quote) (t1 t2 : Int)
    (hdist : ((pre ++ (rX, Except.error err) :: post).map (fun p => p.1.Symbol)).Nodup)
    (hy : y ≠ rX.Symbol) :
    ((cmd.checkRules n (pre ++ (rX, Except.error err) :: post) st).1 rX.Symbol = st rX.Symbol
      ∧ (∀ se ∈ (cmd.checkRules n (pre ++ (rX, Except.error err) :: post) st).2,
          se.1 = rX.Symbol → se.2 = [Event.fetchError rX.Symbol err])
      ∧ (∀ z, z ≠ rX.Symbol →
          (cmd.checkRules n (pre ++ (rX, Except.error err) :: post) st).1 z
            = (cmd.checkRules n (pre ++ (rX, Except.ok q) :: post) st).1 z)
      ∧ (cmd.checkRules n (pre ++ (rX, Except.error err) :: post) st).2.filter
            (fun se => decide (se.1 ≠ rX.Symbol))
          = (cmd.checkRules n (pre ++ (rX, Except.ok q) :: post) st).2.filter
            (fun se => decide (se.1 ≠ rX.Symbol)))
    ∧ ((m.updateStock ⟨rX.Symbol, Except.error err⟩ t1).model.triggeredState = m.triggeredState
      ∧ (m.updateStock ⟨rX.Symbol, Except.error err⟩ t1).events = []
      ∧ ((m.updateStock ⟨rX.Symbol, Except.error err⟩ t1).model.updateStock ⟨y, fy⟩ t2).events
          = ((m.updateStock ⟨rX.Symbol, Except.ok q⟩ t1).model.updateStock ⟨y, fy⟩ t2).events
      ∧ ((m.updateStock ⟨rX.Symbol, Except.error err⟩ t1).model.updateStock
            ⟨y, fy⟩ t2).model.triggeredState y
          = ((m.updateStock ⟨rX.Symbol, Except.ok q⟩ t1).model.updateStock
            ⟨y, fy⟩ t2).model.triggeredState y) := by
  refine ⟨fetch_error_checkRules n pre post rX err q st hdist, ?_⟩
  obtain ⟨a1, a2, a3, a4⟩ := updateStock_writes m rX.Symbol (Except.error err) t1 y hy
  obtain ⟨b1, b2, b3, b4⟩ := updateStock_writes m rX.Symbol (Except.ok q) t1 y hy
  obtain ⟨c1, c2⟩ := updateStock_reads
    (m.updateStock ⟨rX.Symbol, Except.error err⟩ t1).model
    (m.updateStock ⟨rX.Symbol, Except.ok q⟩ t1).model y fy t2
    (a1.trans b1.symm) (a3.trans b3.symm) (a4.trans b4.symm) (a2.trans b2.symm)
  exact ⟨(updateStock_error m rX.Symbol err t1).1, (updateStock_error m rX.Symbol err t1).2,
    c1, c2⟩

theorem C8_fetch_error_is_isolated_witness :
    (([(ruleTSLA, (Except.ok (quoteOf "TSLA" 100 (-6)) : Except String stock.Quote))]
        ++ (ruleAAPL, Except.error "timeout") :: [(ruleBand, Except.ok (quoteOf "MSFT" 200 0))]).map
        (fun p => p.1.Symbol)).Nodup
    ∧ (cmd.checkRules okNotifier
        ([(ruleTSLA, Except.ok (quoteOf "TSLA" 100 (-6)))]
          ++ (ruleAAPL, Except.error "timeout") :: [(ruleBand, Except.ok (quoteOf "MSFT" 200 0))])
        (Function.update TriggeredState.empty "AAPL" (some {"old"}))).1 ruleAAPL.Symbol
      = (Function.update TriggeredState.empty "AAPL" (some {"old"})) ruleAAPL.Symbol
    ∧ (dashModel.updateStock ⟨ruleAAPL.Symbol, Except.error "timeout"⟩ 1).events = [] :=
  have h := C8_fetch_error_is_isolated okNotifier
    [(ruleTSLA, Except.ok (quoteOf "TSLA" 100 (-6)))] [(ruleBand, Except.ok (quoteOf "MSFT" 200 0))]
    ruleAAPL "timeout" (quoteOf "AAPL" 205 0)
    (Function.update TriggeredState.empty "AAPL" (some {"old"}))
    dashModel "MSFT" (Except.ok (quoteOf "MSFT" 200 0)) 1 2 (by decide) (by decide)
  ⟨by decide, h.1.1, h.2.2.1⟩

/-- C9: in a step whose fetch succeeds the transport is called once when the newly-triggered
set is non-empty and the notifier is configured, and not at all otherwise, so never more than
once; in `checkRules` and in `updateStock` alike.  With four reasons newly triggered at once
there is still one call. -/
theorem C9_at_most_one_send_per_step :
    (∀ (n : notify.Notifier) (r : config.Rule) (q : stock.Quote) (st : TriggeredState),
      (cmd.checkRule n r (Except.ok q) st).events.countP Event.isSend
          = (if (cmd.checkRule n r (Except.ok q) st).newlyTriggered ≠ ∅ ∧ n.IsConfigured = true
             then 1 else 0)
      ∧ (cmd.checkRule n r (Except.ok q) st).events.countP Event.isSend ≤ 1)
    ∧ (∀ (m : tui.Model) (symbol : String) (q : stock.Quote) (now : Int),
      (m.updateStock ⟨symbol, Except.ok q⟩ now).events.countP Event.isSend
          = (if (m.updateStock ⟨symbol, Except.ok q⟩ now).newlyTriggered ≠ ∅
                ∧ m.notifier.IsConfigured = true
             then 1 else 0)
      ∧ (m.updateStock ⟨symbol, Except.ok q⟩ now).events.countP Event.isSend ≤ 1)
    ∧ (cmd.checkRule okNotifier ruleBand (Except.ok (quoteOf "MSFT" 200 0))
          TriggeredState.empty).newlyTriggered.card = 4
    ∧ (cmd.checkRule okNotifier ruleBand (Except.ok (quoteOf "MSFT" 200 0))
          TriggeredState.empty).events.countP Event.isSend = 1 := by
  refine ⟨fun n r q st => ?_, fun m symbol q now => ?_, by decide, by decide⟩
  · have h : (cmd.checkRule n r (Except.ok q) st).events.countP Event.isSend
        = (if (cmd.checkRule n r (Except.ok q) st).newlyTriggered ≠ ∅ ∧ n.IsConfigured = true
           then 1 else 0) := by
      rw [checkRule_ok_events]
      exact countP_send_ite _ _ _ _ _
    refine ⟨h, ?_⟩
    rw [h]
    split_ifs <;> simp
  · have h := updateStock_sends m ⟨symbol, Except.ok q⟩ now
    refine ⟨h, ?_⟩
    rw [h]
    split_ifs <;> simp

/-- C10 (as stated, refuted): rule price-above = 200, change-above = 5; after a pass at
(205, +1) the pass at (205, +6) has one newly-triggered reason, the change-above one, yet the
body of the notification it sends also has the line of the price-above reason, which is
still on and not newly triggered: the body is not the header followed by the lines of the
newly-triggered reasons. -/
theorem C10_body_lists_a_reason_not_newly_triggered :
    (cmd.checkRule okNotifier ruleTwo (Except.ok (quoteOf "AAPL" 205 6))
        (cmd.checkRule okNotifier ruleTwo (Except.ok (quoteOf "AAPL" 205 1))
          TriggeredState.empty).state).newlyTriggered = {"涨幅 6.00% 超过 5.00%"}
    ∧ (cmd.checkRule okNotifier ruleTwo (Except.ok (quoteOf "AAPL" 205 6))
        (cmd.checkRule okNotifier ruleTwo (Except.ok (quoteOf "AAPL" 205 1))
          TriggeredState.empty).state).events
        = [Event.send "📊 AAPL (Apple) 触发提醒"
            "价格: $205.00 (+6.00%)\n⚠️ 价格 $205.00 超过 $200.00\n⚠️ 涨幅 6.00% 超过 5.00%\n"
            "stock-ping" none]
    ∧ ¬ ∃ l : List String, l.Nodup
        ∧ (∀ x, x ∈ l ↔ x ∈ (cmd.checkRule okNotifier ruleTwo (Except.ok (quoteOf "AAPL" 205 6))
            (cmd.checkRule okNotifier ruleTwo (Except.ok (quoteOf "AAPL" 205 1))
              TriggeredState.empty).state).newlyTriggered)
        ∧ "价格: $205.00 (+6.00%)\n⚠️ 价格 $205.00 超过 $200.00\n⚠️ 涨幅 6.00% 超过 5.00%\n"
            = notificationHeader (quoteOf "AAPL" 205 6) ++ String.join (l.map reasonLine) := by
  have hnew : (cmd.checkRule okNotifier ruleTwo (Except.ok (quoteOf "AAPL" 205 6))
        (cmd.checkRule okNotifier ruleTwo (Except.ok (quoteOf "AAPL" 205 1))
          TriggeredState.empty).state).newlyTriggered = {"涨幅 6.00% 超过 5.00%"} := by
    decide
  refine ⟨hnew, by decide, ?_⟩
  rintro ⟨l, hnd, hmem, hb⟩
  rw [hnew] at hmem
  have hl : l = ["涨幅 6.00% 超过 5.00%"] :=
    eq_singleton_of_nodup l _ hnd (fun x => by rw [hmem, Finset.mem_singleton])
  rw [hl] at hb
  revert hb
  decide

/-- C10 (amended): the notification sent in a step has the title made of the rule's symbol
and, when set, its display name, and a body whose first line gives the current price and the
percent change and whose following lines are the reasons Evaluate returned for the current
quote, each once and in Evaluate's order; every newly-triggered reason of the step is among
them.  For `checkRules` and for `updateStock` alike. -/
theorem C10_notification_lists_current_reasons (n : notify.Notifier) (r : config.Rule)
    (q : stock.Quote) (st : TriggeredState) (m : tui.Model) (data : tui.StockData) (now : Int)
    (hdata : m.stocks r.Symbol = some data) (hrule : m.cfg.GetRule r.Symbol = some r) :
    (cmd.checkRule n r (Except.ok q) st).events
        = (if (cmd.checkRule n r (Except.ok q) st).newlyTriggered ≠ ∅ ∧ n.IsConfigured = true then
            [Event.send (notificationTitle r)
              (notificationHeader q ++ String.join ((rule.Evaluate r q).Reasons.map reasonLine))
              "stock-ping"
              (n.SendWithGroup (notificationTitle r)
                (notificationHeader q ++ String.join ((rule.Evaluate r q).Reasons.map reasonLine))
                "stock-ping")]
          else [])
    ∧ (m.updateStock ⟨r.Symbol, Except.ok q⟩ now).events
        = (if (m.updateStock ⟨r.Symbol, Except.ok q⟩ now).newlyTriggered ≠ ∅
              ∧ m.notifier.IsConfigured = true then
            [Event.send (notificationTitle r)
              (notificationHeader q ++ String.join ((rule.Evaluate r q).Reasons.map reasonLine))
              "stock-ping"
              (m.notifier.SendWithGroup (notificationTitle r)
                (notificationHeader q ++ String.join ((rule.Evaluate r q).Reasons.map reasonLine))
                "stock-ping")]
          else [])
    ∧ (rule.Evaluate r q).Reasons.Nodup
    ∧ (∀ x ∈ (cmd.checkRule n r (Except.ok q) st).newlyTriggered, x ∈ (rule.Evaluate r q).Reasons)
    ∧ (∀ x ∈ (m.updateStock ⟨r.Symbol, Except.ok q⟩ now).newlyTriggered,
        x ∈ (rule.Evaluate r q).Reasons) := by
  have hf := FormatNotification_eq r q
  have hu := updateStock_ok m r.Symbol q now data r hdata hrule
  refine ⟨?_, ?_, Reasons_nodup r q, ?_, ?_⟩
  · rw [checkRule_ok_events, hf]
  · rw [hu.2.2, hf]
  · intro x hx
    rw [checkRule_ok_newly, Finset.mem_sdiff, List.mem_toFinset] at hx
    exact hx.1
  · intro x hx
    rw [hu.1, Finset.mem_sdiff, List.mem_toFinset] at hx
    exact hx.1

theorem C10_notification_lists_current_reasons_witness :
    dashModel.stocks ruleAAPL.Symbol = some stockAAPL
    ∧ dashModel.cfg.GetRule ruleAAPL.Symbol = some ruleAAPL
    ∧ (rule.Evaluate ruleAAPL (quoteOf "AAPL" 205 0)).Reasons.Nodup
    ∧ (∀ x ∈ (cmd.checkRule okNotifier ruleAAPL (Except.ok (quoteOf "AAPL" 205 0))
          TriggeredState.empty).newlyTriggered,
        x ∈ (rule.Evaluate ruleAAPL (quoteOf "AAPL" 205 0)).Reasons) :=
  have h := C10_notification_lists_current_reasons okNotifier ruleAAPL (quoteOf "AAPL" 205 0)
    TriggeredState.empty dashModel stockAAPL 1 rfl rfl
  ⟨rfl, rfl, h.2.2.1, h.2.2.2.1⟩



/-! ## Lemmas on the clock -/

theorem clock_minutes (t : time.Time) :
    t.Clock.1 * 60 + t.Clock.2.1 = t.abs % 86400 / 60 := by
  simp only [time.Time.Clock]
  omega

theorem nanoOfDay_seconds (t : time.Time) : t.nanoOfDay / 1000000000 = t.abs % 86400 := by
  simp only [time.Time.nanoOfDay, time.Time.abs, time.Time.unixSec]
  omega

theorem weekday_range (t : time.Time) : 0 ≤ t.Weekday ∧ t.Weekday ≤ 6 := by
  simp only [time.Time.Weekday]
  omega

theorem minutes_ge_iff (t : time.Time) (h m : Int) :
    h * 60 + m ≤ t.Clock.1 * 60 + t.Clock.2.1 ↔ time.clockTime h m ≤ t.nanoOfDay := by
  rw [clock_minutes, ← nanoOfDay_seconds]
  simp only [time.clockTime]
  omega

theorem minutes_lt_iff (t : time.Time) (h m : Int) :
    t.Clock.1 * 60 + t.Clock.2.1 < h * 60 + m ↔ t.nanoOfDay < time.clockTime h m := by
  rw [clock_minutes, ← nanoOfDay_seconds]
  simp only [time.clockTime]
  omega

theorem hour_ge_iff (t : time.Time) (h : Int) :
    h ≤ t.Clock.1 ↔ time.clockTime h 0 ≤ t.nanoOfDay := by
  have e : t.Clock.1 = t.abs % 86400 / 3600 := rfl
  rw [e, ← nanoOfDay_seconds]
  simp only [time.clockTime]
  omega

theorem isUSMarketOpen_iff (tzEastern : time.Location) (now : time.Time) :
    stock.isUSMarketOpen tzEastern now = true ↔
      (time.Monday ≤ (now.In tzEastern).Weekday ∧ (now.In tzEastern).Weekday ≤ time.Friday)
      ∧ time.clockTime 9 30 ≤ (now.In tzEastern).nanoOfDay
      ∧ (now.In tzEastern).nanoOfDay < time.clockTime 16 0 := by
  have hw := weekday_range (now.In tzEastern)
  have h1 := minutes_ge_iff (now.In tzEastern) 9 30
  have h2 := minutes_lt_iff (now.In tzEastern) 16 0
  simp only [stock.isUSMarketOpen, time.Saturday, time.Sunday, time.Monday, time.Friday]
  split_ifs with hwe
  · constructor
    · intro h; exact absurd h (by simp)
    · rintro ⟨⟨_, _⟩, _⟩; omega
  · rw [decide_eq_true_iff]
    constructor
    · rintro ⟨a, b⟩
      exact ⟨by omega, h1.1 (by omega), h2.1 (by omega)⟩
    · rintro ⟨_, a, b⟩
      have a' := h1.2 a
      have b' := h2.2 b
      constructor <;> omega

theorem isCNMarketOpen_iff (tzShanghai : time.Location) (now : time.Time) :
    stock.isCNMarketOpen tzShanghai now = true ↔
      (time.Monday ≤ (now.In tzShanghai).Weekday ∧ (now.In tzShanghai).Weekday ≤ time.Friday)
      ∧ ((time.clockTime 9 30 ≤ (now.In tzShanghai).nanoOfDay
            ∧ (now.In tzShanghai).nanoOfDay < time.clockTime 11 30)
          ∨ (time.clockTime 13 0 ≤ (now.In tzShanghai).nanoOfDay
            ∧ (now.In tzShanghai).nanoOfDay < time.clockTime 15 0)) := by
  have hw := weekday_range (now.In tzShanghai)
  have h1 := minutes_ge_iff (now.In tzShanghai) 9 30
  have h2 := minutes_lt_iff (now.In tzShanghai) 11 30
  have h3 := minutes_ge_iff (now.In tzShanghai) 13 0
  have h4 := minutes_lt_iff (now.In tzShanghai) 15 0
  simp only [stock.isCNMarketOpen, time.Saturday, time.Sunday, time.Monday, time.Friday]
  split_ifs with hwe
  · constructor
    · intro h; exact absurd h (by simp)
    · rintro ⟨⟨_, _⟩, _⟩; omega
  · rw [Bool.or_eq_true, decide_eq_true_iff, decide_eq_true_iff]
    constructor
    · rintro (⟨a, b⟩ | ⟨a, b⟩)
      · exact ⟨by omega, Or.inl ⟨h1.1 (by omega), h2.1 (by omega)⟩⟩
      · exact ⟨by omega, Or.inr ⟨h3.1 (by omega), h4.1 (by omega)⟩⟩
    · rintro ⟨_, ⟨a, b⟩ | ⟨a, b⟩⟩
      · have a' := h1.2 a
        have b' := h2.2 b
        exact Or.inl (by constructor <;> omega)
      · have a' := h3.2 a
        have b' := h4.2 b
        exact Or.inr (by constructor <;> omega)

theorem isForexOpen_eq_false_iff (tzEastern : time.Location) (now : time.Time) :
    stock.isForexOpen tzEastern now = false ↔
      ((now.In tzEastern).Weekday = time.Friday
          ∧ time.clockTime 17 0 ≤ (now.In tzEastern).nanoOfDay)
      ∨ (now.In tzEastern).Weekday = time.Saturday
      ∨ ((now.In tzEastern).Weekday = time.Sunday
          ∧ (now.In tzEastern).nanoOfDay < time.clockTime 17 0) := by
  have h1 := hour_ge_iff (now.In tzEastern) 17
  simp only [stock.isForexOpen, time.Saturday, time.Sunday, time.Friday]
  split_ifs with a b c
  · simp [a]
  · have := h1.1 b.2
    simp only [true_iff]
    exact Or.inl ⟨b.1, this⟩
  · simp only [true_iff]
    refine Or.inr (Or.inr ⟨c.1, ?_⟩)
    by_contra hc
    have := h1.2 (by omega)
    omega
  · simp only [Bool.true_eq_false, false_iff]
    rintro (⟨x, y⟩ | x | ⟨x, y⟩)
    · exact b ⟨x, h1.2 y⟩
    · exact a x
    · refine c ⟨x, ?_⟩
      by_contra hc
      have := h1.1 (by omega)
      omega

/-! ## Claims on the trading calendar -/

/-- C14: for every instant the CN market is reported open exactly when the local weekday in
the Shanghai zone is Monday to Friday and the local time of day t satisfies
09:30 <= t < 11:30 or 13:00 <= t < 15:00.  Tuesday 2024-01-02 12:15 Shanghai time is closed
and 10:00 of the same day is open. -/
theorem C14_cn_open_iff_weekday_session :
    (∀ (tzEastern tzShanghai : time.Location) (now : time.Time),
      stock.IsMarketOpen tzEastern tzShanghai "CN" now = true ↔
        (time.Monday ≤ (now.In tzShanghai).Weekday ∧ (now.In tzShanghai).Weekday ≤ time.Friday)
        ∧ ((time.clockTime 9 30 ≤ (now.In tzShanghai).nanoOfDay
              ∧ (now.In tzShanghai).nanoOfDay < time.clockTime 11 30)
            ∨ (time.clockTime 13 0 ≤ (now.In tzShanghai).nanoOfDay
              ∧ (now.In tzShanghai).nanoOfDay < time.clockTime 15 0)))
    ∧ ((tuesday1215Shanghai.In zoneCST).Weekday = 2
        ∧ (tuesday1215Shanghai.In zoneCST).Clock = (12, 15, 0)
        ∧ stock.IsMarketOpen zoneEST zoneCST "CN" tuesday1215Shanghai = false)
    ∧ ((tuesday1000Shanghai.In zoneCST).Weekday = 2
        ∧ (tuesday1000Shanghai.In zoneCST).Clock = (10, 0, 0)
        ∧ stock.IsMarketOpen zoneEST zoneCST "CN" tuesday1000Shanghai = true) := by
  refine ⟨fun tzEastern tzShanghai now => ?_, by decide, by decide⟩
  have e : stock.IsMarketOpen tzEastern tzShanghai "CN" now
      = stock.isCNMarketOpen tzShanghai now := by
    simp [stock.IsMarketOpen, stock.MarketCrypto, stock.MarketCN]
  rw [e]
  exact isCNMarketOpen_iff tzShanghai now

/-- C15: for every instant the US market is reported open exactly when the local weekday in
the Eastern zone is Monday to Friday and the local time of day t satisfies
09:30 <= t < 16:00, by `IsMarketOpen("US")` and by the `isMarketOpen` of the watch command
alike; at every instant of a Saturday it is reported closed. -/
theorem C15_us_open_iff_weekday_session (tzEastern tzShanghai : time.Location)
    (now : time.Time) :
    (stock.IsMarketOpen tzEastern tzShanghai "US" now = true ↔
        (time.Monday ≤ (now.In tzEastern).Weekday ∧ (now.In tzEastern).Weekday ≤ time.Friday)
        ∧ time.clockTime 9 30 ≤ (now.In tzEastern).nanoOfDay
        ∧ (now.In tzEastern).nanoOfDay < time.clockTime 16 0)
    ∧ (cmd.isMarketOpen tzEastern now = true ↔
        (time.Monday ≤ (now.In tzEastern).Weekday ∧ (now.In tzEastern).Weekday ≤ time.Friday)
        ∧ time.clockTime 9 30 ≤ (now.In tzEastern).nanoOfDay
        ∧ (now.In tzEastern).nanoOfDay < time.clockTime 16 0)
    ∧ ((now.In tzEastern).Weekday = time.Saturday →
        stock.IsMarketOpen tzEastern tzShanghai "US" now = false
        ∧ cmd.isMarketOpen tzEastern now = false) := by
  have e : stock.IsMarketOpen tzEastern tzShanghai "US" now
      = stock.isUSMarketOpen tzEastern now := by
    simp [stock.IsMarketOpen, stock.MarketCrypto, stock.MarketCN, stock.MarketTW,
      stock.MarketForex]
  have e2 : cmd.isMarketOpen tzEastern now = stock.isUSMarketOpen tzEastern now := rfl
  rw [e, e2]
  refine ⟨isUSMarketOpen_iff tzEastern now, isUSMarketOpen_iff tzEastern now, fun hsat => ?_⟩
  have h : stock.isUSMarketOpen tzEastern now = false := by
    simp [stock.isUSMarketOpen, hsat]
  exact ⟨h, h⟩

theorem C15_us_open_iff_weekday_session_witness :
    (saturday1200Eastern.In zoneEST).Weekday = time.Saturday
    ∧ stock.IsMarketOpen zoneEST zoneCST "US" saturday1200Eastern = false
    ∧ cmd.isMarketOpen zoneEST saturday1200Eastern = false :=
  have h := (C15_us_open_iff_weekday_session zoneEST zoneCST saturday1200Eastern).2.2
    (by decide)
  ⟨by decide, h.1, h.2⟩

/-- C16: for every instant FOREX is reported closed exactly when the local time in the
Eastern zone lies between Friday 17:00 (included) and Sunday 17:00 (excluded): Friday at or
after 17:00, Saturday, or Sunday before 17:00; it is open at every other instant.
Saturday 2024-01-06 12:00 Eastern is closed and Sunday 2024-01-07 18:00 Eastern is open. -/
theorem C16_forex_closed_iff_weekend_window :
    (∀ (tzEastern tzShanghai : time.Location) (now : time.Time),
      (stock.IsMarketOpen tzEastern tzShanghai "FOREX" now = false ↔
        ((now.In tzEastern).Weekday = time.Friday
            ∧ time.clockTime 17 0 ≤ (now.In tzEastern).nanoOfDay)
        ∨ (now.In tzEastern).Weekday = time.Saturday
        ∨ ((now.In tzEastern).Weekday = time.Sunday
            ∧ (now.In tzEastern).nanoOfDay < time.clockTime 17 0))
      ∧ (stock.IsMarketOpen tzEastern tzShanghai "FOREX" now = true ↔
        ¬ (((now.In tzEastern).Weekday = time.Friday
            ∧ time.clockTime 17 0 ≤ (now.In tzEastern).nanoOfDay)
        ∨ (now.In tzEastern).Weekday = time.Saturday
        ∨ ((now.In tzEastern).Weekday = time.Sunday
            ∧ (now.In tzEastern).nanoOfDay < time.clockTime 17 0))))
    ∧ ((saturday1200Eastern.In zoneEST).Weekday = time.Saturday
        ∧ (saturday1200Eastern.In zoneEST).Clock = (12, 0, 0)
        ∧ stock.IsMarketOpen zoneEST zoneCST "FOREX" saturday1200Eastern = false)
    ∧ ((sunday1800Eastern.In zoneEST).Weekday = time.Sunday
        ∧ (sunday1800Eastern.In zoneEST).Clock = (18, 0, 0)
        ∧ stock.IsMarketOpen zoneEST zoneCST "FOREX" sunday1800Eastern = true) := by
  refine ⟨fun tzEastern tzShanghai now => ?_, by decide, by decide⟩
  have e : stock.IsMarketOpen tzEastern tzShanghai "FOREX" now
      = stock.isForexOpen tzEastern now := by
    simp [stock.IsMarketOpen, stock.MarketCrypto, stock.MarketCN, stock.MarketTW,
      stock.MarketForex]
  rw [e]
  refine ⟨isForexOpen_eq_false_iff tzEastern now, ?_⟩
  rw [← isForexOpen_eq_false_iff tzEastern now]
  cases stock.isForexOpen tzEastern now <;> simp

/-- C17: for every market tag other than CRYPTO, CN, TW and FOREX (the empty string, HK and
unknown tags included) and every instant, IsMarketOpen and GetNextMarketOpen return what they
return for the tag US. -/
theorem C17_other_tags_use_the_us_calendar (fuel : Nat) (tzEastern tzShanghai : time.Location)
    (market : String) (now : time.Time)
    (h1 : market ≠ "CRYPTO") (h2 : market ≠ "CN") (h3 : market ≠ "TW")
    (h4 : market ≠ "FOREX") :
    stock.IsMarketOpen tzEastern tzShanghai market now
        = stock.IsMarketOpen tzEastern tzShanghai "US" now
    ∧ stock.GetNextMarketOpen fuel tzEastern tzShanghai market now
        = stock.GetNextMarketOpen fuel tzEastern tzShanghai "US" now := by
  simp [stock.IsMarketOpen, stock.GetNextMarketOpen, stock.MarketCrypto, stock.MarketCN,
    stock.MarketTW, stock.MarketForex, stock.MarketUS, h1, h2, h3, h4]

theorem C17_other_tags_use_the_us_calendar_witness :
    (stock.IsMarketOpen zoneEST zoneCST "HK" tuesday1000Shanghai
        = stock.IsMarketOpen zoneEST zoneCST "US" tuesday1000Shanghai
      ∧ stock.GetNextMarketOpen 8 zoneEST zoneCST "HK" tuesday1000Shanghai
        = stock.GetNextMarketOpen 8 zoneEST zoneCST "US" tuesday1000Shanghai)
    ∧ (stock.IsMarketOpen zoneEST zoneCST "" tuesday1000Shanghai
        = stock.IsMarketOpen zoneEST zoneCST "US" tuesday1000Shanghai
      ∧ stock.GetNextMarketOpen 8 zoneEST zoneCST "" tuesday1000Shanghai
        = stock.GetNextMarketOpen 8 zoneEST zoneCST "US" tuesday1000Shanghai) :=
  ⟨C17_other_tags_use_the_us_calendar 8 zoneEST zoneCST "HK" tuesday1000Shanghai
      (by decide) (by decide) (by decide) (by decide),
    C17_other_tags_use_the_us_calendar 8 zoneEST zoneCST "" tuesday1000Shanghai
      (by decide) (by decide) (by decide) (by decide)⟩

/-- C18: for every instant (and whatever the zones are) IsMarketOpen("CRYPTO") is true. -/
theorem C18_crypto_always_open (tzEastern tzShanghai : time.Location) (now : time.Time) :
    stock.IsMarketOpen tzEastern tzShanghai "CRYPTO" now = true := by
  simp [stock.IsMarketOpen, stock.MarketCrypto]

/-! ## Lemmas on `time.Date` in a zone of constant offset -/

theorem Date_fixed (loc : time.Location) (T0 off day h m : Int)
    (hz : ∀ u, T0 ≤ u → (loc.lookup u).offset = off)
    (h1 : T0 ≤ day * 86400 + h * 3600 + m * 60)
    (h2 : T0 ≤ day * 86400 + h * 3600 + m * 60 - off) :
    (time.Date day h m loc).unixNano = (day * 86400 + h * 3600 + m * 60 - off) * 1000000000
    ∧ (time.Date day h m loc).loc = loc := by
  refine ⟨?_, rfl⟩
  simp only [time.Date, hz _ h1]
  split_ifs with a b
  · rw [hz _ h2]
  · rfl
  · have : off = 0 := by simpa using a
    rw [this]

theorem local_reading (D : time.Time) (off cd sec : Int) (hs : 0 ≤ sec ∧ sec < 86400)
    (hu : D.unixNano = (cd * 86400 + sec - off) * 1000000000)
    (hl : (D.loc.lookup (cd * 86400 + sec - off)).offset = off) :
    D.civilDay = cd ∧ D.nanoOfDay = sec * 1000000000 ∧ D.Weekday = (cd + 4) % 7 := by
  have hsec : D.unixSec = cd * 86400 + sec - off := by
    simp only [time.Time.unixSec, hu]
    omega
  have habs : D.abs = cd * 86400 + sec := by
    simp only [time.Time.abs, hsec, hl]
    omega
  refine ⟨?_, ?_, ?_⟩
  · simp only [time.Time.civilDay, habs]
    omega
  · simp only [time.Time.nanoOfDay, hsec, hl, hu]
    omega
  · simp only [time.Time.Weekday, habs]
    omega

theorem lunch_break_next_open (fuel : Nat) (tzShanghai : time.Location) (now : time.Time)
    (T0 off : Int) (hz : ∀ u, T0 ≤ u → (tzShanghai.lookup u).offset = off)
    (hoff : -86400 ≤ off ∧ off ≤ 86400) (hnow : T0 + 172800 ≤ now.unixSec)
    (hlunch : time.clockTime 11 30 ≤ (now.In tzShanghai).nanoOfDay
      ∧ (now.In tzShanghai).nanoOfDay < time.clockTime 13 0) :
    stock.getNextCNMarketOpen fuel tzShanghai now
        = some (time.Date (now.In tzShanghai).civilDay 13 0 tzShanghai)
    ∧ (time.Date (now.In tzShanghai).civilDay 13 0 tzShanghai).civilDay
        = (now.In tzShanghai).civilDay
    ∧ (time.Date (now.In tzShanghai).civilDay 13 0 tzShanghai).nanoOfDay = time.clockTime 13 0
    ∧ now.unixNano < (time.Date (now.In tzShanghai).civilDay 13 0 tzShanghai).unixNano := by
  have hmins := (minutes_ge_iff (now.In tzShanghai) 11 30).2 hlunch.1
  have ho : (tzShanghai.lookup now.unixSec).offset = off := hz _ (by omega)
  have hcd : (now.In tzShanghai).civilDay = (now.unixNano / 1000000000 + off) / 86400 := by
    simp only [time.Time.civilDay, time.Time.abs, time.Time.In, time.Time.unixSec] at ho ⊢
    rw [ho]
  have hnd : (now.In tzShanghai).nanoOfDay
      = (now.unixNano + off * 1000000000) % 86400000000000 := by
    simp only [time.Time.nanoOfDay, time.Time.In, time.Time.unixSec] at ho ⊢
    rw [ho]
  have hsec : T0 + 172800 ≤ now.unixNano / 1000000000 := hnow
  rw [hnd] at hlunch
  simp only [time.clockTime] at hlunch
  obtain ⟨hm1, _⟩ := Date_fixed tzShanghai T0 off (now.In tzShanghai).civilDay 9 30 hz
    (by rw [hcd]; omega) (by rw [hcd]; omega)
  obtain ⟨ha1, ha2⟩ := Date_fixed tzShanghai T0 off (now.In tzShanghai).civilDay 13 0 hz
    (by rw [hcd]; omega) (by rw [hcd]; omega)
  have hb1 : (now.In tzShanghai).Before (time.Date (now.In tzShanghai).civilDay 9 30 tzShanghai)
      = false := by
    simp only [time.Time.Before, hm1, decide_eq_false_iff_not, not_lt]
    rw [hcd]
    show _ ≤ now.unixNano
    omega
  have hlt : now.unixNano
      < (time.Date (now.In tzShanghai).civilDay 13 0 tzShanghai).unixNano := by
    rw [ha1, hcd]
    omega
  have hb2 : (now.In tzShanghai).Before (time.Date (now.In tzShanghai).civilDay 13 0 tzShanghai)
      = true := by
    simp only [time.Time.Before, decide_eq_true_iff]
    exact hlt
  have hrd := local_reading (time.Date (now.In tzShanghai).civilDay 13 0 tzShanghai) off
    (now.In tzShanghai).civilDay (13 * 3600 + 0 * 60) (by omega) (by rw [ha1]; congr 1; omega)
    (by rw [ha2]; exact hz _ (by rw [hcd]; omega))
  refine ⟨?_, hrd.1, ?_, hlt⟩
  · have hnot : ¬ ((now.In tzShanghai).Clock.1 * 60 + (now.In tzShanghai).Clock.2.1
        < 11 * 60 + 30) := by
      omega
    simp only [stock.getNextCNMarketOpen, hb1, hb2, Bool.false_eq_true, if_false, if_true,
      if_neg hnot]
  · rw [hrd.2.1]
    simp only [time.clockTime]

theorem Date_in_own_zone (day h m : Int) (loc : time.Location) :
    (time.Date day h m loc).In loc = time.Date day h m loc := rfl

/-- C19: in a Shanghai zone whose offset is constant from some instant on (the fixed zone of
`init`, or the zone of the time-zone tables after its last transition), for every instant at
least two days later whose local time of day is at or after 11:30 and before 13:00 (on
whatever weekday), GetNextMarketOpen("CN") returns an instant that reads 13:00:00 of the
same local day, later than now. -/
theorem C19_cn_lunch_break_next_open_is_same_day_1300 (fuel : Nat)
    (tzEastern tzShanghai : time.Location) (now : time.Time) (T0 off : Int)
    (hz : ∀ u, T0 ≤ u → (tzShanghai.lookup u).offset = off)
    (hoff : -86400 ≤ off ∧ off ≤ 86400) (hnow : T0 + 172800 ≤ now.unixSec)
    (hlunch : time.clockTime 11 30 ≤ (now.In tzShanghai).nanoOfDay
      ∧ (now.In tzShanghai).nanoOfDay < time.clockTime 13 0) :
    ∃ t, stock.GetNextMarketOpen fuel tzEastern tzShanghai "CN" now = some t
      ∧ (t.In tzShanghai).civilDay = (now.In tzShanghai).civilDay
      ∧ (t.In tzShanghai).nanoOfDay = time.clockTime 13 0
      ∧ now.unixNano < t.unixNano := by
  obtain ⟨h1, h2, h3, h4⟩ := lunch_break_next_open fuel tzShanghai now T0 off hz hoff hnow hlunch
  refine ⟨time.Date (now.In tzShanghai).civilDay 13 0 tzShanghai, ?_, ?_, ?_, h4⟩
  · rw [← h1]
    simp [stock.GetNextMarketOpen, stock.MarketCrypto, stock.MarketForex, stock.MarketCN]
  · rw [Date_in_own_zone]; exact h2
  · rw [Date_in_own_zone]; exact h3

theorem C19_cn_lunch_break_next_open_is_same_day_1300_witness :
    (time.clockTime 11 30 ≤ (tuesday1215Shanghai.In zoneCST).nanoOfDay
      ∧ (tuesday1215Shanghai.In zoneCST).nanoOfDay < time.clockTime 13 0)
    ∧ ∃ t, stock.GetNextMarketOpen 8 zoneEST zoneCST "CN" tuesday1215Shanghai = some t
      ∧ (t.In zoneCST).civilDay = (tuesday1215Shanghai.In zoneCST).civilDay
      ∧ (t.In zoneCST).nanoOfDay = time.clockTime 13 0
      ∧ tuesday1215Shanghai.unixNano < t.unixNano :=
  ⟨by decide, C19_cn_lunch_break_next_open_is_same_day_1300 8 zoneEST zoneCST
    tuesday1215Shanghai 0 28800 (fun _ _ => rfl) (by decide) (by decide) (by decide)⟩

/-- C12 (evaluated on the code): Saturday 2024-01-06 10:00 Shanghai time.  The CN market is
reported closed, and GetNextMarketOpen("CN") returns the instant now itself, which is not
later than now: on the branch `mins < 11*60+30` the function assumes the market is open and
returns now, without looking at the weekday. -/
theorem C12_cn_weekend_morning_next_open_is_now :
    (saturday1000Shanghai.In zoneCST).Weekday = time.Saturday
    ∧ (saturday1000Shanghai.In zoneCST).Clock = (10, 0, 0)
    ∧ stock.IsMarketOpen zoneEST zoneCST "CN" saturday1000Shanghai = false
    ∧ (stock.GetNextMarketOpen 8 zoneEST zoneCST "CN" saturday1000Shanghai).map
        (fun t => t.unixNano) = some saturday1000Shanghai.unixNano
    ∧ (stock.GetNextMarketOpen 8 zoneEST zoneCST "CN" saturday1000Shanghai).map
        (fun t => decide (saturday1000Shanghai.unixNano < t.unixNano)) = some false := by
  decide

/-- C13 (evaluated on the code): Saturday 2024-01-06 08:00 Shanghai time.  The CN market is
reported closed, GetNextMarketOpen("CN") returns Saturday 09:30 of the same day, and
IsMarketOpen("CN") at that instant is false: the early returns of `getNextCNMarketOpen` do
not skip the weekend. -/
theorem C13_cn_weekend_next_open_is_on_the_weekend :
    (saturday0800Shanghai.In zoneCST).Weekday = time.Saturday
    ∧ (saturday0800Shanghai.In zoneCST).Clock = (8, 0, 0)
    ∧ stock.IsMarketOpen zoneEST zoneCST "CN" saturday0800Shanghai = false
    ∧ (stock.GetNextMarketOpen 8 zoneEST zoneCST "CN" saturday0800Shanghai).map
        (fun t => (t.Weekday, t.Clock)) = some (time.Saturday, 9, 30, 0)
    ∧ (stock.GetNextMarketOpen 8 zoneEST zoneCST "CN" saturday0800Shanghai).map
        (fun t => stock.IsMarketOpen zoneEST zoneCST "CN" t) = some false := by
  decide

/-- The US calendar across the end of daylight time: called on Friday 2024-11-01 18:00 New
York time, `getNextUSMarketOpen` adds three times 24 hours to Friday 09:30 EDT and returns
Monday 08:30 EST, when the market is closed. -/
theorem us_next_open_across_the_end_of_daylight_time :
    (friday1800NewYork.In zoneNewYork2024).Weekday = time.Friday
    ∧ (friday1800NewYork.In zoneNewYork2024).Clock = (18, 0, 0)
    ∧ stock.IsMarketOpen zoneNewYork2024 zoneCST "US" friday1800NewYork = false
    ∧ (stock.GetNextMarketOpen 8 zoneNewYork2024 zoneCST "US" friday1800NewYork).map
        (fun t => (t.Weekday, t.Clock)) = some (time.Monday, 8, 30, 0)
    ∧ (stock.GetNextMarketOpen 8 zoneNewYork2024 zoneCST "US" friday1800NewYork).map
        (fun t => stock.IsMarketOpen zoneNewYork2024 zoneCST "US" t) = some false := by
  decide

/-! ## Lemmas on the notifier and on the dashboard refresh -/

theorem checkRule_state_any_notifier (n n' : notify.Notifier) (r : config.Rule)
    (f : Except String stock.Quote) (st : TriggeredState) :
    (cmd.checkRule n r f st).state = (cmd.checkRule n' r f st).state := by
  cases f with
  | error e => rfl
  | ok q => rw [checkRule_ok_state, checkRule_ok_state]

theorem checkRules_state_any_notifier (n n' : notify.Notifier) :
    ∀ (work : List (config.Rule × Except String stock.Quote)) (st : TriggeredState),
      (cmd.checkRules n work st).1 = (cmd.checkRules n' work st).1 := by
  intro work
  induction work with
  | nil => intro st; rfl
  | cons p rest ih =>
    intro st
    obtain ⟨r, f⟩ := p
    simp only [cmd.checkRules]
    rw [checkRule_state_any_notifier n n' r f st]
    exact ih _

theorem checkRule_sends_any_transport (n : notify.Notifier)
    (transport : String → String → String → Option String) (r : config.Rule)
    (f : Except String stock.Quote) (st : TriggeredState) :
    (cmd.checkRule { n with transport := transport } r f st).events.map Event.isSend
      = (cmd.checkRule n r f st).events.map Event.isSend := by
  cases f with
  | error e => rfl
  | ok q =>
    rw [checkRule_ok_events, checkRule_ok_events, checkRule_ok_newly, checkRule_ok_newly]
    have hc : ({ n with transport := transport } : notify.Notifier).IsConfigured
        = n.IsConfigured := rfl
    rw [hc]
    split_ifs <;> rfl

theorem checkRules_sends_any_transport (n : notify.Notifier)
    (transport : String → String → String → Option String) :
    ∀ (work : List (config.Rule × Except String stock.Quote)) (st : TriggeredState),
      (cmd.checkRules { n with transport := transport } work st).2.map
          (fun se => (se.1, se.2.map Event.isSend))
        = (cmd.checkRules n work st).2.map (fun se => (se.1, se.2.map Event.isSend)) := by
  intro work
  induction work with
  | nil => intro st; rfl
  | cons p rest ih =>
    intro st
    obtain ⟨r, f⟩ := p
    simp only [cmd.checkRules, List.map_cons]
    rw [checkRule_sends_any_transport n transport r f st,
      checkRule_state_any_notifier { n with transport := transport } n r f st, ih]

theorem updateStock_state_any_notifier (m : tui.Model) (n' : notify.Notifier)
    (msg : tui.stockUpdateMsg) (now : Int) :
    ({ m with notifier := n' }.updateStock msg now).model.triggeredState
      = (m.updateStock msg now).model.triggeredState := by
  obtain ⟨symbol, f⟩ := msg
  unfold tui.Model.updateStock
  simp only
  cases m.stocks symbol with
  | none => rfl
  | some data =>
    cases f with
    | error e => rfl
    | ok q =>
      cases m.cfg.GetRule symbol with
      | none => rfl
      | some r => rfl

theorem marketOf_eq (m : tui.Model) (x : String) :
    m.marketOf x =
      if (m.stocks x).elim "" (fun d => d.Market) ≠ ""
      then (m.stocks x).elim "" (fun d => d.Market)
      else if (m.cfg.GetRule x).elim "" (fun r => r.Market) ≠ ""
        then (m.cfg.GetRule x).elim "" (fun r => r.Market)
        else "US" := by
  have hrule : (match m.cfg.GetRule x with
      | some rule => if rule.Market ≠ "" then rule.Market else stock.MarketUS
      | none => stock.MarketUS)
      = if (m.cfg.GetRule x).elim "" (fun r => r.Market) ≠ ""
        then (m.cfg.GetRule x).elim "" (fun r => r.Market)
        else "US" := by
    cases m.cfg.GetRule x with
    | none => simp [stock.MarketUS]
    | some rule => simp [stock.MarketUS]
  unfold tui.Model.marketOf
  cases m.stocks x with
  | none => simp only [hrule]; simp
  | some data =>
    by_cases h : data.Market = ""
    · simp only [hrule]; simp [h]
    · simp [h]

theorem refresh_foldl_eq (p : String → Bool) (g : String → String) :
    ∀ (l : List String) (acc : List (String × String)),
      l.foldl (fun cmds s => if p s then cmds ++ [(s, g s)] else cmds) acc
        = acc ++ (l.filter p).map (fun s => (s, g s)) := by
  intro l
  induction l with
  | nil => intro acc; simp
  | cons a t ih =>
    intro acc
    simp only [List.foldl_cons, ih, List.filter_cons]
    by_cases h : p a = true
    · simp [h]
    · simp [h]

theorem refreshAllStocks_eq (m : tui.Model) (force : Bool) (tzEastern tzShanghai : time.Location)
    (clock : time.Time) :
    m.refreshAllStocks force tzEastern tzShanghai clock
      = (m.stockOrder.filter
          (fun s => force || stock.IsMarketOpen tzEastern tzShanghai (m.marketOf s) clock)).map
          (fun s => (s, m.marketOf s)) := by
  unfold tui.Model.refreshAllStocks
  have h := refresh_foldl_eq
    (fun s => force || stock.IsMarketOpen tzEastern tzShanghai (m.marketOf s) clock)
    (fun s => m.marketOf s) m.stockOrder []
  simp only [List.nil_append] at h
  exact h

theorem applyUpdates_frame (s : String) :
    ∀ (msgs : List (tui.stockUpdateMsg × Int)) (m : tui.Model),
      (∀ p ∈ msgs, p.1.symbol ≠ s) →
        (m.applyUpdates msgs).stocks s = m.stocks s
        ∧ (m.applyUpdates msgs).triggeredState s = m.triggeredState s := by
  intro msgs
  induction msgs with
  | nil => intro m _; exact ⟨rfl, rfl⟩
  | cons p rest ih =>
    intro m h
    obtain ⟨⟨x, f⟩, now⟩ := p
    have hx : s ≠ x := fun e => h (⟨x, f⟩, now) (List.mem_cons_self _ _) e.symm
    obtain ⟨w1, w2, _, _⟩ := updateStock_writes m x f now s hx
    obtain ⟨i1, i2⟩ := ih (m.updateStock ⟨x, f⟩ now).model
      (fun p hp => h p (List.mem_cons_of_mem _ hp))
    simp only [tui.Model.applyUpdates]
    exact ⟨i1.trans w1, i2.trans w2⟩

/-! ## Claims on the send failure and on the dashboard refresh -/

/-- C11: whatever the transport returns, a failure included, the stored set of the symbol
after the step is the current satisfied set; the trigger memory after a whole pass does not
depend on the notifier, and with another transport outcome the same rules call the transport;
`updateStock` stores the same sets whatever the notifier is.  With a transport that always
fails, a pass over AAPL (205 > 200) and TSLA (-6 < -5) records both failures, stores both
current sets and processes the second rule after the failure of the first. -/
theorem C11_send_failure_does_not_roll_back :
    (∀ (n : notify.Notifier) (r : config.Rule) (q : stock.Quote) (st : TriggeredState),
      (cmd.checkRule n r (Except.ok q) st).state r.Symbol
        = some (rule.Evaluate r q).Reasons.toFinset)
    ∧ (∀ (n n' : notify.Notifier) (work : List (config.Rule × Except String stock.Quote))
        (st : TriggeredState),
      (cmd.checkRules n work st).1 = (cmd.checkRules n' work st).1)
    ∧ (∀ (n : notify.Notifier) (transport : String → String → String → Option String)
        (work : List (config.Rule × Except String stock.Quote)) (st : TriggeredState),
      (cmd.checkRules { n with transport := transport } work st).2.map
          (fun se => (se.1, se.2.map Event.isSend))
        = (cmd.checkRules n work st).2.map (fun se => (se.1, se.2.map Event.isSend)))
    ∧ (∀ (m : tui.Model) (n' : notify.Notifier) (msg : tui.stockUpdateMsg) (now : Int),
      ({ m with notifier := n' }.updateStock msg now).model.triggeredState
        = (m.updateStock msg now).model.triggeredState)
    ∧ (cmd.checkRules failNotifier
          [(ruleAAPL, Except.ok (quoteOf "AAPL" 205 0)),
            (ruleTSLA, Except.ok (quoteOf "TSLA" 100 (-6)))] TriggeredState.empty).2
        = [("AAPL", [Event.send "📊 AAPL 触发提醒"
              "价格: $205.00 (+0.00%)\n⚠️ 价格 $205.00 超过 $200.00\n" "stock-ping"
              (some "bark returned status 500")]),
           ("TSLA", [Event.send "📊 TSLA 触发提醒"
              "价格: $100.00 (-6.00%)\n⚠️ 跌幅 -6.00% 超过 -5.00%\n" "stock-ping"
              (some "bark returned status 500")])]
    ∧ (cmd.checkRules failNotifier
          [(ruleAAPL, Except.ok (quoteOf "AAPL" 205 0)),
            (ruleTSLA, Except.ok (quoteOf "TSLA" 100 (-6)))] TriggeredState.empty).1 "AAPL"
        = some {"价格 $205.00 超过 $200.00"}
    ∧ (cmd.checkRules failNotifier
          [(ruleAAPL, Except.ok (quoteOf "AAPL" 205 0)),
            (ruleTSLA, Except.ok (quoteOf "TSLA" 100 (-6)))] TriggeredState.empty).1 "TSLA"
        = some {"跌幅 -6.00% 超过 -5.00%"} := by
  refine ⟨fun n r q st => ?_, checkRules_state_any_notifier, checkRules_sends_any_transport,
    updateStock_state_any_notifier, by decide, by decide, by decide⟩
  rw [checkRule_ok_state]
  simp

/-- C20: `refreshAllStocks(force)` issues a quote fetch for a symbol of the working list
exactly when force is true or IsMarketOpen is true for the market of the symbol, and the
fetch carries that market: the market tag stored in the entry of the symbol if there is an
entry and the tag is not empty, else the market of the rule of the symbol if there is a rule
and its market is not empty, else US.  The startup pass of `Init` fetches every symbol of the
list; a tick pass issues no fetch for a symbol whose market is closed, and the updates that
come back from that pass leave the stock entry and the stored trigger set of such a symbol
unchanged. -/
theorem C20_refresh_fetches_iff_forced_or_open (m : tui.Model)
    (tzEastern tzShanghai : time.Location) (now : time.Time) (s : String)
    (msgs : List (tui.stockUpdateMsg × Int)) :
    let stored : String → String := fun x => (m.stocks x).elim "" (fun d => d.Market)
    let ofRule : String → String := fun x => (m.cfg.GetRule x).elim "" (fun r => r.Market)
    let market : String → String := fun x =>
      if stored x ≠ "" then stored x else if ofRule x ≠ "" then ofRule x else "US"
    (∀ force : Bool, m.refreshAllStocks force tzEastern tzShanghai now
        = (m.stockOrder.filter
            (fun x => force || stock.IsMarketOpen tzEastern tzShanghai (market x) now)).map
            (fun x => (x, market x)))
    ∧ (∀ (force : Bool) (x mk : String),
        (x, mk) ∈ m.refreshAllStocks force tzEastern tzShanghai now ↔
          x ∈ m.stockOrder ∧ mk = market x
          ∧ (force = true ∨ stock.IsMarketOpen tzEastern tzShanghai (market x) now = true))
    ∧ m.Init tzEastern tzShanghai now = m.stockOrder.map (fun x => (x, market x))
    ∧ (stock.IsMarketOpen tzEastern tzShanghai (market s) now = false →
        s ∉ (m.tick tzEastern tzShanghai now).map Prod.fst
        ∧ ((∀ p ∈ msgs, p.1.symbol ∈ (m.tick tzEastern tzShanghai now).map Prod.fst) →
            (m.applyUpdates msgs).stocks s = m.stocks s
            ∧ (m.applyUpdates msgs).triggeredState s = m.triggeredState s)) := by
  intro stored ofRule market
  have hm : ∀ x, m.marketOf x = market x := fun x => marketOf_eq m x
  have heq : ∀ force : Bool, m.refreshAllStocks force tzEastern tzShanghai now
      = (m.stockOrder.filter
          (fun x => force || stock.IsMarketOpen tzEastern tzShanghai (market x) now)).map
          (fun x => (x, market x)) := by
    intro force
    rw [refreshAllStocks_eq]
    simp only [hm]
  have hmem : ∀ (force : Bool) (x mk : String),
      (x, mk) ∈ m.refreshAllStocks force tzEastern tzShanghai now ↔
        x ∈ m.stockOrder ∧ mk = market x
        ∧ (force = true ∨ stock.IsMarketOpen tzEastern tzShanghai (market x) now = true) := by
    intro force x mk
    rw [heq, List.mem_map]
    constructor
    · rintro ⟨y, hy, he⟩
      rw [List.mem_filter, Bool.or_eq_true] at hy
      obtain ⟨rfl, rfl⟩ := Prod.mk.inj he
      exact ⟨hy.1, rfl, hy.2⟩
    · rintro ⟨hx, rfl, ho⟩
      exact ⟨x, by rw [List.mem_filter, Bool.or_eq_true]; exact ⟨hx, ho⟩, rfl⟩
  refine ⟨heq, hmem, ?_, ?_⟩
  · unfold tui.Model.Init
    rw [heq]
    simp
  · intro hclosed
    have hnot : s ∉ (m.tick tzEastern tzShanghai now).map Prod.fst := by
      intro hin
      obtain ⟨⟨x, mk⟩, hp, he⟩ := List.mem_map.1 hin
      have hx : x = s := he
      have h := ((hmem false x mk).1 hp).2.2
      rw [hx, hclosed] at h
      rcases h with h | h <;> exact Bool.noConfusion h
    refine ⟨hnot, fun hmsgs => ?_⟩
    exact applyUpdates_frame s msgs m (fun p hp e => hnot (e ▸ hmsgs p hp))

theorem C20_refresh_fetches_iff_forced_or_open_witness :
    stock.IsMarketOpen zoneEST zoneCST "US" saturday1200Eastern = false
    ∧ dashModelTags.Init zoneEST zoneCST saturday1200Eastern
        = [("BTC-USD", "CRYPTO"), ("600519.SS", "CN"), ("AAPL", "US")]
    ∧ dashModelTags.tick zoneEST zoneCST saturday1200Eastern = [("BTC-USD", "CRYPTO")]
    ∧ dashModelTags.tick zoneEST zoneCST tuesday1000Shanghai
        = [("BTC-USD", "CRYPTO"), ("600519.SS", "CN")]
    ∧ dashModelTags.tick zoneEST zoneCST tuesday1000Eastern
        = [("BTC-USD", "CRYPTO"), ("AAPL", "US")]
    ∧ "AAPL" ∉ (dashModelTags.tick zoneEST zoneCST saturday1200Eastern).map Prod.fst
    ∧ (dashModelTags.applyUpdates
        [(⟨"BTC-USD", Except.ok (quoteOf "BTC-USD" 60000 1)⟩, 1)]).triggeredState "AAPL"
        = dashModelTags.triggeredState "AAPL" :=
  have h := (C20_refresh_fetches_iff_forced_or_open dashModelTags zoneEST zoneCST
    saturday1200Eastern "AAPL"
    [(⟨"BTC-USD", Except.ok (quoteOf "BTC-USD" 60000 1)⟩, 1)]).2.2.2 (by decide)
  ⟨by decide, by decide, by decide, by decide, by decide, h.1, (h.2 (by decide)).2⟩

/-! ## Lemmas on `AddRule` -/

theorem replaceRule_none (rule : config.Rule) :
    ∀ l : List config.Rule, config.replaceRule rule l = none →
      ∀ x ∈ l, x.Symbol ≠ rule.Symbol := by
  intro l
  induction l with
  | nil => intro _ x hx; exact absurd hx (List.not_mem_nil x)
  | cons a t ih =>
    intro h x hx
    simp only [config.replaceRule] at h
    split_ifs at h with e
    cases hr : config.replaceRule rule t with
    | none =>
      rcases List.mem_cons.1 hx with rfl | hx'
      · exact e
      · exact ih hr x hx'
    | some l' => rw [hr] at h; exact absurd h (by simp)

theorem replaceRule_some (rule : config.Rule) :
    ∀ l l' : List config.Rule, config.replaceRule rule l = some l' →
      ∃ pre old post, l = pre ++ old :: post ∧ l' = pre ++ rule :: post
        ∧ old.Symbol = rule.Symbol ∧ ∀ x ∈ pre, x.Symbol ≠ rule.Symbol := by
  intro l
  induction l with
  | nil => intro l' h; exact absurd h (by simp [config.replaceRule])
  | cons a t ih =>
    intro l' h
    simp only [config.replaceRule] at h
    split_ifs at h with e
    · refine ⟨[], a, t, rfl, ?_, e, fun x hx => absurd hx (List.not_mem_nil x)⟩
      simpa using h.symm
    · cases hr : config.replaceRule rule t with
      | none => rw [hr] at h; exact absurd h (by simp)
      | some t' =>
        rw [hr] at h
        obtain ⟨pre, old, post, h1, h2, h3, h4⟩ := ih t' hr
        refine ⟨a :: pre, old, post, by rw [h1]; rfl, ?_, h3, ?_⟩
        · have : l' = a :: t' := by simpa using h.symm
          rw [this, h2]; rfl
        · intro x hx
          rcases List.mem_cons.1 hx with rfl | hx'
          · exact e
          · exact h4 x hx'

theorem AddRule_cases (c : config.Config) (rule : config.Rule) :
    ((∀ x ∈ c.Rules, x.Symbol ≠ rule.Symbol) ∧ (c.AddRule rule).Rules = c.Rules ++ [rule])
    ∨ ∃ pre old post, c.Rules = pre ++ old :: post
        ∧ (c.AddRule rule).Rules = pre ++ rule :: post
        ∧ old.Symbol = rule.Symbol ∧ ∀ x ∈ pre, x.Symbol ≠ rule.Symbol := by
  unfold config.Config.AddRule
  cases h : config.replaceRule rule c.Rules with
  | none => exact Or.inl ⟨replaceRule_none rule c.Rules h, rfl⟩
  | some l' => exact Or.inr (replaceRule_some rule c.Rules l' h)

theorem find_rule_append (pre post : List config.Rule) (r : config.Rule) (symbol : String)
    (hr : r.Symbol = symbol) (h : ∀ x ∈ pre, x.Symbol ≠ symbol) :
    (pre ++ r :: post).find? (fun x => x.Symbol == symbol) = some r := by
  induction pre with
  | nil => simp [hr]
  | cons a t ih =>
    have ha : a.Symbol ≠ symbol := h a (List.mem_cons_self _ _)
    simp only [List.cons_append, List.find?_cons]
    have : (a.Symbol == symbol) = false := by simpa using ha
    rw [this]
    exact ih (fun x hx => h x (List.mem_cons_of_mem _ hx))

theorem find_rule_none (l : List config.Rule) (symbol : String)
    (h : ∀ x ∈ l, x.Symbol ≠ symbol) :
    l.find? (fun x => x.Symbol == symbol) = none := by
  rw [List.find?_eq_none]
  intro x hx
  simpa using h x hx

/-! ## Claims on the configuration and on the dashboard model -/

/-- C24: for a rule list with pairwise distinct symbols and a rule r, after AddRule(r) the
symbols are still pairwise distinct, GetRule(r.Symbol) returns r, the rules with another
symbol are the same in the same order (and are what GetRule returns for their symbols), and
the list is one longer exactly when no rule had the symbol of r. -/
theorem C24_addRule_keeps_symbols_unique (c : config.Config) (r : config.Rule)
    (hd : (c.Rules.map (fun x => x.Symbol)).Nodup) :
    ((c.AddRule r).Rules.map (fun x => x.Symbol)).Nodup
    ∧ (c.AddRule r).GetRule r.Symbol = some r
    ∧ (c.AddRule r).Rules.filter (fun x => decide (x.Symbol ≠ r.Symbol))
        = c.Rules.filter (fun x => decide (x.Symbol ≠ r.Symbol))
    ∧ (∀ symbol, symbol ≠ r.Symbol → (c.AddRule r).GetRule symbol = c.GetRule symbol)
    ∧ (c.AddRule r).Rules.length
        = c.Rules.length + (if c.GetRule r.Symbol = none then 1 else 0) := by
  unfold config.Config.GetRule
  rcases AddRule_cases c r with ⟨habs, he⟩ | ⟨pre, old, post, h1, h2, h3, h4⟩
  · rw [he]
    refine ⟨?_, ?_, ?_, ?_, ?_⟩
    · rw [List.map_append, List.nodup_append]
      refine ⟨hd, by simp, ?_⟩
      intro a ha hb
      obtain ⟨x, hx, hxa⟩ := List.mem_map.1 ha
      have : a = r.Symbol := by simpa using hb
      exact habs x hx (hxa.trans this)
    · exact find_rule_append c.Rules [] r r.Symbol rfl habs
    · simp
    · intro symbol hs
      rw [List.find?_append]
      have : (r.Symbol == symbol) = false := by simpa using fun e => hs e.symm
      simp [List.find?_cons, this]
    · rw [find_rule_none c.Rules r.Symbol habs]
      simp
  · rw [h2, h1]
    rw [h1] at hd
    refine ⟨?_, ?_, ?_, ?_, ?_⟩
    · simpa [h3] using hd
    · exact find_rule_append pre post r r.Symbol rfl h4
    · simp [List.filter_append, List.filter_cons, h3]
    · intro symbol hs
      have e1 : (r.Symbol == symbol) = false := by simpa using fun e => hs e.symm
      have e2 : (old.Symbol == symbol) = false := by
        rw [h3]; exact e1
      simp [List.find?_append, List.find?_cons, e1, e2]
    · rw [find_rule_append pre post old r.Symbol h3 h4]
      simp

theorem C24_addRule_keeps_symbols_unique_witness :
    (([ruleAAPL, ruleTSLA] : List config.Rule).map (fun x => x.Symbol)).Nodup
    ∧ ({ cfgCN with Rules := [ruleAAPL, ruleTSLA] }.AddRule ruleTwo).GetRule "AAPL" = some ruleTwo
    ∧ ({ cfgCN with Rules := [ruleAAPL, ruleTSLA] }.AddRule ruleTwo).Rules.length = 2
    ∧ ({ cfgCN with Rules := [ruleAAPL, ruleTSLA] }.AddRule ruleBand).Rules.length = 3 :=
  have h := C24_addRule_keeps_symbols_unique { cfgCN with Rules := [ruleAAPL, ruleTSLA] }
    ruleTwo (by decide)
  have h' := C24_addRule_keeps_symbols_unique { cfgCN with Rules := [ruleAAPL, ruleTSLA] }
    ruleBand (by decide)
  ⟨by decide, h.2.1, h.2.2.2.2.trans (by decide), h'.2.2.2.2.trans (by decide)⟩

/-- C22: an `updateStock` for a symbol that has no entry in the stock table, or no rule in
the configuration, leaves the trigger-state mapping as it was (so no entry is created for
the symbol), computes nothing newly triggered and calls no transport; whatever the fetch
outcome is. -/
theorem C22_update_without_rule_keeps_trigger_state (m : tui.Model) (msg : tui.stockUpdateMsg)
    (now : Int) (h : m.stocks msg.symbol = none ∨ m.cfg.GetRule msg.symbol = none) :
    (m.updateStock msg now).model.triggeredState = m.triggeredState
    ∧ (m.updateStock msg now).newlyTriggered = ∅
    ∧ (m.updateStock msg now).events = [] := by
  obtain ⟨symbol, f⟩ := msg
  unfold tui.Model.updateStock
  simp only
  cases hs : m.stocks symbol with
  | none => exact ⟨rfl, rfl, rfl⟩
  | some data =>
    have hr : m.cfg.GetRule symbol = none := by
      rcases h with h | h
      · rw [hs] at h; exact absurd h (by simp)
      · exact h
    cases f with
    | error e => exact ⟨rfl, rfl, rfl⟩
    | ok q =>
      simp only [hr]
      exact ⟨trivial, trivial, trivial⟩

theorem C22_update_without_rule_keeps_trigger_state_witness :
    (dashModel.stocks "MSFT" = none ∨ dashModel.cfg.GetRule "MSFT" = none)
    ∧ (dashModel.updateStock ⟨"MSFT", Except.ok (quoteOf "MSFT" 500 9)⟩ 1).model.triggeredState
        = dashModel.triggeredState
    ∧ (dashModel.updateStock ⟨"MSFT", Except.ok (quoteOf "MSFT" 500 9)⟩ 1).events = [] :=
  have h := C22_update_without_rule_keeps_trigger_state dashModel
    ⟨"MSFT", Except.ok (quoteOf "MSFT" 500 9)⟩ 1 (Or.inl rfl)
  ⟨Or.inl rfl, h.1, h.2.2⟩

/-- C28: with the same Eastern zone in both packages, for every instant the `isMarketOpen`
of the watch command equals `stock.IsMarketOpen("US")` and its `getNextMarketOpen` equals
`stock.GetNextMarketOpen("US")` (for every bound on the weekend walk). -/
theorem C28_watch_market_hours_agree_with_calendar (fuel : Nat)
    (tzEastern tzShanghai : time.Location) (now : time.Time) :
    cmd.isMarketOpen tzEastern now = stock.IsMarketOpen tzEastern tzShanghai "US" now
    ∧ cmd.getNextMarketOpen fuel tzEastern now
        = stock.GetNextMarketOpen fuel tzEastern tzShanghai "US" now := by
  have e1 : stock.IsMarketOpen tzEastern tzShanghai "US" now
      = stock.isUSMarketOpen tzEastern now := by
    simp [stock.IsMarketOpen, stock.MarketCrypto, stock.MarketCN, stock.MarketTW,
      stock.MarketForex]
  have e2 : stock.GetNextMarketOpen fuel tzEastern tzShanghai "US" now
      = stock.getNextUSMarketOpen fuel tzEastern now := by
    simp [stock.GetNextMarketOpen, stock.MarketCrypto, stock.MarketCN, stock.MarketTW,
      stock.MarketForex]
  rw [e1, e2]
  exact ⟨rfl, rfl⟩

/-- C30: the displayed price change is Price - PrevClose when PrevClose > 0 and
Price * Change / (100 + Change) otherwise; in exact arithmetic, for Price > 0 and P > 0 with
Change = 100 * (Price - P) / P, the divisor 100 + Change is not zero and the fallback equals
Price - P, the value of the direct formula with the previous close P. -/
theorem C30_price_change_fallback_agrees (price prevClose P change : ℚ)
    (hprice : 0 < price) (hP : 0 < P) (hchange : change = 100 * (price - P) / P) :
    tui.priceChange price prevClose change
        = (if prevClose > 0 then price - prevClose else price * change / (100 + change))
    ∧ 100 + change ≠ 0
    ∧ price * change / (100 + change) = price - P
    ∧ tui.priceChange price 0 change = tui.priceChange price P change := by
  have hPne : P ≠ 0 := ne_of_gt hP
  have hsum : 100 + change = 100 * price / P := by
    rw [hchange]; field_simp; ring
  have hne : 100 + change ≠ 0 := by
    rw [hsum]
    exact div_ne_zero (mul_ne_zero (by norm_num) (ne_of_gt hprice)) hPne
  have hfb : price * change / (100 + change) = price - P := by
    rw [div_eq_iff hne, hsum, hchange]
    field_simp
    ring
  refine ⟨rfl, hne, hfb, ?_⟩
  simp only [tui.priceChange, gt_iff_lt, lt_self_iff_false, if_false, hP, if_true]
  exact hfb

theorem C30_price_change_fallback_agrees_witness :
    tui.priceChange 110 0 10 = tui.priceChange 110 100 10
    ∧ (110 : ℚ) * 10 / (100 + 10) = 110 - 100 :=
  have h := C30_price_change_fallback_agrees 110 0 100 10 (by norm_num) (by norm_num)
    (by norm_num)
  ⟨h.2.2.2, h.2.2.1⟩

/-! ## Lemmas on the sort and on the dashboard invariant -/

theorem insertLeft_perm (less : String → String → Option Bool) (x : String) :
    ∀ l l' : List String, tui.insertLeft less x l = some l' → l'.Perm (x :: l) := by
  intro l
  induction l with
  | nil =>
    intro l' h
    simp only [tui.insertLeft, Option.some.injEq] at h
    rw [← h]
  | cons y ys ih =>
    intro l' h
    simp only [tui.insertLeft] at h
    cases hl : less x y with
    | none => rw [hl] at h; exact absurd h (by simp)
    | some b =>
      rw [hl] at h
      cases b with
      | false =>
        simp only [Option.some.injEq] at h
        rw [← h]
      | true =>
        cases hi : tui.insertLeft less x ys with
        | none => rw [hi] at h; exact absurd h (by simp)
        | some t =>
          rw [hi] at h
          simp only [Option.map_some', Option.some.injEq] at h
          rw [← h]
          exact ((ih t hi).cons y).trans (List.Perm.swap x y ys)

theorem insertLeft_some (less : String → String → Option Bool) (x : String) :
    ∀ l : List String, (∀ y ∈ l, (less x y).isSome = true) →
      ∃ l', tui.insertLeft less x l = some l' := by
  intro l
  induction l with
  | nil => intro _; exact ⟨[x], rfl⟩
  | cons y ys ih =>
    intro h
    have hy := h y (List.mem_cons_self _ _)
    obtain ⟨b, hb⟩ := Option.isSome_iff_exists.1 hy
    obtain ⟨t, ht⟩ := ih (fun z hz => h z (List.mem_cons_of_mem _ hz))
    simp only [tui.insertLeft, hb]
    cases b with
    | false => exact ⟨_, rfl⟩
    | true => rw [ht]; exact ⟨_, rfl⟩

theorem sortLoop_perm (less : String → String → Option Bool) :
    ∀ (rest done out : List String), tui.sortLoop less done rest = some out →
      out.Perm (done ++ rest) := by
  intro rest
  induction rest with
  | nil =>
    intro done out h
    simp only [tui.sortLoop, Option.some.injEq] at h
    rw [← h, List.append_nil]
    exact List.reverse_perm done
  | cons x xs ih =>
    intro done out h
    simp only [tui.sortLoop] at h
    cases hi : tui.insertLeft less x done with
    | none => rw [hi] at h; exact absurd h (by simp)
    | some d =>
      rw [hi] at h
      have h1 := ih d out h
      have h2 := insertLeft_perm less x done d hi
      exact h1.trans ((h2.append_right xs).trans (by simpa using List.perm_middle.symm))

theorem sortLoop_some (less : String → String → Option Bool) :
    ∀ (rest done : List String),
      (∀ a ∈ done ++ rest, ∀ b ∈ done ++ rest, (less a b).isSome = true) →
        ∃ out, tui.sortLoop less done rest = some out := by
  intro rest
  induction rest with
  | nil => intro done _; exact ⟨_, rfl⟩
  | cons x xs ih =>
    intro done h
    obtain ⟨d, hd⟩ := insertLeft_some less x done
      (fun y hy => h x (by simp) y (by simp [hy]))
    have hp := insertLeft_perm less x done d hd
    have hmem : ∀ a, a ∈ d ++ xs → a ∈ done ++ x :: xs := by
      intro a ha
      rcases List.mem_append.1 ha with ha | ha
      · rcases List.mem_cons.1 (hp.subset ha) with rfl | ha'
        · simp
        · simp [ha']
      · simp [ha]
    obtain ⟨out, ho⟩ := ih d (fun a ha b hb => h a (hmem a ha) b (hmem b hb))
    refine ⟨out, ?_⟩
    simp only [tui.sortLoop, hd]
    exact ho

theorem insertionSort_perm (less : String → String → Option Bool) (l out : List String)
    (h : tui.insertionSort less l = some out) : out.Perm l := by
  cases l with
  | nil =>
    simp only [tui.insertionSort, Option.some.injEq] at h
    rw [← h]
  | cons x xs => exact sortLoop_perm less xs [x] out h

theorem insertionSort_some (less : String → String → Option Bool) (l : List String)
    (h : ∀ a ∈ l, ∀ b ∈ l, (less a b).isSome = true) :
    ∃ out, tui.insertionSort less l = some out := by
  cases l with
  | nil => exact ⟨[], rfl⟩
  | cons x xs => exact sortLoop_some less xs [x] h

theorem swapAt_eq {n : Nat} (data : Fin n → String) (i j : Fin n) :
    tui.swapAt data i j = data ∘ Equiv.swap i j := by
  funext k
  simp only [tui.swapAt, Function.comp_apply, Equiv.swap_apply_def]
  split_ifs <;> rfl

theorem runOn_perm (less : String → String → Option Bool) {n : Nat} (p : tui.sortRun n) :
    ∀ (data out : Fin n → String), p.runOn less data = some out →
      ∃ σ : Equiv.Perm (Fin n), out = data ∘ σ := by
  induction p with
  | done =>
    intro data out h
    simp only [tui.sortRun.runOn, Option.some.injEq] at h
    exact ⟨Equiv.refl _, by rw [← h]; rfl⟩
  | swap i j next ih =>
    intro data out h
    simp only [tui.sortRun.runOn] at h
    obtain ⟨σ, hσ⟩ := ih _ out h
    refine ⟨σ.trans (Equiv.swap i j), ?_⟩
    rw [hσ, swapAt_eq]
    rfl
  | less i j ifLess ifNot ih1 ih2 =>
    intro data out h
    simp only [tui.sortRun.runOn] at h
    cases hl : less (data i) (data j) with
    | none => rw [hl] at h; exact absurd h (by simp)
    | some b =>
      rw [hl] at h
      cases b with
      | true => exact ih1 data out h
      | false => exact ih2 data out h

theorem runOn_some (less : String → String → Option Bool) {n : Nat} (p : tui.sortRun n) :
    ∀ (data : Fin n → String), (∀ i j : Fin n, (less (data i) (data j)).isSome = true) →
      ∃ out, p.runOn less data = some out := by
  induction p with
  | done => intro data _; exact ⟨data, rfl⟩
  | swap i j next ih =>
    intro data h
    obtain ⟨out, ho⟩ := ih (tui.swapAt data i j)
      (by intro a b; rw [swapAt_eq]; exact h _ _)
    exact ⟨out, by simp only [tui.sortRun.runOn]; exact ho⟩
  | less i j ifLess ifNot ih1 ih2 =>
    intro data h
    obtain ⟨b, hb⟩ := Option.isSome_iff_exists.1 (h i j)
    cases b with
    | true =>
      obtain ⟨out, ho⟩ := ih1 data h
      exact ⟨out, by simp only [tui.sortRun.runOn, hb]; exact ho⟩
    | false =>
      obtain ⟨out, ho⟩ := ih2 data h
      exact ⟨out, by simp only [tui.sortRun.runOn, hb]; exact ho⟩

theorem sortSlice_short (long : (n : Nat) → tui.sortRun n)
    (less : String → String → Option Bool) (l : List String) (h : l.length ≤ 12) :
    tui.sortSlice long less l = tui.insertionSort less l := by
  simp only [tui.sortSlice, if_pos h]

theorem sortSlice_perm (long : (n : Nat) → tui.sortRun n)
    (less : String → String → Option Bool) (l out : List String)
    (h : tui.sortSlice long less l = some out) : out.Perm l := by
  by_cases hn : l.length ≤ 12
  · rw [sortSlice_short long less l hn] at h
    exact insertionSort_perm less l out h
  · simp only [tui.sortSlice, if_neg hn] at h
    cases hr : (long l.length).runOn less l.get with
    | none => rw [hr] at h; exact absurd h (by simp)
    | some o =>
      rw [hr] at h
      simp only [Option.map_some', Option.some.injEq] at h
      obtain ⟨σ, hσ⟩ := runOn_perm less _ _ o hr
      rw [← h, hσ]
      have h1 := Equiv.Perm.ofFn_comp_perm σ l.get
      rw [List.ofFn_get] at h1
      exact h1

theorem sortSlice_some (long : (n : Nat) → tui.sortRun n)
    (less : String → String → Option Bool) (l : List String)
    (h : ∀ a ∈ l, ∀ b ∈ l, (less a b).isSome = true) :
    ∃ out, tui.sortSlice long less l = some out := by
  by_cases hn : l.length ≤ 12
  · rw [sortSlice_short long less l hn]
    exact insertionSort_some less l h
  · obtain ⟨o, ho⟩ := runOn_some less (long l.length) l.get
      (fun i j => h _ (List.get_mem l i.1 i.2) _ (List.get_mem l j.1 j.2))
    exact ⟨List.ofFn o, by simp only [tui.sortSlice, if_neg hn, ho, Option.map_some']⟩

theorem lessByChange_isSome (m : tui.Model) (a b : String)
    (ha : (m.stocks a).isSome = true) (hb : (m.stocks b).isSome = true) :
    (m.lessByChange a b).isSome = true := by
  obtain ⟨x, hx⟩ := Option.isSome_iff_exists.1 ha
  obtain ⟨y, hy⟩ := Option.isSome_iff_exists.1 hb
  simp only [tui.Model.lessByChange, hx, hy]
  split_ifs <;> rfl

theorem SortByChange_ok (long : (n : Nat) → tui.sortRun n) (m : tui.Model)
    (h : ∀ s ∈ m.stockOrder, (m.stocks s).isSome = true) :
    ∃ m', m.SortByChange long = some m' ∧ m'.stockOrder.Perm m.stockOrder ∧ m'.stocks = m.stocks
      ∧ m'.cfg = m.cfg ∧ m'.triggeredState = m.triggeredState ∧ m'.notifier = m.notifier := by
  obtain ⟨out, ho⟩ := sortSlice_some long m.lessByChange m.stockOrder
    (fun a ha b hb => lessByChange_isSome m a b (h a ha) (h b hb))
  refine ⟨{ m with stockOrder := out }, ?_, sortSlice_perm _ _ _ _ ho, rfl, rfl, rfl, rfl⟩
  simp only [tui.Model.SortByChange, ho, Option.map_some']

theorem SortByChange_wellFormed (long : (n : Nat) → tui.sortRun n) (m : tui.Model)
    (h : m.wellFormed) :
    ∃ m', m.SortByChange long = some m' ∧ m'.wellFormed := by
  obtain ⟨m', h1, h2, h3, h4, _, _⟩ := SortByChange_ok long m h.2
  refine ⟨m', h1, ?_, ?_⟩
  · rw [h4]; exact h2.trans h.1
  · intro s hs
    rw [h3]
    exact h.2 s (h2.subset hs)

theorem newStocks_isSome :
    ∀ (rules : List config.Rule) (st : String → Option tui.StockData) (s : String),
      (s ∈ rules.map (fun r => r.Symbol) ∨ (st s).isSome = true) →
        (tui.newStocks rules st s).isSome = true := by
  intro rules
  induction rules with
  | nil =>
    intro st s h
    rcases h with h | h
    · exact absurd h (by simp)
    · exact h
  | cons r rest ih =>
    intro st s h
    simp only [tui.newStocks]
    apply ih
    by_cases e : s = r.Symbol
    · right; rw [e]; simp
    · rcases h with h | h
      · left
        rcases List.mem_cons.1 h with h' | h'
        · exact absurd h' e
        · exact h'
      · right; rw [Function.update_noteq e]; exact h

theorem reloadStocks_isSome (old : String → Option tui.StockData) :
    ∀ (rules : List config.Rule) (st : String → Option tui.StockData) (s : String),
      (s ∈ rules.map (fun r => r.Symbol) ∨ (st s).isSome = true) →
        (tui.reloadStocks old rules st s).isSome = true := by
  intro rules
  induction rules with
  | nil =>
    intro st s h
    rcases h with h | h
    · exact absurd h (by simp)
    · exact h
  | cons r rest ih =>
    intro st s h
    have key : ∀ v : tui.StockData,
        (s ∈ rest.map (fun r => r.Symbol)
          ∨ (Function.update st r.Symbol (some v) s).isSome = true) := by
      intro v
      by_cases e : s = r.Symbol
      · right; rw [e]; simp
      · rcases h with h | h
        · left
          rcases List.mem_cons.1 h with h' | h'
          · exact absurd h' e
          · exact h'
        · right; rw [Function.update_noteq e]; exact h
    simp only [tui.reloadStocks]
    cases old r.Symbol with
    | none => exact ih _ s (key _)
    | some existing => exact ih _ s (key _)

theorem loadHoldings_isSome :
    ∀ (hs : List config.Holding) (st : String → Option tui.StockData) (c : Int) (s : String),
      (st s).isSome = true → ((tui.loadHoldings hs st c).1 s).isSome = true := by
  intro hs
  induction hs with
  | nil => intro st c s h; exact h
  | cons hd rest ih =>
    intro st c s h
    simp only [tui.loadHoldings]
    cases hst : st hd.Symbol with
    | none => exact ih st c s h
    | some data =>
      apply ih
      by_cases e : s = hd.Symbol
      · rw [e]; simp
      · rw [Function.update_noteq e]; exact h

theorem NewModel_ok (long : (n : Nat) → tui.sortRun n) (cfg : config.Config)
    (notifier : notify.Notifier) :
    ∃ m, tui.NewModel long cfg notifier = some m ∧ m.wellFormed ∧ m.cfg = cfg
      ∧ m.triggeredState = TriggeredState.empty := by
  have hentries : ∀ s ∈ cfg.Rules.map (fun r => r.Symbol),
      ((tui.loadHoldings cfg.Holdings (tui.newStocks cfg.Rules (fun _ => none)) 0).1 s).isSome
        = true :=
    fun s hs => loadHoldings_isSome _ _ _ s (newStocks_isSome _ _ s (Or.inl hs))
  obtain ⟨m', h1, h2, h3, h4, h5, _⟩ := SortByChange_ok long
    { stocks := (tui.loadHoldings cfg.Holdings (tui.newStocks cfg.Rules (fun _ => none)) 0).1,
      stockOrder := cfg.Rules.map (fun r => r.Symbol), cfg := cfg, notifier := notifier,
      triggeredState := TriggeredState.empty, sortAscending := false,
      holdingsCount :=
        (tui.loadHoldings cfg.Holdings (tui.newStocks cfg.Rules (fun _ => none)) 0).2 }
    hentries
  refine ⟨m', h1, ⟨?_, ?_⟩, h4, h5⟩
  · rw [h4]; exact h2
  · intro s hs
    rw [h3]
    exact hentries s (h2.subset hs)

theorem reloadRules_ok (long : (n : Nat) → tui.sortRun n) (m : tui.Model) :
    ∃ m', m.reloadRules long = some m' ∧ m'.wellFormed ∧ m'.cfg = m.cfg
      ∧ m'.triggeredState = m.triggeredState ∧ m'.notifier = m.notifier := by
  have hentries : ∀ s ∈ m.cfg.Rules.map (fun r => r.Symbol),
      ((tui.loadHoldings m.cfg.Holdings
          (tui.reloadStocks m.stocks m.cfg.Rules (fun _ => none)) 0).1 s).isSome = true :=
    fun s hs => loadHoldings_isSome _ _ _ s (reloadStocks_isSome _ _ _ s (Or.inl hs))
  obtain ⟨m', h1, h2, h3, h4, h5, h6⟩ := SortByChange_ok long
    { m with
      stocks := (tui.loadHoldings m.cfg.Holdings
        (tui.reloadStocks m.stocks m.cfg.Rules (fun _ => none)) 0).1,
      stockOrder := m.cfg.Rules.map (fun r => r.Symbol),
      holdingsCount := (tui.loadHoldings m.cfg.Holdings
        (tui.reloadStocks m.stocks m.cfg.Rules (fun _ => none)) 0).2 }
    hentries
  refine ⟨m', h1, ⟨?_, ?_⟩, h4, h5, h6⟩
  · rw [h4]; exact h2
  · intro s hs
    rw [h3]
    exact hentries s (h2.subset hs)

theorem updateStock_keeps_order (m : tui.Model) (msg : tui.stockUpdateMsg) (now : Int) :
    (m.updateStock msg now).model.stockOrder = m.stockOrder
    ∧ (m.updateStock msg now).model.cfg = m.cfg
    ∧ ∀ s, (m.stocks s).isSome = true → ((m.updateStock msg now).model.stocks s).isSome = true := by
  obtain ⟨x, f⟩ := msg
  have key : ∀ (v : tui.StockData) (s : String), (m.stocks s).isSome = true →
      (Function.update m.stocks x (some v) s).isSome = true := by
    intro v s h
    by_cases e : s = x
    · rw [e]; simp
    · rw [Function.update_noteq e]; exact h
  unfold tui.Model.updateStock
  simp only
  cases m.stocks x with
  | none => exact ⟨rfl, rfl, fun s h => h⟩
  | some data =>
    cases f with
    | error e => exact ⟨rfl, rfl, key _⟩
    | ok q =>
      cases m.cfg.GetRule x with
      | none => exact ⟨rfl, rfl, key _⟩
      | some r => exact ⟨rfl, rfl, key _⟩

/-- C23: a configuration hot reload (the new configuration is installed and `reloadRules`
runs) returns and leaves the trigger-state mapping exactly as it was, for every symbol; so
does `reloadRules` on its own.  This holds whatever run the `sort` package makes on a list
of more than 12 symbols. -/
theorem C23_reload_keeps_trigger_state (long : (n : Nat) → tui.sortRun n) (m : tui.Model)
    (cfg : config.Config) :
    (∃ m', m.onConfigReload long cfg = some m' ∧ m'.triggeredState = m.triggeredState
      ∧ m'.cfg = cfg)
    ∧ (∃ m', m.reloadRules long = some m' ∧ m'.triggeredState = m.triggeredState) := by
  constructor
  · obtain ⟨m', h1, _, h3, h4, _⟩ := reloadRules_ok long { m with cfg := cfg }
    exact ⟨m', h1, h4, h3⟩
  · obtain ⟨m', h1, _, _, h4, _⟩ := reloadRules_ok long m
    exact ⟨m', h1, h4⟩

/-- C27: `NewModel` returns a model in which the working symbol list is a permutation of
the symbols of the rules of the configuration and every symbol of the list has an entry in
the stock table; `reloadRules` and a configuration reload return such a model from any
model; `updateStock` and `SortByChange` keep the property, and under it `SortByChange`
returns, that is, its comparison never reads a missing entry.  The list may have any length:
up to 12 symbols the sort is the insertion sort of the `sort` package, above it is any run
`long` of the package through `Less` and `Swap`. -/
theorem C27_stock_order_invariant (long : (n : Nat) → tui.sortRun n) (cfg : config.Config)
    (notifier : notify.Notifier) (m : tui.Model) (msg : tui.stockUpdateMsg) (now : Int)
    (h : m.wellFormed) :
    (∃ m0, tui.NewModel long cfg notifier = some m0 ∧ m0.wellFormed ∧ m0.cfg = cfg)
    ∧ (∀ old : tui.Model,
        ∃ m', old.reloadRules long = some m' ∧ m'.wellFormed ∧ m'.cfg = old.cfg)
    ∧ (∀ old : tui.Model,
        ∃ m', old.onConfigReload long cfg = some m' ∧ m'.wellFormed ∧ m'.cfg = cfg)
    ∧ (m.updateStock msg now).model.wellFormed
    ∧ (∃ m', m.SortByChange long = some m' ∧ m'.wellFormed
        ∧ m'.stockOrder.Perm m.stockOrder)
    ∧ (∀ a ∈ m.stockOrder, ∀ b ∈ m.stockOrder, (m.lessByChange a b).isSome = true) := by
  refine ⟨?_, ?_, ?_, ?_, ?_, ?_⟩
  · obtain ⟨m0, h1, h2, h3, _⟩ := NewModel_ok long cfg notifier
    exact ⟨m0, h1, h2, h3⟩
  · intro old
    obtain ⟨m', h1, h2, h3, _⟩ := reloadRules_ok long old
    exact ⟨m', h1, h2, h3⟩
  · intro old
    obtain ⟨m', h1, h2, h3, _⟩ := reloadRules_ok long { old with cfg := cfg }
    exact ⟨m', h1, h2, h3⟩
  · obtain ⟨k1, k2, k3⟩ := updateStock_keeps_order m msg now
    refine ⟨?_, ?_⟩
    · rw [k1, k2]; exact h.1
    · intro s hs
      rw [k1] at hs
      exact k3 s (h.2 s hs)
  · obtain ⟨m', h1, h2, h3, h4, _⟩ := SortByChange_ok long m h.2
    refine ⟨m', h1, ⟨?_, ?_⟩, h2⟩
    · rw [h4]; exact h2.trans h.1
    · intro s hs
      rw [h3]
      exact h.2 s (h2.subset hs)
  · intro a ha b hb
    exact lessByChange_isSome m a b (h.2 a ha) (h.2 b hb)

theorem C27_stock_order_invariant_witness :
    dashModelThirteen.wellFormed
    ∧ dashModelThirteen.stockOrder.length = 13
    ∧ (dashModelThirteen.updateStock ⟨"S01", Except.ok (quoteOf "S01" 205 1)⟩ 1).model.wellFormed
    ∧ (∃ m', dashModelThirteen.SortByChange sampleRun = some m' ∧ m'.wellFormed
        ∧ m'.stockOrder.Perm dashModelThirteen.stockOrder) :=
  have hw : dashModelThirteen.wellFormed := ⟨List.Perm.refl _, by decide⟩
  have h := C27_stock_order_invariant sampleRun cfgThirteen okNotifier dashModelThirteen
    ⟨"S01", Except.ok (quoteOf "S01" 205 1)⟩ 1 hw
  ⟨hw, rfl, h.2.2.2.1, h.2.2.2.2.1⟩

/-- C29 (evaluated on the code): the dashboard is built from a configuration with the rule
AAPL (market US) and a holding of 10 AAPL at 150; the configuration is then replaced by one
where the rule has the market HK and the name Apple and the holding is gone.  After
`reloadRules` the entry of AAPL has the new name but still the market US, the quantity 10
and the cost price 150, whereas `NewModel` on the new configuration gives HK, 0 and 0.  The
list has one symbol, so the sort is the insertion sort whatever `long` is. -/
theorem C29_reload_keeps_stale_market_and_holding (long : (n : Nat) → tui.sortRun n) :
    cfgAfter.GetRule "AAPL" = some { ruleAAPL with Market := "HK", Name := "Apple" }
    ∧ cfgAfter.Holdings = []
    ∧ ((tui.NewModel long cfgBefore okNotifier).bind
          (fun m => m.onConfigReload long cfgAfter)).map
        (fun m => (m.cfg, (m.stocks "AAPL").map
          (fun d => (d.Name, d.Market, d.Quantity, d.CostPrice))))
        = some (cfgAfter, some ("Apple", "US", float64.fin 10, float64.fin 150))
    ∧ (tui.NewModel long cfgAfter okNotifier).map
        (fun m => (m.stocks "AAPL").map (fun d => (d.Name, d.Market, d.Quantity, d.CostPrice)))
        = some (some ("Apple", "HK", float64.fin 0, float64.fin 0)) := by
  refine ⟨rfl, rfl, rfl, rfl⟩

/-! ## Lemmas on the weekend walk -/

theorem weekday_add_days (t : time.Time) (j : Int) :
    (t.Add (j * (24 * time.Hour))).Weekday
      = ((t.unixSec + 86400 * j + (t.loc.lookup (t.unixSec + 86400 * j)).offset) / 86400 + 4)
          % 7 := by
  have hs : (t.Add (j * (24 * time.Hour))).unixSec = t.unixSec + 86400 * j := by
    simp only [time.Time.unixSec, time.Time.Add, time.Hour]
    omega
  have hl : (t.Add (j * (24 * time.Hour))).loc = t.loc := rfl
  simp only [time.Time.Weekday, time.Time.abs, hs, hl]

theorem add_day_add (t : time.Time) (j : Int) :
    (t.Add (j * (24 * time.Hour))).Add (24 * time.Hour) = t.Add ((j + 1) * (24 * time.Hour)) := by
  simp only [time.Time.Add]
  congr 1
  ring

theorem add_zero_days (t : time.Time) : t.Add (0 * (24 * time.Hour)) = t := by
  simp [time.Time.Add]

theorem skipWeekends_of_weekday (fuel : Nat) (t : time.Time)
    (h : ¬ (t.Weekday = time.Saturday ∨ t.Weekday = time.Sunday)) :
    stock.skipWeekends fuel t = some t := by
  cases fuel <;> simp only [stock.skipWeekends, if_neg h]

theorem skipWeekends_step (fuel : Nat) (t : time.Time) (j : Int)
    (h : (t.Add (j * (24 * time.Hour))).Weekday = time.Saturday
      ∨ (t.Add (j * (24 * time.Hour))).Weekday = time.Sunday) :
    stock.skipWeekends (fuel + 1) (t.Add (j * (24 * time.Hour)))
      = stock.skipWeekends fuel (t.Add ((j + 1) * (24 * time.Hour))) := by
  simp only [stock.skipWeekends, if_pos h, add_day_add]

theorem skipWeekends_terminates (t : time.Time)
    (hz : ∀ u, -86400 < (t.loc.lookup u).offset ∧ (t.loc.lookup u).offset < 86400)
    (fuel : Nat) (hf : 4 ≤ fuel) :
    ∃ k : Int, 0 ≤ k ∧ k ≤ 4
      ∧ stock.skipWeekends fuel t = some (t.Add (k * (24 * time.Hour)))
      ∧ ¬ ((t.Add (k * (24 * time.Hour))).Weekday = time.Saturday
          ∨ (t.Add (k * (24 * time.Hour))).Weekday = time.Sunday) := by
  obtain ⟨f, rfl⟩ : ∃ f, fuel = f + 4 := ⟨fuel - 4, by omega⟩
  have e0 : stock.skipWeekends (f + 4) t
      = stock.skipWeekends (f + 3 + 1) (t.Add (0 * (24 * time.Hour))) := by
    rw [add_zero_days]
  by_cases w0 : (t.Add (0 * (24 * time.Hour))).Weekday = time.Saturday
      ∨ (t.Add (0 * (24 * time.Hour))).Weekday = time.Sunday
  swap
  · exact ⟨0, by norm_num, by norm_num, by rw [e0]; exact skipWeekends_of_weekday _ _ w0, w0⟩
  by_cases w1 : (t.Add ((0 + 1) * (24 * time.Hour))).Weekday = time.Saturday
      ∨ (t.Add ((0 + 1) * (24 * time.Hour))).Weekday = time.Sunday
  swap
  · exact ⟨0 + 1, by norm_num, by norm_num,
      by rw [e0, skipWeekends_step _ _ _ w0]; exact skipWeekends_of_weekday _ _ w1, w1⟩
  by_cases w2 : (t.Add ((0 + 1 + 1) * (24 * time.Hour))).Weekday = time.Saturday
      ∨ (t.Add ((0 + 1 + 1) * (24 * time.Hour))).Weekday = time.Sunday
  swap
  · exact ⟨0 + 1 + 1, by norm_num, by norm_num,
      by rw [e0, skipWeekends_step _ _ _ w0, skipWeekends_step _ _ _ w1]
         exact skipWeekends_of_weekday _ _ w2, w2⟩
  by_cases w3 : (t.Add ((0 + 1 + 1 + 1) * (24 * time.Hour))).Weekday = time.Saturday
      ∨ (t.Add ((0 + 1 + 1 + 1) * (24 * time.Hour))).Weekday = time.Sunday
  swap
  · exact ⟨0 + 1 + 1 + 1, by norm_num, by norm_num,
      by rw [e0, skipWeekends_step _ _ _ w0, skipWeekends_step _ _ _ w1,
           skipWeekends_step _ _ _ w2]
         exact skipWeekends_of_weekday _ _ w3, w3⟩
  have w4 : ¬ ((t.Add ((0 + 1 + 1 + 1 + 1) * (24 * time.Hour))).Weekday = time.Saturday
      ∨ (t.Add ((0 + 1 + 1 + 1 + 1) * (24 * time.Hour))).Weekday = time.Sunday) := by
    intro w4
    rw [weekday_add_days] at w0 w1 w2 w3 w4
    have b0 := hz (t.unixSec + 86400 * 0)
    have b1 := hz (t.unixSec + 86400 * (0 + 1))
    have b2 := hz (t.unixSec + 86400 * (0 + 1 + 1))
    have b3 := hz (t.unixSec + 86400 * (0 + 1 + 1 + 1))
    have b4 := hz (t.unixSec + 86400 * (0 + 1 + 1 + 1 + 1))
    simp only [time.Saturday, time.Sunday] at w0 w1 w2 w3 w4
    generalize (t.loc.lookup (t.unixSec + 86400 * 0)).offset = o0 at *
    generalize (t.loc.lookup (t.unixSec + 86400 * (0 + 1))).offset = o1 at *
    generalize (t.loc.lookup (t.unixSec + 86400 * (0 + 1 + 1))).offset = o2 at *
    generalize (t.loc.lookup (t.unixSec + 86400 * (0 + 1 + 1 + 1))).offset = o3 at *
    generalize (t.loc.lookup (t.unixSec + 86400 * (0 + 1 + 1 + 1 + 1))).offset = o4 at *
    omega
  exact ⟨0 + 1 + 1 + 1 + 1, by norm_num, by norm_num,
    by rw [e0, skipWeekends_step _ _ _ w0, skipWeekends_step _ _ _ w1,
         skipWeekends_step _ _ _ w2, skipWeekends_step _ _ _ w3]
       exact skipWeekends_of_weekday _ _ w4, w4⟩

theorem skipWeekends_mono :
    ∀ (f : Nat) (t r : time.Time), stock.skipWeekends f t = some r →
      ∀ g, f ≤ g → stock.skipWeekends g t = some r := by
  intro f
  induction f with
  | zero =>
    intro t r h g _
    simp only [stock.skipWeekends] at h
    split_ifs at h with w
    rw [skipWeekends_of_weekday g t w]
    exact h
  | succ n ih =>
    intro t r h g hg
    obtain ⟨g', rfl⟩ : ∃ g', g = g' + 1 := ⟨g - 1, by omega⟩
    simp only [stock.skipWeekends] at h ⊢
    split_ifs at h ⊢ with w
    · exact ih _ r h g' (by omega)
    · exact h

theorem getNext_walk_terminates (loc : time.Location) (now : time.Time) (hour min : Int)
    (hz : ∀ u, -86400 < (loc.lookup u).offset ∧ (loc.lookup u).offset < 86400) :
    (stock.skipWeekends 8
      (if (now.In loc).After (time.Date (now.In loc).civilDay hour min loc) then
        (time.Date (now.In loc).civilDay hour min loc).Add (24 * time.Hour)
       else time.Date (now.In loc).civilDay hour min loc)).isSome = true := by
  split_ifs
  · obtain ⟨k, _, _, h, _⟩ := skipWeekends_terminates
      ((time.Date (now.In loc).civilDay hour min loc).Add (24 * time.Hour)) hz 8 (by norm_num)
    rw [h]; rfl
  · obtain ⟨k, _, _, h, _⟩ := skipWeekends_terminates
      (time.Date (now.In loc).civilDay hour min loc) hz 8 (by norm_num)
    rw [h]; rfl

/-- C26: in a zone whose offsets stay within a day of UTC (every zone of the time-zone
tables, and the fixed zones of `init`), the walk that skips Saturdays and Sundays ends for
every starting instant after at most 4, hence at most 8, steps of 24 hours, on a day that is
not a Saturday or a Sunday; a larger bound on the iterations gives the same result; and with
the bound 8 the next-open functions of the US, CN and TW calendars return for every
instant. -/
theorem C26_weekend_walk_terminates (tzEastern tzShanghai : time.Location)
    (now t : time.Time)
    (hE : ∀ u, -86400 < (tzEastern.lookup u).offset ∧ (tzEastern.lookup u).offset < 86400)
    (hS : ∀ u, -86400 < (tzShanghai.lookup u).offset ∧ (tzShanghai.lookup u).offset < 86400)
    (ht : t.loc = tzEastern ∨ t.loc = tzShanghai) :
    (∃ k : Int, 0 ≤ k ∧ k ≤ 4 ∧ k ≤ 8
      ∧ stock.skipWeekends 8 t = some (t.Add (k * (24 * time.Hour)))
      ∧ ¬ ((t.Add (k * (24 * time.Hour))).Weekday = time.Saturday
          ∨ (t.Add (k * (24 * time.Hour))).Weekday = time.Sunday)
      ∧ ∀ fuel, 8 ≤ fuel → stock.skipWeekends fuel t = some (t.Add (k * (24 * time.Hour))))
    ∧ (stock.getNextUSMarketOpen 8 tzEastern now).isSome = true
    ∧ (stock.getNextCNMarketOpen 8 tzShanghai now).isSome = true
    ∧ (stock.getNextTWMarketOpen 8 tzShanghai now).isSome = true := by
  have hz : ∀ u, -86400 < (t.loc.lookup u).offset ∧ (t.loc.lookup u).offset < 86400 := by
    rcases ht with e | e <;> rw [e] <;> assumption
  refine ⟨?_, getNext_walk_terminates tzEastern now 9 30 hE, ?_,
    getNext_walk_terminates tzShanghai now 9 0 hS⟩
  · obtain ⟨k, k0, k4, h, hw⟩ := skipWeekends_terminates t hz 8 (by norm_num)
    exact ⟨k, k0, k4, by omega, h, hw, fun fuel hf => skipWeekends_mono 8 t _ h fuel hf⟩
  · simp only [stock.getNextCNMarketOpen]
    split_ifs
    · rfl
    · rfl
    · rfl
    · obtain ⟨k, _, _, h, _⟩ := skipWeekends_terminates
        ((time.Date (now.In tzShanghai).civilDay 9 30 tzShanghai).Add (24 * time.Hour)) hS 8
        (by norm_num)
      rw [h]; rfl

theorem C26_weekend_walk_terminates_witness :
    (stock.getNextUSMarketOpen 8 zoneEST saturday1200Eastern).isSome = true
    ∧ (stock.getNextCNMarketOpen 8 zoneCST saturday1200Eastern).isSome = true
    ∧ (stock.getNextTWMarketOpen 8 zoneCST saturday1200Eastern).isSome = true
    ∧ (stock.getNextUSMarketOpen 8 zoneEST saturday1200Eastern).map
        (fun r => (r.Weekday, r.Clock)) = some (time.Monday, 9, 30, 0) :=
  have h := C26_weekend_walk_terminates zoneEST zoneCST saturday1200Eastern
    (saturday1200Eastern.In zoneEST)
    (fun _ => ⟨(by decide : (-86400 : Int) < -5 * 60 * 60),
      (by decide : (-5 * 60 * 60 : Int) < 86400)⟩)
    (fun _ => ⟨(by decide : (-86400 : Int) < 8 * 60 * 60),
      (by decide : (8 * 60 * 60 : Int) < 86400)⟩) (Or.inl rfl)
  ⟨h.2.1, h.2.2.1, h.2.2.2, by decide⟩

/-! ## Lemmas and claims on the tick of the watch loop and on the nearest next open -/

theorem checkRules_state_of_mem (n : notify.Notifier)
    (getQuote : String → String → Except String stock.Quote) (rules : List config.Rule)
    (st : TriggeredState) (r : config.Rule)
    (hd : (rules.map (fun x => x.Symbol)).Nodup) (hr : r ∈ rules) :
    (cmd.checkRules n (rules.map (fun x => (x, getQuote x.Symbol x.Market))) st).1 r.Symbol
      = (cmd.checkRule n r (getQuote r.Symbol r.Market)
          (cmd.checkRules n
            ((rules.takeWhile (fun x => decide (x ≠ r))).map
              (fun x => (x, getQuote x.Symbol x.Market))) st).1).state r.Symbol := by
  obtain ⟨pre, post, he⟩ := List.append_of_mem hr
  have hnd := hd
  rw [he, List.map_append, List.map_cons, List.nodup_append] at hnd
  obtain ⟨_, hpost, hdisj⟩ := hnd
  have hpre : ∀ x ∈ pre, x ≠ r := by
    intro x hx e
    exact hdisj (List.mem_map.2 ⟨x, hx, rfl⟩) (by rw [e]; exact List.mem_cons_self _ _)
  have htw : rules.takeWhile (fun x => decide (x ≠ r)) = pre := by
    rw [he, List.takeWhile_append_of_pos (fun x hx => by simpa using hpre x hx)]
    simp [List.takeWhile_cons]
  have hps : ∀ p ∈ post.map (fun x => (x, getQuote x.Symbol x.Market)),
      p.1.Symbol ≠ r.Symbol := by
    intro p hp
    obtain ⟨x, hx, rfl⟩ := List.mem_map.1 hp
    intro e
    exact (List.nodup_cons.1 hpost).1 (List.mem_map.2 ⟨x, hx, e⟩)
  rw [htw]
  conv_lhs => rw [he, List.map_append, List.map_cons, checkRules_append]
  simp only [cmd.checkRules]
  exact checkRules_frame n _ _ r.Symbol hps

/-- C21 (as stated, refuted): Tuesday 2024-01-02 10:00 Eastern, which is 23:00 in Shanghai.
The market of the rule 600519.SS (tag CN) is closed, the US market is open, and the tick of
the watch loop runs `checkRules`: the quote of the rule is fetched and the stored set of its
symbol, absent before, is written. -/
theorem C21_tick_pass_fetches_a_rule_of_a_closed_market :
    stock.IsMarketOpen zoneEST zoneCST ruleCN.Market tuesday1000Eastern = false
    ∧ cmd.isMarketOpen zoneEST tuesday1000Eastern = true
    ∧ TriggeredState.empty ruleCN.Symbol = none
    ∧ (cmd.onTick okNotifier zoneEST quoteSource cfgCN tuesday1000Eastern false
        TriggeredState.empty).map (fun r => (r.quotes, r.state ruleCN.Symbol))
        = some ([("600519.SS", "CN")], some {"价格 $1200.00 超过 $1000.00"}) := by
  decide

/-- C21 (amended): a pass of the watch loop other than the first is gated on the US
calendar of the watch command only.  At a tick where `isMarketOpen` reports closed the loop
waits for the next open and returns without a pass when a signal arrives first; in every
other case `checkRules` runs, fetches the quote of every rule with the rule's own market
tag whatever that tag is, stores the current set for each rule whose fetch succeeds and
leaves the stored set of a rule whose fetch fails (symbols pairwise distinct). -/
theorem C21_tick_pass_is_gated_on_the_us_calendar_only (notifier : notify.Notifier)
    (easternTZ : time.Location) (getQuote : String → String → Except String stock.Quote)
    (cfg : config.Config) (now : time.Time) (signalled : Bool) (st : TriggeredState)
    (hd : (cfg.Rules.map (fun x => x.Symbol)).Nodup) :
    cmd.onTick notifier easternTZ getQuote cfg now signalled st
        = (if cmd.isMarketOpen easternTZ now = false ∧ signalled = true then none
           else some (cmd.runCheckRules notifier getQuote cfg st))
    ∧ (cmd.runCheckRules notifier getQuote cfg st).quotes
        = cfg.Rules.map (fun r => (r.Symbol, r.Market))
    ∧ (∀ r ∈ cfg.Rules, ∀ q, getQuote r.Symbol r.Market = Except.ok q →
        (cmd.runCheckRules notifier getQuote cfg st).state r.Symbol
          = some (rule.Evaluate r q).Reasons.toFinset)
    ∧ (∀ r ∈ cfg.Rules, ∀ e, getQuote r.Symbol r.Market = Except.error e →
        (cmd.runCheckRules notifier getQuote cfg st).state r.Symbol = st r.Symbol) := by
  refine ⟨?_, rfl, ?_, ?_⟩
  · unfold cmd.onTick
    cases cmd.isMarketOpen easternTZ now <;> cases signalled <;> simp
  · intro r hr q hq
    show (cmd.checkRules notifier _ st).1 r.Symbol = _
    rw [checkRules_state_of_mem notifier getQuote cfg.Rules st r hd hr, hq, checkRule_ok_state]
    simp
  · intro r hr e he
    have hpre : ∀ p ∈ (cfg.Rules.takeWhile (fun x => decide (x ≠ r))).map
        (fun x => (x, getQuote x.Symbol x.Market)), p.1.Symbol ≠ r.Symbol := by
      intro p hp
      obtain ⟨x, hx, rfl⟩ := List.mem_map.1 hp
      intro es
      have hxr : x ≠ r := by simpa using List.mem_takeWhile_imp hx
      have hxm : x ∈ cfg.Rules := (List.takeWhile_sublist _).subset hx
      exact hxr (List.inj_on_of_nodup_map hd hxm hr es)
    show (cmd.checkRules notifier _ st).1 r.Symbol = _
    rw [checkRules_state_of_mem notifier getQuote cfg.Rules st r hd hr, he]
    exact checkRules_frame notifier _ st r.Symbol hpre

theorem C21_tick_pass_is_gated_on_the_us_calendar_only_witness :
    (cfgCN.Rules.map (fun x => x.Symbol)).Nodup
    ∧ cmd.onTick okNotifier zoneEST quoteSource cfgCN saturday1200Eastern true
        TriggeredState.empty = none
    ∧ (cmd.runCheckRules okNotifier quoteSource cfgCN TriggeredState.empty).quotes
        = [("600519.SS", "CN")] :=
  have h := C21_tick_pass_is_gated_on_the_us_calendar_only okNotifier zoneEST quoteSource cfgCN
    saturday1200Eastern true TriggeredState.empty (by decide)
  ⟨by decide, h.1.trans (if_pos ⟨by decide, rfl⟩), h.2.1⟩

/-- C25 (evaluated on the code): on Sunday 2024-01-07 12:00 Shanghai time the CN market is
closed and GetNextMarketOpen("CN") returns 13:00 of that Sunday, when the market is closed,
instead of the nearest session start (Monday 09:30).  With the New York zone of 2024, on
Friday 2024-03-08 18:00 the US market is closed and GetNextMarketOpen("US") returns Monday
10:30, although the market is reported open at Monday 09:30, an instant between now and the
result: the session start of Monday 09:30 is skipped. -/
theorem C25_next_open_is_not_the_nearest_session_start :
    (stock.IsMarketOpen zoneEST zoneCST "CN" sunday1200Shanghai = false
      ∧ (stock.GetNextMarketOpen 8 zoneEST zoneCST "CN" sunday1200Shanghai).map
          (fun t => (t.Weekday, t.Clock, stock.IsMarketOpen zoneEST zoneCST "CN" t))
          = some (time.Sunday, (13, 0, 0), false))
    ∧ (stock.IsMarketOpen zoneNewYork2024 zoneCST "US" friday1800NewYorkMarch = false
      ∧ (stock.GetNextMarketOpen 8 zoneNewYork2024 zoneCST "US" friday1800NewYorkMarch).map
          (fun t => (t.Weekday, t.Clock)) = some (time.Monday, 10, 30, 0)
      ∧ friday1800NewYorkMarch.unixNano < monday0930NewYorkMarch.unixNano
      ∧ (stock.GetNextMarketOpen 8 zoneNewYork2024 zoneCST "US" friday1800NewYorkMarch).map
          (fun t => decide (monday0930NewYorkMarch.unixNano < t.unixNano)) = some true
      ∧ ((monday0930NewYorkMarch.In zoneNewYork2024).Weekday,
          (monday0930NewYorkMarch.In zoneNewYork2024).Clock) = (time.Monday, 9, 30, 0)
      ∧ stock.IsMarketOpen zoneNewYork2024 zoneCST "US" monday0930NewYorkMarch = true) := by
  decide
